import Mathlib

/-!
# Water simulation (`src/main.c`): shallow embedding and verified properties

The grid is the C array `Droplet state[TILE_WIDTH * TILE_HEIGHT]`.  It is
embedded as a map from `int` indices to droplets together with the array
length: every array access goes through `load` / `store`, which fail (`none`)
on an index outside `[0, STATE_LEN)`.  All functions that touch the array
therefore return an `Option`; `none` means "an out-of-range access happened".

C `int`s are embedded as `Int`.  A `float` volume is embedded as the rational
number (`ℚ`) it stands for.  The operations come in two readings: `fill`,
`cascade_cell`, ..., `game_update` compute over exact arithmetic (no result is
rounded); `fill_fp`, `cascade_cell_fp`, ..., `game_update_fp` take the
arithmetic as a parameter and round the result of every floating-point
operation of `main.c`, to binary32 and binary64 with `ieee_arith`.  With
`exact_arith` the second reading is the first.
-/

namespace WaterSim

/-! ## Constants and macros -/

/-- Macro `#define WIDTH 800`. -/
def WIDTH : Int := 800

/-- Macro `#define HEIGHT 400`. -/
def HEIGHT : Int := 400

/-- Macro `#define TILE_SIZE 10`. -/
def TILE_SIZE : Int := 10

/-- Macro `#define TILE_WIDTH WIDTH / TILE_SIZE` (C integer division truncates). -/
def TILE_WIDTH : Int := Int.tdiv WIDTH TILE_SIZE

/-- Macro `#define TILE_HEIGHT HEIGHT / TILE_SIZE`. -/
def TILE_HEIGHT : Int := Int.tdiv HEIGHT TILE_SIZE

/-- Length of `Droplet state[TILE_WIDTH * TILE_HEIGHT]`.  The macros are not
parenthesised, so the expression is `WIDTH / TILE_SIZE * HEIGHT / TILE_SIZE`,
read left to right. -/
def STATE_LEN : Int := Int.tdiv (Int.tdiv WIDTH TILE_SIZE * HEIGHT) TILE_SIZE

/-- The index expression `y*TILE_WIDTH+x`, which the preprocessor expands to
`y*WIDTH / TILE_SIZE+x`, that is `(y*WIDTH)/TILE_SIZE + x`. -/
def cell_index (x y : Int) : Int := Int.tdiv (y * WIDTH) TILE_SIZE + x

/-! ## Data model -/

/-- The struct `typedef struct { float volume; int size; } Droplet;`. -/
structure Droplet where
  volume : ℚ
  size : Int
  deriving DecidableEq, Repr

/-- Contents of a `Droplet` array, by index. -/
abbrev Cells := Int → Droplet

/-- The struct `typedef struct { int width; int height; Droplet state[...]; } Game;`. -/
structure Game where
  width : Int
  height : Int
  state : Cells

/-- Array read `state[i]`: fails outside the array. -/
def load (state : Cells) (i : Int) : Option Droplet :=
  if 0 ≤ i ∧ i < STATE_LEN then some (state i) else none

/-- Array write `state[i] = d`: fails outside the array. -/
def store (state : Cells) (i : Int) (d : Droplet) : Option Cells :=
  if 0 ≤ i ∧ i < STATE_LEN then some (Function.update state i d) else none

/-- The values `0, 1, ..., n-1` of an ascending loop counter. -/
def count_up (n : Int) : List Int := (List.range n.toNat).map Int.ofNat

/-- The values `top, top-1, ..., 0` of a descending loop counter. -/
def count_down (top : Int) : List Int := (count_up (top + 1)).reverse

/-! ## Operations -/

/-- The function `void fill(Droplet *current, Droplet *target, float max_volume, float flow_rate)`
over exact arithmetic; the two pointers are `&state[current]` and
`&state[target]`.  The reading with rounded operations is `fill_fp`. -/
def fill (state : Cells) (current target : Int) (max_volume flow_rate : ℚ) :
    Option Cells := do
  let t ← load state target
  let remainder := max_volume - t.volume
  let transfer := if remainder > flow_rate then flow_rate else remainder
  let c ← load state current
  let state ← store state current { c with volume := c.volume - transfer }
  let t ← load state target
  store state target { t with volume := t.volume + transfer }

/-- The function `bool can_flow_down(int x, int y, Droplet *state)`; `&&` short-circuits. -/
def can_flow_down (x y : Int) (state : Cells) : Option Bool :=
  if y + 1 < TILE_HEIGHT then do
    let below ← load state (cell_index x (y + 1))
    pure (decide (below.volume < 1))
  else pure false

/-- Body of both cascade loops of `try_horizontal_flow` over exact arithmetic,
for the cell at array index `current`, the candidate at array index `target`,
and the loop counter `offset`.  The reading with rounded operations is
`cascade_cell_fp`. -/
def cascade_cell (current target offset : Int) (state : Cells) : Option Cells := do
  let t ← load state target
  let c ← load state current
  if t.volume < c.volume then
    let flow_rate := (c.volume - t.volume) * (1 / 10) / (offset : ℚ)
    fill state current target 1 flow_rate
  else pure state

/-- The loop `for (int offset = 1; offset <= 3 && x+offset < TILE_WIDTH; offset++)`:
the list holds the remaining counter values allowed by `offset <= 3`; the loop
is left at the first one failing `x+offset < TILE_WIDTH`. -/
def cascade_right (x y : Int) : List Int → Cells → Option Cells
  | [], state => some state
  | offset :: rest, state =>
    if x + offset < TILE_WIDTH then do
      let state ← cascade_cell (cell_index x y) (cell_index (x + offset) y) offset state
      cascade_right x y rest state
    else some state

/-- The loop `for (int offset = 1; offset <= 3 && x-offset >= 0; offset++)`. -/
def cascade_left (x y : Int) : List Int → Cells → Option Cells
  | [], state => some state
  | offset :: rest, state =>
    if x - offset ≥ 0 then do
      let state ← cascade_cell (cell_index x y) (cell_index (x - offset) y) offset state
      cascade_left x y rest state
    else some state

/-- The function `void try_horizontal_flow(int x, int y, Droplet *state)` -/
def try_horizontal_flow (x y : Int) (state : Cells) : Option Cells := do
  let has_water_below ←
    if y + 1 < TILE_HEIGHT then do
      let below ← load state (cell_index x (y + 1))
      pure (decide (below.volume > 1 / 2))
    else pure false
  if !has_water_below then pure state
  else do
    let state ← cascade_right x y [1, 2, 3] state
    cascade_left x y [1, 2, 3] state

/-- The function `void create_water_generator(int x, int y, Droplet *state)` -/
def create_water_generator (x y : Int) (state : Cells) : Option Cells :=
  store state (cell_index x y) { size := TILE_SIZE, volume := 1 }

/-- The function `void process_water_cell(int x, int y, Droplet *new_state)` -/
def process_water_cell (x y : Int) (new_state : Cells) : Option Cells := do
  let new_state ← fill new_state (cell_index x y) (cell_index x (y + 1)) 1 (1 / 2)
  let c ← load new_state (cell_index x y)
  if c.volume = 0 then pure new_state
  else do
    let down ← can_flow_down x y new_state
    if down then pure new_state
    else try_horizontal_flow x y new_state

/-- Body of the copy loops: `dst[y*TILE_WIDTH+x] = src[y*TILE_WIDTH+x]`. -/
def copy_cell (src : Cells) (x y : Int) (dst : Cells) : Option Cells := do
  let d ← load src (cell_index x y)
  store dst (cell_index x y) d

/-- The copy loops of `game_update`:
`for (y = 0; y < TILE_HEIGHT; y++) for (x = 0; x < TILE_WIDTH; x++) dst[..] = src[..]`. -/
def copy_state (src dst : Cells) : Option Cells :=
  (count_up TILE_HEIGHT).foldlM
    (fun dst y => (count_up TILE_WIDTH).foldlM (fun dst x => copy_cell src x y dst) dst) dst

/-- Body of the simulation loop of `game_update`: the test reads the frozen
`g->state`, the processing works on `new_state`. -/
def update_cell (g : Game) (x y : Int) (new_state : Cells) : Option Cells := do
  let d ← load g.state (cell_index x y)
  if d.volume > 0 then
    if y + 1 < TILE_HEIGHT then process_water_cell x y new_state
    else pure new_state
  else pure new_state

/-- The inner simulation loop of `game_update`, for row `y`:
`for (int x = 0; x < TILE_WIDTH; x++) ...`. -/
def update_row (g : Game) (y : Int) (new_state : Cells) : Option Cells :=
  (count_up TILE_WIDTH).foldlM (fun st x => update_cell g x y st) new_state

/-- The outer simulation loop of `game_update`:
`for (int y = TILE_HEIGHT-1; y >= 0; y--) ...`. -/
def simulate (g : Game) (new_state : Cells) : Option Cells :=
  (count_down (TILE_HEIGHT - 1)).foldlM (fun st y => update_row g y st) new_state

/-- The function `void game_update(Game *g)`.  The local array `new_state` is uninitialised
before the first copy loop; it starts here with arbitrary (zero) contents. -/
def game_update (g : Game) : Option Game := do
  let new_state ← copy_state g.state (fun _ => { volume := 0, size := 0 })
  let new_state ← simulate g new_state
  let state ← copy_state new_state g.state
  pure { g with state := state }

/-- Sum of the volumes of all cells of the array. -/
def total_volume (state : Cells) : ℚ :=
  ((count_up STATE_LEN).map (fun i => (state i).volume)).sum

/-! ## Vocabulary of the statements -/

/-- Index `i` lies inside the array `state[TILE_WIDTH * TILE_HEIGHT]`. -/
def InArray (i : Int) : Prop := 0 ≤ i ∧ i < STATE_LEN

/-- Column `x` and row `y` name a cell of the grid. -/
def InGrid (x y : Int) : Prop := 0 ≤ x ∧ x < TILE_WIDTH ∧ 0 ≤ y ∧ y < TILE_HEIGHT

/-- The amount `transfer` that `fill` moves: `max_volume - target->volume`,
replaced by `flow_rate` when it exceeds `flow_rate`. -/
def fill_amount (max_volume target_volume flow_rate : ℚ) : ℚ :=
  if max_volume - target_volume > flow_rate then flow_rate else max_volume - target_volume

/-- The array after `a` units of volume have been taken from cell `current`
and then added to cell `target` (the two assignments of `fill`, in order). -/
def move (state : Cells) (current target : Int) (a : ℚ) : Cells :=
  let s1 := Function.update state current { state current with volume := (state current).volume - a }
  Function.update s1 target { s1 target with volume := (s1 target).volume + a }

/-- The array after one pass through the body of a cascade loop: volume moves
from `current` to `target` when the target holds strictly less. -/
def cascade_result (state : Cells) (current target offset : Int) : Cells :=
  if (state target).volume < (state current).volume then
    move state current target (fill_amount 1 (state target).volume
      (((state current).volume - (state target).volume) * (1 / 10) / (offset : ℚ)))
  else state

/-- One transfer that `process_water_cell x y` can make: the source is cell
`(x, y)`, which has a row below it; the target `(x', y')` is the cell below it
or a cell of the same row at most three columns away. -/
def FlowStep (x y x' y' : Int) : Prop :=
  InGrid x y ∧ y + 1 < TILE_HEIGHT ∧ InGrid x' y' ∧
    ((x' = x ∧ y' = y + 1) ∨ (y' = y ∧ x' ≠ x ∧ x - 3 ≤ x' ∧ x' ≤ x + 3))

/-- Property `I` of the array survives every transfer that processing cell
`(x, y)` can make: any `FlowStep` from `(x, y)` with capacity `1` and a
non-negative rate. -/
def StableUnderFlowFrom (x y : Int) (I : Cells → Prop) : Prop :=
  ∀ (st : Cells) (x' y' : Int) (r : ℚ), I st → FlowStep x y x' y' → 0 ≤ r →
    I (move st (cell_index x y) (cell_index x' y')
        (fill_amount 1 (st (cell_index x' y')).volume r))

/-- Property `I` of the array survives every transfer the flow engine can make. -/
def StableUnderFlow (I : Cells → Prop) : Prop :=
  ∀ x y : Int, StableUnderFlowFrom x y I

/-- Property `I` only looks at the cells inside the array. -/
def ArrayLocal (I : Cells → Prop) : Prop :=
  ∀ s s' : Cells, (∀ i, InArray i → s i = s' i) → I s → I s'

/-- The contents of `new_state` after the first copy loop of `game_update`. -/
def snapshot (g : Game) : Cells :=
  fun i => if 0 ≤ i ∧ i < 3200 then g.state i else { volume := 0, size := 0 }

/-- The contents of `g->state` after the last copy loop of `game_update`. -/
def commit (g : Game) (new_state : Cells) : Cells :=
  fun i => if 0 ≤ i ∧ i < 3200 then new_state i else g.state i

/-- Every cell of the array holds at most the capacity `1`. -/
def AtMostFull (state : Cells) : Prop := ∀ i, InArray i → (state i).volume ≤ 1

/-- What `main` does to the grid between two frames: a simulation step
(`game_update`) or an injection (`create_water_generator` at a cell). -/
inductive Action where
  | step : Action
  | inject : Int → Int → Action

/-- Perform one action on the game. -/
def run_action (g : Game) : Action → Option Game
  | Action.step => game_update g
  | Action.inject x y => (create_water_generator x y g.state).map (fun s => { g with state := s })

/-- Perform a sequence of actions, first to last. -/
def run_actions (actions : List Action) (g : Game) : Option Game :=
  actions.foldlM run_action g

/-- The action is a step or an injection at a cell of the grid. -/
def Action.Valid : Action → Prop
  | Action.step => True
  | Action.inject x y => InGrid x y

/-- The game after `game_update`, given the final contents of `new_state`. -/
def committed (g : Game) (new_state : Cells) : Game :=
  { g with state := commit g new_state }

/-- The grid as `main` initialises it: every volume `0`, every size `TILE_SIZE`. -/
def empty_game : Game :=
  { width := WIDTH, height := HEIGHT, state := fun _ => { volume := 0, size := TILE_SIZE } }

/-- Bookkeeping for the lateral spread out of cell `(x, y)` after `n` passes
through a cascade body, relative to the array `s0` before the spread: the other
rows are untouched, the volumes of row `y` lie in `[0, 1]`, and the volume of
`(x, y)` lies between `(9/10)^n * lo` and `hi`. -/
def RowBounds (s0 : Cells) (x y : Int) (lo hi : ℚ) (n : Nat) (s : Cells) : Prop :=
  (∀ x' y', InGrid x' y' → y' ≠ y → s (cell_index x' y') = s0 (cell_index x' y')) ∧
  (∀ x', InGrid x' y → 0 ≤ (s (cell_index x' y)).volume ∧ (s (cell_index x' y)).volume ≤ 1) ∧
  (9 / 10 : ℚ) ^ n * lo ≤ (s (cell_index x y)).volume ∧ (s (cell_index x y)).volume ≤ hi

/-- The grid with volume `1` in the three cells `(x, y)`, `(x, y + 1)`,
`(x, y + 2)` and volume `0` everywhere else. -/
def column_game (x y : Int) : Game :=
  { width := WIDTH, height := HEIGHT,
    state := fun i =>
      if i = cell_index x y ∨ i = cell_index x (y + 1) ∨ i = cell_index x (y + 2) then
        { volume := 1, size := TILE_SIZE }
      else { volume := 0, size := TILE_SIZE } }

/-- The grid with volume `v` in cell `(x, y)` and volume `0` everywhere else. -/
def single_cell_game (x y : Int) (v : ℚ) : Game :=
  { width := WIDTH, height := HEIGHT,
    state := fun i => if i = cell_index x y then { volume := v, size := TILE_SIZE }
      else { volume := 0, size := TILE_SIZE } }

/-- The guard of `try_horizontal_flow`, on its own:
`y + 1 < TILE_HEIGHT && state[(y+1)*TILE_WIDTH+x].volume > 0.5`. -/
def has_water_below (x y : Int) (state : Cells) : Option Bool :=
  if y + 1 < TILE_HEIGHT then do
    let below ← load state (cell_index x (y + 1))
    pure (decide (below.volume > 1 / 2))
  else pure false

/-- Control flow of `process_water_cell x y`: whether the call gets to the
cascade loops of `try_horizontal_flow`, that is, passes the two early returns
of `process_water_cell` and then the early return of `try_horizontal_flow`. -/
def reaches_cascade (x y : Int) (new_state : Cells) : Option Bool := do
  let new_state ← fill new_state (cell_index x y) (cell_index x (y + 1)) 1 (1 / 2)
  let c ← load new_state (cell_index x y)
  if c.volume = 0 then pure false
  else do
    let down ← can_flow_down x y new_state
    if down then pure false
    else has_water_below x y new_state

/-- Sum of the volumes of the cells of row `y`. -/
def row_volume (y : Int) (state : Cells) : ℚ :=
  ((count_up TILE_WIDTH).map (fun x => (state (cell_index x y)).volume)).sum

/-- Sum of the volumes of the cells of rows `0, ..., y`. -/
def rows_volume (y : Int) (state : Cells) : ℚ :=
  ((count_up (y + 1)).map (fun r => row_volume r state)).sum

/-- The grid with volume `a` in cell `(x, y)`, volume `b` in the cell below it
and volume `0` everywhere else. -/
def stacked_game (x y : Int) (a b : ℚ) : Game :=
  { width := WIDTH, height := HEIGHT,
    state := fun i =>
      if i = cell_index x y then { volume := a, size := TILE_SIZE }
      else if i = cell_index x (y + 1) then { volume := b, size := TILE_SIZE }
      else { volume := 0, size := TILE_SIZE } }

/-- The grid whose bottom `k` rows hold `1` in every cell and whose other rows
hold `0` in every cell. -/
def pool_game (k : Int) : Game :=
  { width := WIDTH, height := HEIGHT,
    state := fun i =>
      if cell_index 0 (TILE_HEIGHT - k) ≤ i then { volume := 1, size := TILE_SIZE }
      else { volume := 0, size := TILE_SIZE } }

/-- The data model of the grid: the size of every cell is the fixed tile edge
length `TILE_SIZE` (as `main` initialises it). -/
def UniformSize (state : Cells) : Prop := ∀ i, InArray i → (state i).size = TILE_SIZE

/-! ## Binary floating point -/

/-- Nearest integer to `x`, the even one of the two when `x` lies half-way
between two integers. -/
def round_half_even (x : ℚ) : Int :=
  if x - ⌊x⌋ < 1 / 2 then ⌊x⌋
  else if x - ⌊x⌋ > 1 / 2 then ⌊x⌋ + 1
  else if ⌊x⌋ % 2 = 0 then ⌊x⌋ else ⌊x⌋ + 1

/-- Value of the exact number `x` after rounding to the binary floating-point
format with `p` significant bits and least exponent `emin`, to nearest with
ties to even (the rounding of C arithmetic by default).  A number with
`2^e ≤ |x| < 2^(e+1)` is rounded to a multiple of `2^(e-(p-1))`; below `2^emin`
the spacing stays `2^(emin-(p-1))` (subnormal numbers).  Overflow to infinity
is left out: the numbers of this program stay far below the largest finite
value of either format. -/
def fp_round (p : Nat) (emin : Int) (x : ℚ) : ℚ :=
  (round_half_even (x / (2 : ℚ) ^ (max (Int.log 2 |x|) emin - ((p : Int) - 1))) : ℚ) *
    (2 : ℚ) ^ (max (Int.log 2 |x|) emin - ((p : Int) - 1))

/-- The arithmetic the program is run with: the value a result takes when it is
stored in a `float`, and in a `double`. -/
structure Arith where
  to_float : ℚ → ℚ
  to_double : ℚ → ℚ

/-- Exact arithmetic: no result is rounded. -/
def exact_arith : Arith := { to_float := fun q => q, to_double := fun q => q }

/-- IEEE 754 arithmetic: `float` is binary32 (24 significant bits, least exponent
`-126`), `double` is binary64 (53 significant bits, least exponent `-1022`). -/
def ieee_arith : Arith :=
  { to_float := fp_round 24 (-126), to_double := fp_round 53 (-1022) }

/-! ## Operations, with the rounding of every floating-point operation -/

/-- The function `fill` of `main.c` with each of its three `float` operations
rounded: `max_volume - target->volume`, `current->volume -= transfer` and
`target->volume += transfer`.  With `exact_arith` it is `fill`. -/
def fill_fp (A : Arith) (state : Cells) (current target : Int) (max_volume flow_rate : ℚ) :
    Option Cells := do
  let t ← load state target
  let remainder := A.to_float (max_volume - t.volume)
  let transfer := if remainder > flow_rate then flow_rate else remainder
  let c ← load state current
  let state ← store state current { c with volume := A.to_float (c.volume - transfer) }
  let t ← load state target
  store state target { t with volume := A.to_float (t.volume + transfer) }

/-- The initialiser of `float flow_rate` in `try_horizontal_flow`:
`(current->volume - target->volume) * 0.1 / offset`.  The difference of two
`float`s is a `float`; `0.1` is a `double` constant, so the product and the
quotient by the `int` offset are `double`s; the result is stored in a `float`. -/
def flow_rate_fp (A : Arith) (current_volume target_volume : ℚ) (offset : Int) : ℚ :=
  A.to_float (A.to_double (A.to_double
    (A.to_float (current_volume - target_volume) * A.to_double (1 / 10)) / (offset : ℚ)))

/-- Body of both cascade loops of `try_horizontal_flow`, with rounding.  With
`exact_arith` it is `cascade_cell`. -/
def cascade_cell_fp (A : Arith) (current target offset : Int) (state : Cells) :
    Option Cells := do
  let t ← load state target
  let c ← load state current
  if t.volume < c.volume then
    fill_fp A state current target 1 (flow_rate_fp A c.volume t.volume offset)
  else pure state

/-- The right cascade loop of `try_horizontal_flow`, with rounding. -/
def cascade_right_fp (A : Arith) (x y : Int) : List Int → Cells → Option Cells
  | [], state => some state
  | offset :: rest, state =>
    if x + offset < TILE_WIDTH then do
      let state ← cascade_cell_fp A (cell_index x y) (cell_index (x + offset) y) offset state
      cascade_right_fp A x y rest state
    else some state

/-- The left cascade loop of `try_horizontal_flow`, with rounding. -/
def cascade_left_fp (A : Arith) (x y : Int) : List Int → Cells → Option Cells
  | [], state => some state
  | offset :: rest, state =>
    if x - offset ≥ 0 then do
      let state ← cascade_cell_fp A (cell_index x y) (cell_index (x - offset) y) offset state
      cascade_left_fp A x y rest state
    else some state

/-- The function `try_horizontal_flow` of `main.c`, with rounding.  The
comparison with the `double` constant `0.5` is exact. -/
def try_horizontal_flow_fp (A : Arith) (x y : Int) (state : Cells) : Option Cells := do
  let has_water_below ←
    if y + 1 < TILE_HEIGHT then do
      let below ← load state (cell_index x (y + 1))
      pure (decide (below.volume > 1 / 2))
    else pure false
  if !has_water_below then pure state
  else do
    let state ← cascade_right_fp A x y [1, 2, 3] state
    cascade_left_fp A x y [1, 2, 3] state

/-- The function `process_water_cell` of `main.c`, with rounding.  The
constants `1.0` and `0.5` are `float`s exactly, and `can_flow_down` only
compares. -/
def process_water_cell_fp (A : Arith) (x y : Int) (new_state : Cells) : Option Cells := do
  let new_state ← fill_fp A new_state (cell_index x y) (cell_index x (y + 1)) 1 (1 / 2)
  let c ← load new_state (cell_index x y)
  if c.volume = 0 then pure new_state
  else do
    let down ← can_flow_down x y new_state
    if down then pure new_state
    else try_horizontal_flow_fp A x y new_state

/-- Control flow of `process_water_cell`, with rounding: whether the call gets
to the cascade loops of `try_horizontal_flow`.  With `exact_arith` it is
`reaches_cascade`. -/
def reaches_cascade_fp (A : Arith) (x y : Int) (new_state : Cells) : Option Bool := do
  let new_state ← fill_fp A new_state (cell_index x y) (cell_index x (y + 1)) 1 (1 / 2)
  let c ← load new_state (cell_index x y)
  if c.volume = 0 then pure false
  else do
    let down ← can_flow_down x y new_state
    if down then pure false
    else has_water_below x y new_state

/-- Body of the simulation loop of `game_update`, with rounding. -/
def update_cell_fp (A : Arith) (g : Game) (x y : Int) (new_state : Cells) : Option Cells := do
  let d ← load g.state (cell_index x y)
  if d.volume > 0 then
    if y + 1 < TILE_HEIGHT then process_water_cell_fp A x y new_state
    else pure new_state
  else pure new_state

/-- The inner simulation loop of `game_update`, with rounding. -/
def update_row_fp (A : Arith) (g : Game) (y : Int) (new_state : Cells) : Option Cells :=
  (count_up TILE_WIDTH).foldlM (fun st x => update_cell_fp A g x y st) new_state

/-- The outer simulation loop of `game_update`, with rounding. -/
def simulate_fp (A : Arith) (g : Game) (new_state : Cells) : Option Cells :=
  (count_down (TILE_HEIGHT - 1)).foldlM (fun st y => update_row_fp A g y st) new_state

/-- The function `game_update` of `main.c`, with rounding (the copy loops do no
arithmetic).  With `exact_arith` it is `game_update`. -/
def game_update_fp (A : Arith) (g : Game) : Option Game := do
  let new_state ← copy_state g.state (fun _ => { volume := 0, size := 0 })
  let new_state ← simulate_fp A g new_state
  let state ← copy_state new_state g.state
  pure { g with state := state }

/-- The amount `transfer` that `fill` moves, with the subtraction rounded. -/
def fill_amount_fp (A : Arith) (max_volume target_volume flow_rate : ℚ) : ℚ :=
  if A.to_float (max_volume - target_volume) > flow_rate then flow_rate
  else A.to_float (max_volume - target_volume)

/-- The array after the two assignments of `fill` for the amount `a`, each
rounded: `current->volume -= a`, then `target->volume += a`. -/
def move_fp (A : Arith) (state : Cells) (current target : Int) (a : ℚ) : Cells :=
  let s1 := Function.update state current
    { state current with volume := A.to_float ((state current).volume - a) }
  Function.update s1 target { s1 target with volume := A.to_float ((s1 target).volume + a) }

/-! ## Basic facts: constants, indices, array access -/

theorem TILE_WIDTH_eq : TILE_WIDTH = 80 := by decide

theorem TILE_HEIGHT_eq : TILE_HEIGHT = 40 := by decide

theorem STATE_LEN_eq : STATE_LEN = 3200 := by decide

theorem cell_index_eq (x y : Int) : cell_index x y = 80 * y + x := by
  unfold cell_index WIDTH TILE_SIZE
  have h : y * 800 = (80 * y) * 10 := by ring
  rw [h, Int.mul_tdiv_cancel _ (by decide)]

theorem inArray_iff (i : Int) : InArray i ↔ 0 ≤ i ∧ i < 3200 := by
  unfold InArray; rw [STATE_LEN_eq]

theorem inGrid_iff (x y : Int) : InGrid x y ↔ 0 ≤ x ∧ x < 80 ∧ 0 ≤ y ∧ y < 40 := by
  unfold InGrid; rw [TILE_WIDTH_eq, TILE_HEIGHT_eq]

theorem inArray_cell_index {x y : Int} (h : InGrid x y) : InArray (cell_index x y) := by
  rw [inGrid_iff] at h
  rw [inArray_iff, cell_index_eq]
  omega

theorem load_eq {state : Cells} {i : Int} (h : InArray i) : load state i = some (state i) := by
  unfold load; exact if_pos h

theorem store_eq {state : Cells} {i : Int} (h : InArray i) (d : Droplet) :
    store state i d = some (Function.update state i d) := by
  unfold store; exact if_pos h

theorem load_eq_none {state : Cells} {i : Int} (h : ¬ InArray i) : load state i = none := by
  unfold load; exact if_neg h

theorem store_eq_none {state : Cells} {i : Int} (h : ¬ InArray i) (d : Droplet) :
    store state i d = none := by
  unfold store; exact if_neg h

theorem fill_eq {state : Cells} {current target : Int} (hc : InArray current)
    (ht : InArray target) (max_volume flow_rate : ℚ) :
    fill state current target max_volume flow_rate =
      some (move state current target (fill_amount max_volume (state target).volume flow_rate)) := by
  unfold fill
  simp only [load_eq ht, load_eq hc, store_eq hc, store_eq ht, Option.bind_eq_bind, Option.some_bind]
  rfl

/-! ## Loop rules for the counting loops -/

theorem count_up_succ (m : Nat) :
    count_up ((m : Int) + 1) = count_up (m : Int) ++ [(m : Int)] := by
  unfold count_up
  have h : ((m : Int) + 1).toNat = m + 1 := by omega
  rw [h, Int.toNat_ofNat, List.range_succ, List.map_append]
  rfl

theorem count_up_zero : count_up 0 = [] := rfl

/-- Invariant rule for an ascending loop: `J k` holds before the iteration with
counter value `k`, and every iteration succeeds. -/
theorem count_up_rule {α : Type} (f : α → Int → Option α) (J : Int → α → Prop) (m : Nat)
    (st : α) (h0 : J 0 st)
    (hstep : ∀ (k : Int) (s : α), 0 ≤ k → k < m → J k s → ∃ s', f s k = some s' ∧ J (k + 1) s') :
    ∃ s', (count_up (m : Int)).foldlM f st = some s' ∧ J (m : Int) s' := by
  induction m with
  | zero => exact ⟨st, by simp [count_up_zero], by simpa using h0⟩
  | succ m ih =>
    obtain ⟨s1, h1, hJ1⟩ := ih (fun k s hk hkm hJ => hstep k s hk (by push_cast; omega) hJ)
    obtain ⟨s2, h2, hJ2⟩ := hstep (m : Int) s1 (by omega) (by push_cast; omega) hJ1
    refine ⟨s2, ?_, by push_cast; exact hJ2⟩
    have hm : ((m + 1 : Nat) : Int) = (m : Int) + 1 := by push_cast; rfl
    rw [hm, count_up_succ, List.foldlM_append, h1]
    simp [h2]

/-- Invariant rule for a descending loop from `m - 1` down to `0`: `J (k + 1)`
holds before the iteration with counter value `k`, and `J k` after it. -/
theorem count_down_rule {α : Type} (f : α → Int → Option α) (J : Int → α → Prop) (m : Nat)
    (st : α) (h0 : J (m : Int) st)
    (hstep : ∀ (k : Int) (s : α), 0 ≤ k → k < m → J (k + 1) s → ∃ s', f s k = some s' ∧ J k s') :
    ∃ s', (count_down ((m : Int) - 1)).foldlM f st = some s' ∧ J 0 s' := by
  induction m generalizing st with
  | zero => exact ⟨st, by simp [count_down, count_up_zero], by simpa using h0⟩
  | succ m ih =>
    have hm : ((m + 1 : Nat) : Int) = (m : Int) + 1 := by push_cast; rfl
    obtain ⟨s1, h1, hJ1⟩ := hstep (m : Int) st (by omega) (by omega) (by rw [← hm]; exact h0)
    obtain ⟨s2, h2, hJ2⟩ := ih s1 hJ1 (fun k s hk hkm hJ => hstep k s hk (by omega) hJ)
    refine ⟨s2, ?_, hJ2⟩
    have hl : count_down (((m + 1 : Nat) : Int) - 1) = (m : Int) :: count_down ((m : Int) - 1) := by
      unfold count_down
      rw [hm]
      have e1 : (m : Int) + 1 - 1 + 1 = (m : Int) + 1 := by ring
      have e2 : (m : Int) - 1 + 1 = (m : Int) := by ring
      rw [e1, e2, count_up_succ, List.reverse_append]
      rfl
    rw [hl, List.foldlM_cons, h1]
    simpa using h2

/-! ## The copy loops -/

theorem copy_cell_eq {src dst : Cells} {x y : Int} (h : InGrid x y) :
    copy_cell src x y dst = some (Function.update dst (cell_index x y) (src (cell_index x y))) := by
  unfold copy_cell
  simp only [load_eq (inArray_cell_index h), store_eq (inArray_cell_index h),
    Option.bind_eq_bind, Option.some_bind]

/-- The copy loops succeed and overwrite exactly the cells of the array. -/
theorem copy_state_eq (src dst : Cells) :
    copy_state src dst = some (fun i => if 0 ≤ i ∧ i < 3200 then src i else dst i) := by
  have key := count_up_rule
    (fun d y => (count_up TILE_WIDTH).foldlM (fun d x => copy_cell src x y d) d)
    (fun k d => d = fun i => if 0 ≤ i ∧ i < 80 * k then src i else dst i) 40 dst
    (by funext i; rw [if_neg]; omega)
    (by
      intro y d hy0 hy40 hd
      have inner := count_up_rule (fun d x => copy_cell src x y d)
        (fun j d => d = fun i => if 0 ≤ i ∧ i < 80 * y + j then src i else dst i) 80 d
        (by simpa using hd)
        (by
          intro x d' hx0 hx80 hd'
          have hg : InGrid x y := by rw [inGrid_iff]; omega
          refine ⟨_, copy_cell_eq hg, ?_⟩
          funext i
          rw [cell_index_eq, hd']
          by_cases hi : i = 80 * y + x
          · subst hi
            have : 0 ≤ 80 * y + x ∧ 80 * y + x < 80 * y + (x + 1) := by omega
            simp [this]
          · rw [Function.update_noteq hi]
            by_cases h1 : 0 ≤ i ∧ i < 80 * y + x
            · have : 0 ≤ i ∧ i < 80 * y + (x + 1) := by omega
              simp [h1, this]
            · have : ¬ (0 ≤ i ∧ i < 80 * y + (x + 1)) := by omega
              simp [h1, this])
      obtain ⟨d', h1, h2⟩ := inner
      refine ⟨d', by simpa [TILE_WIDTH_eq] using h1, ?_⟩
      rw [h2]
      funext i
      have : (80 * y + ((80 : Nat) : Int)) = 80 * (y + 1) := by push_cast; ring
      rw [this])
  obtain ⟨d, h1, h2⟩ := key
  unfold copy_state
  rw [TILE_HEIGHT_eq]
  have e : ((40 : Nat) : Int) = 40 := rfl
  rw [e] at h1 h2
  rw [h1, h2]
  norm_num

/-! ## Moving volume between two cells -/

theorem move_target {state : Cells} {current target : Int} (a : ℚ) (h : current ≠ target) :
    move state current target a target =
      { volume := (state target).volume + a, size := (state target).size } := by
  simp [move, Function.update_noteq (Ne.symm h)]

theorem move_current {state : Cells} {current target : Int} (a : ℚ) (h : current ≠ target) :
    move state current target a current =
      { volume := (state current).volume - a, size := (state current).size } := by
  simp [move, Function.update_noteq h]

theorem move_other {state : Cells} {current target i : Int} (a : ℚ) (hc : i ≠ current)
    (ht : i ≠ target) : move state current target a i = state i := by
  simp [move, Function.update_noteq hc, Function.update_noteq ht]

theorem move_zero (state : Cells) (current target : Int) : move state current target 0 = state := by
  funext i
  by_cases ht : i = target
  · subst ht
    by_cases hc : i = current
    · subst hc; simp [move]
    · simp [move, Function.update_noteq hc]
  · by_cases hc : i = current
    · subst hc; simp [move, Function.update_noteq ht]
    · simp [move, Function.update_noteq hc, Function.update_noteq ht]

theorem move_size (state : Cells) (current target i : Int) (a : ℚ) :
    (move state current target a i).size = (state i).size := by
  by_cases ht : i = target
  · subst ht
    by_cases hc : i = current
    · subst hc; simp [move]
    · simp [move, Function.update_noteq hc]
  · by_cases hc : i = current
    · subst hc; simp [move, Function.update_noteq ht]
    · simp [move, Function.update_noteq hc, Function.update_noteq ht]

/-! ## Closed forms and the invariant rules of the flow engine -/

theorem cascade_cell_eq {state : Cells} {current target : Int} (offset : Int)
    (hc : InArray current) (ht : InArray target) :
    cascade_cell current target offset state =
      some (cascade_result state current target offset) := by
  unfold cascade_cell cascade_result
  simp only [load_eq ht, load_eq hc, Option.bind_eq_bind, Option.some_bind]
  split
  · rw [fill_eq hc ht]
  · rfl

theorem flowStep_inArray {x y x' y' : Int} (h : FlowStep x y x' y') :
    InArray (cell_index x y) ∧ InArray (cell_index x' y') ∧ cell_index x y ≠ cell_index x' y' := by
  obtain ⟨h1, -, h2, h3⟩ := h
  refine ⟨inArray_cell_index h1, inArray_cell_index h2, ?_⟩
  rw [inGrid_iff] at h1 h2
  rw [cell_index_eq, cell_index_eq]
  omega

/-- Step-counting rule for the right cascade loop: `J k` holds after `k` passes
through the loop body; the loop succeeds after at most `offsets.length` passes. -/
theorem cascade_right_rule {J : Nat → Cells → Prop} {x y : Int} (hg : InGrid x y)
    (offsets : List Int) (ho : ∀ o ∈ offsets, 1 ≤ o ∧ o ≤ 3) (n : Nat) (st : Cells) (h : J n st)
    (hstep : ∀ (k : Nat) (s : Cells) (o : Int), o ∈ offsets → x + o < TILE_WIDTH → J k s →
      J (k + 1) (cascade_result s (cell_index x y) (cell_index (x + o) y) o)) :
    ∃ st' m, cascade_right x y offsets st = some st' ∧ J m st' ∧ n ≤ m ∧
      m ≤ n + offsets.length := by
  induction offsets generalizing st n with
  | nil => exact ⟨st, n, rfl, h, le_refl _, by simp⟩
  | cons o rest ih =>
    have ho1 := ho o (List.mem_cons_self _ _)
    unfold cascade_right
    split
    · rename_i hlt
      have ht : InArray (cell_index (x + o) y) := by
        apply inArray_cell_index
        rw [inGrid_iff] at hg ⊢
        rw [TILE_WIDTH_eq] at hlt
        omega
      have h1 := hstep n st o (List.mem_cons_self _ _) hlt h
      obtain ⟨s2, m, h2, hJ2, hm1, hm2⟩ :=
        ih (fun o' ho' => ho o' (List.mem_cons_of_mem _ ho')) (n + 1) _ h1
          (fun k s o' ho' => hstep k s o' (List.mem_cons_of_mem _ ho'))
      refine ⟨s2, m, ?_, hJ2, by omega, by simp only [List.length_cons]; omega⟩
      simp [cascade_cell_eq o (inArray_cell_index hg) ht, h2]
    · exact ⟨st, n, rfl, h, le_refl _, by simp⟩

/-- Step-counting rule for the left cascade loop. -/
theorem cascade_left_rule {J : Nat → Cells → Prop} {x y : Int} (hg : InGrid x y)
    (offsets : List Int) (ho : ∀ o ∈ offsets, 1 ≤ o ∧ o ≤ 3) (n : Nat) (st : Cells) (h : J n st)
    (hstep : ∀ (k : Nat) (s : Cells) (o : Int), o ∈ offsets → x - o ≥ 0 → J k s →
      J (k + 1) (cascade_result s (cell_index x y) (cell_index (x - o) y) o)) :
    ∃ st' m, cascade_left x y offsets st = some st' ∧ J m st' ∧ n ≤ m ∧
      m ≤ n + offsets.length := by
  induction offsets generalizing st n with
  | nil => exact ⟨st, n, rfl, h, le_refl _, by simp⟩
  | cons o rest ih =>
    have ho1 := ho o (List.mem_cons_self _ _)
    unfold cascade_left
    split
    · rename_i hge
      have ht : InArray (cell_index (x - o) y) := by
        apply inArray_cell_index
        rw [inGrid_iff] at hg ⊢
        omega
      have h1 := hstep n st o (List.mem_cons_self _ _) hge h
      obtain ⟨s2, m, h2, hJ2, hm1, hm2⟩ :=
        ih (fun o' ho' => ho o' (List.mem_cons_of_mem _ ho')) (n + 1) _ h1
          (fun k s o' ho' => hstep k s o' (List.mem_cons_of_mem _ ho'))
      refine ⟨s2, m, ?_, hJ2, by omega, by simp only [List.length_cons]; omega⟩
      simp [cascade_cell_eq o (inArray_cell_index hg) ht, h2]
    · exact ⟨st, n, rfl, h, le_refl _, by simp⟩

/-- One pass through a cascade body keeps a property that is stable under the
transfers from `(x, y)`. -/
theorem cascade_result_inv {I : Cells → Prop} {x y : Int} (hI : StableUnderFlowFrom x y I)
    {x' : Int} {offset : Int} (ho : 0 < offset) (hs : FlowStep x y x' y) {st : Cells} (h : I st) :
    I (cascade_result st (cell_index x y) (cell_index x' y) offset) := by
  unfold cascade_result
  split
  · rename_i hlt
    apply hI st x' y _ h hs
    have h1 : (0 : ℚ) < (offset : ℚ) := by exact_mod_cast ho
    have h2 : 0 < (st (cell_index x y)).volume - (st (cell_index x' y)).volume := by linarith
    positivity
  · exact h

theorem cascade_right_inv {I : Cells → Prop} {x y : Int} (hI : StableUnderFlowFrom x y I)
    (hg : InGrid x y) (hy : y + 1 < TILE_HEIGHT) (offsets : List Int)
    (ho : ∀ o ∈ offsets, 1 ≤ o ∧ o ≤ 3) (st : Cells)
    (h : I st) : ∃ st', cascade_right x y offsets st = some st' ∧ I st' := by
  obtain ⟨st', m, h1, h2, -, -⟩ := cascade_right_rule (J := fun _ s => I s) hg offsets ho 0 st h
    (by
      intro k s o hmem hlt hs
      have ho1 := ho o hmem
      have hg' := hg
      rw [inGrid_iff] at hg'
      rw [TILE_WIDTH_eq] at hlt
      refine cascade_result_inv hI (by omega) ⟨hg, hy, ?_, Or.inr ⟨rfl, ?_, ?_, ?_⟩⟩ hs
      · rw [inGrid_iff]; omega
      all_goals omega)
  exact ⟨st', h1, h2⟩

theorem cascade_left_inv {I : Cells → Prop} {x y : Int} (hI : StableUnderFlowFrom x y I)
    (hg : InGrid x y) (hy : y + 1 < TILE_HEIGHT) (offsets : List Int)
    (ho : ∀ o ∈ offsets, 1 ≤ o ∧ o ≤ 3) (st : Cells)
    (h : I st) : ∃ st', cascade_left x y offsets st = some st' ∧ I st' := by
  obtain ⟨st', m, h1, h2, -, -⟩ := cascade_left_rule (J := fun _ s => I s) hg offsets ho 0 st h
    (by
      intro k s o hmem hge hs
      have ho1 := ho o hmem
      have hg' := hg
      rw [inGrid_iff] at hg'
      refine cascade_result_inv hI (by omega) ⟨hg, hy, ?_, Or.inr ⟨rfl, ?_, ?_, ?_⟩⟩ hs
      · rw [inGrid_iff]; omega
      all_goals omega)
  exact ⟨st', h1, h2⟩

theorem offsets_123 : ∀ o ∈ ([1, 2, 3] : List Int), 1 ≤ o ∧ o ≤ 3 := by
  intro o ho
  simp only [List.mem_cons, List.mem_singleton, List.not_mem_nil, or_false] at ho
  omega

theorem inGrid_below {x y : Int} (hg : InGrid x y) (hy : y + 1 < TILE_HEIGHT) :
    InGrid x (y + 1) := by
  rw [TILE_HEIGHT_eq] at hy
  rw [inGrid_iff] at hg ⊢
  omega

/-- Closed form of the guard of `try_horizontal_flow` for a cell that has a row
below it. -/
theorem try_horizontal_flow_eq {x y : Int} (hg : InGrid x y) (hy : y + 1 < TILE_HEIGHT)
    (state : Cells) :
    try_horizontal_flow x y state =
      if (state (cell_index x (y + 1))).volume > 1 / 2 then
        (cascade_right x y [1, 2, 3] state).bind (cascade_left x y [1, 2, 3])
      else some state := by
  unfold try_horizontal_flow
  simp only [if_pos hy, load_eq (inArray_cell_index (inGrid_below hg hy)), Option.bind_eq_bind,
    Option.some_bind, Option.pure_def]
  by_cases h : (state (cell_index x (y + 1))).volume > 1 / 2
  · rw [if_pos h]
    simp only [decide_eq_true h, Bool.not_true, Bool.false_eq_true, if_false]
  · rw [if_neg h]
    simp only [decide_eq_false h, Bool.not_false, if_true]

theorem try_horizontal_flow_inv {I : Cells → Prop} {x y : Int}
    (hI : StableUnderFlowFrom x y I) (hg : InGrid x y) (st : Cells) (h : I st) :
    ∃ st', try_horizontal_flow x y st = some st' ∧ I st' := by
  by_cases hy : y + 1 < TILE_HEIGHT
  · rw [try_horizontal_flow_eq hg hy]
    split
    · obtain ⟨s1, h1, hI1⟩ := cascade_right_inv hI hg hy _ offsets_123 st h
      obtain ⟨s2, h2, hI2⟩ := cascade_left_inv hI hg hy _ offsets_123 s1 hI1
      exact ⟨s2, by simp [h1, h2], hI2⟩
    · exact ⟨st, rfl, h⟩
  · refine ⟨st, ?_, h⟩
    unfold try_horizontal_flow
    simp [hy]

/-- Closed form of `process_water_cell` up to the call of `try_horizontal_flow`. -/
theorem process_water_cell_eq {x y : Int} (hg : InGrid x y) (hy : y + 1 < TILE_HEIGHT)
    (state : Cells) :
    process_water_cell x y state =
      (let s1 := move state (cell_index x y) (cell_index x (y + 1))
          (fill_amount 1 (state (cell_index x (y + 1))).volume (1 / 2))
       if (s1 (cell_index x y)).volume = 0 then some s1
       else if (s1 (cell_index x (y + 1))).volume < 1 then some s1
       else try_horizontal_flow x y s1) := by
  have hc := inArray_cell_index hg
  have hb := inArray_cell_index (inGrid_below hg hy)
  unfold process_water_cell can_flow_down
  simp only [fill_eq hc hb, load_eq hc, load_eq hb, if_pos hy, Option.bind_eq_bind,
    Option.some_bind, Option.pure_def]
  split
  · rfl
  · by_cases h : (move state (cell_index x y) (cell_index x (y + 1))
        (fill_amount 1 (state (cell_index x (y + 1))).volume (1 / 2)) (cell_index x (y + 1))).volume < 1
    · simp [h]
    · simp [h]

theorem process_water_cell_inv {I : Cells → Prop} {x y : Int}
    (hI : StableUnderFlowFrom x y I) (hg : InGrid x y) (hy : y + 1 < TILE_HEIGHT) (st : Cells)
    (h : I st) :
    ∃ st', process_water_cell x y st = some st' ∧ I st' := by
  rw [process_water_cell_eq hg hy]
  have h1 : I (move st (cell_index x y) (cell_index x (y + 1))
      (fill_amount 1 (st (cell_index x (y + 1))).volume (1 / 2))) :=
    hI st x (y + 1) (1 / 2) h ⟨hg, hy, inGrid_below hg hy, Or.inl ⟨rfl, rfl⟩⟩ (by norm_num)
  simp only
  split
  · exact ⟨_, rfl, h1⟩
  · split
    · exact ⟨_, rfl, h1⟩
    · exact try_horizontal_flow_inv hI hg _ h1

theorem update_cell_eq (g : Game) {x y : Int} (hg : InGrid x y) (state : Cells) :
    update_cell g x y state =
      if (g.state (cell_index x y)).volume > 0 ∧ y + 1 < TILE_HEIGHT then
        process_water_cell x y state
      else some state := by
  unfold update_cell
  simp only [load_eq (inArray_cell_index hg), Option.bind_eq_bind, Option.some_bind,
    Option.pure_def]
  by_cases h1 : (g.state (cell_index x y)).volume > 0
  · by_cases h2 : y + 1 < TILE_HEIGHT
    · simp [h1, h2]
    · simp [h1, h2]
  · simp [h1]

theorem update_cell_inv {I : Cells → Prop} (hI : StableUnderFlow I) (g : Game) {x y : Int}
    (hg : InGrid x y) (st : Cells) (h : I st) :
    ∃ st', update_cell g x y st = some st' ∧ I st' := by
  rw [update_cell_eq g hg]
  split
  · rename_i hc
    exact process_water_cell_inv (hI x y) hg hc.2 st h
  · exact ⟨st, rfl, h⟩

/-- Rule for the inner simulation loop: `J x` holds before column `x` is visited. -/
theorem update_row_rule (g : Game) {y : Int} (hy0 : 0 ≤ y) (hy1 : y < 40)
    (J : Int → Cells → Prop) (st : Cells) (h0 : J 0 st)
    (hstep : ∀ (x : Int) (s : Cells), InGrid x y → J x s →
      ∃ s', update_cell g x y s = some s' ∧ J (x + 1) s') :
    ∃ s', update_row g y st = some s' ∧ J 80 s' := by
  have key := count_up_rule (fun s x => update_cell g x y s) J 80 st h0
    (fun x s hx0 hx1 hJ => hstep x s (by rw [inGrid_iff]; omega) hJ)
  unfold update_row
  rw [TILE_WIDTH_eq]
  exact key

/-- Rule for the outer simulation loop: `J (y + 1)` holds before row `y` is
visited, `J y` after it; rows are visited from `39` down to `0`. -/
theorem simulate_rule (g : Game) (J : Int → Cells → Prop) (st : Cells) (h0 : J 40 st)
    (hstep : ∀ (y : Int) (s : Cells), 0 ≤ y → y < 40 → J (y + 1) s →
      ∃ s', update_row g y s = some s' ∧ J y s') :
    ∃ s', simulate g st = some s' ∧ J 0 s' := by
  have key := count_down_rule (fun s y => update_row g y s) J 40 st h0 hstep
  unfold simulate
  rw [TILE_HEIGHT_eq]
  exact key

theorem update_row_inv {I : Cells → Prop} (hI : StableUnderFlow I) (g : Game) {y : Int}
    (hy0 : 0 ≤ y) (hy1 : y < 40) (st : Cells) (h : I st) :
    ∃ st', update_row g y st = some st' ∧ I st' :=
  update_row_rule g hy0 hy1 (fun _ s => I s) st h
    (fun _ s hg hs => update_cell_inv hI g hg s hs)

theorem simulate_inv {I : Cells → Prop} (hI : StableUnderFlow I) (g : Game) (st : Cells)
    (h : I st) : ∃ st', simulate g st = some st' ∧ I st' :=
  simulate_rule g (fun _ s => I s) st h
    (fun _ s hy0 hy1 hs => update_row_inv hI g hy0 hy1 s hs)

/-- A row in which no cell qualifies for processing is passed over. -/
theorem update_row_skip (g : Game) {y : Int} (hy0 : 0 ≤ y) (hy1 : y < 40) (st : Cells)
    (h : ∀ x, InGrid x y → ¬ ((g.state (cell_index x y)).volume > 0 ∧ y + 1 < TILE_HEIGHT)) :
    update_row g y st = some st := by
  obtain ⟨s', h1, h2⟩ := update_row_rule g hy0 hy1 (fun _ s => s = st) st rfl
    (by
      intro x s hg hs
      refine ⟨s, ?_, hs⟩
      rw [update_cell_eq g hg, if_neg (h x hg)])
  rw [h1, h2]

/-- A row in which only column `x0` qualifies for processing behaves like the
processing of that one cell. -/
theorem update_row_single (g : Game) {x0 y : Int} (hg0 : InGrid x0 y) (st : Cells)
    (h : ∀ x, InGrid x y → x ≠ x0 →
      ¬ ((g.state (cell_index x y)).volume > 0 ∧ y + 1 < TILE_HEIGHT)) :
    update_row g y st = update_cell g x0 y st := by
  have hg0' := hg0
  rw [inGrid_iff] at hg0'
  cases hc : update_cell g x0 y st with
  | none =>
    have pre := count_up_rule (fun s x => update_cell g x y s) (fun _ s => s = st)
      x0.toNat st rfl
      (by
        intro x s hx0 hx1 hs
        have hgx : InGrid x y := by rw [inGrid_iff]; omega
        refine ⟨s, ?_, hs⟩
        show update_cell g x y s = some s
        rw [update_cell_eq g hgx, if_neg (h x hgx (by omega))])
    obtain ⟨s', h1, h2⟩ := pre
    have hn : (x0.toNat : Int) = x0 := Int.toNat_of_nonneg hg0'.1
    rw [hn] at h1
    have hsplit : count_up TILE_WIDTH = count_up x0 ++ (x0 :: (count_up TILE_WIDTH).drop (x0.toNat + 1)) := by
      unfold count_up
      rw [TILE_WIDTH_eq]
      have e : (List.range (Int.toNat 80)).map Int.ofNat =
          ((List.range (Int.toNat 80)).map Int.ofNat).take x0.toNat ++
            ((List.range (Int.toNat 80)).map Int.ofNat).drop x0.toNat := (List.take_append_drop _ _).symm
      have hlen : x0.toNat < ((List.range (Int.toNat 80)).map Int.ofNat).length := by
        simp; omega
      rw [List.drop_eq_getElem_cons hlen] at e
      rw [← List.map_take, List.take_range] at e
      have hmin : min x0.toNat (Int.toNat 80) = x0.toNat := by
        apply min_eq_left; simp; omega
      rw [hmin] at e
      have hget : ((List.range (Int.toNat 80)).map Int.ofNat)[x0.toNat] = x0 := by
        simp; omega
      rw [hget] at e
      exact e
    unfold update_row
    rw [hsplit, List.foldlM_append, h1, h2]
    simp [hc]
  | some st' =>
    obtain ⟨s', h1, h2⟩ := update_row_rule g hg0'.2.2.1 hg0'.2.2.2
      (fun j s => (j ≤ x0 → s = st) ∧ (x0 < j → s = st')) st
      ⟨fun _ => rfl, fun hlt => by omega⟩
      (by
        intro x s hgx hs
        have hgx' := hgx
        rw [inGrid_iff] at hgx'
        by_cases hx : x = x0
        · subst hx
          refine ⟨st', ?_, fun hle => by omega, fun _ => rfl⟩
          rw [hs.1 (le_refl _)]
          exact hc
        · refine ⟨s, ?_, fun hle => hs.1 (by omega), fun hlt => hs.2 (by omega)⟩
          rw [update_cell_eq g hgx, if_neg (h x hgx hx)])
    rw [h1, h2.2 (by omega)]

/-- The three phases of `game_update`: copy, simulate, copy back. -/
theorem game_update_eq (g : Game) :
    game_update g = (simulate g (snapshot g)).map (committed g) := by
  unfold game_update
  simp only [copy_state_eq, Option.bind_eq_bind, Option.some_bind, Option.pure_def]
  cases h : simulate g (snapshot g) with
  | none =>
    have h' : simulate g (fun i => if 0 ≤ i ∧ i < 3200 then g.state i else { volume := 0, size := 0 }) = none := h
    simp [h']
  | some ns =>
    have h' : simulate g (fun i => if 0 ≤ i ∧ i < 3200 then g.state i else { volume := 0, size := 0 }) = some ns := h
    simp only [h', Option.some_bind, Option.map_some']
    rfl

theorem committed_state (g : Game) (ns : Cells) : (committed g ns).state = commit g ns := rfl

theorem snapshot_inArray (g : Game) {i : Int} (h : InArray i) : snapshot g i = g.state i := by
  rw [inArray_iff] at h
  unfold snapshot
  rw [if_pos h]

theorem commit_inArray (g : Game) (ns : Cells) {i : Int} (h : InArray i) : commit g ns i = ns i := by
  rw [inArray_iff] at h
  unfold commit
  rw [if_pos h]

/-- Invariant rule for a whole step: a property of the array that survives every
transfer of the flow engine survives `game_update`, which always succeeds. -/
theorem game_update_inv {I : Cells → Prop} (hI : StableUnderFlow I) (hloc : ArrayLocal I)
    (g : Game) (h : I g.state) :
    ∃ g', game_update g = some g' ∧ I g'.state ∧ g'.width = g.width ∧ g'.height = g.height := by
  have h0 : I (snapshot g) := hloc g.state _ (fun i hi => (snapshot_inArray g hi).symm) h
  obtain ⟨ns, hns, hIns⟩ := simulate_inv hI g _ h0
  refine ⟨committed g ns, by rw [game_update_eq, hns]; rfl, ?_, rfl, rfl⟩
  exact hloc ns _ (fun i hi => (commit_inArray g ns hi).symm) hIns

/-! ## Total volume -/

theorem fill_amount_eq_min (max_volume target_volume flow_rate : ℚ) :
    fill_amount max_volume target_volume flow_rate = min (max_volume - target_volume) flow_rate := by
  unfold fill_amount
  by_cases h : max_volume - target_volume > flow_rate
  · rw [if_pos h, min_eq_right (le_of_lt h)]
  · rw [if_neg h, min_eq_left (not_lt.mp h)]

theorem total_volume_eq_sum (state : Cells) :
    total_volume state = ∑ k in Finset.range 3200, (state (k : Int)).volume := by
  unfold total_volume count_up
  rw [STATE_LEN_eq, List.map_map]
  rfl

theorem total_volume_move {state : Cells} {current target : Int} (hc : InArray current)
    (ht : InArray target) (hne : current ≠ target) (a : ℚ) :
    total_volume (move state current target a) = total_volume state := by
  rw [inArray_iff] at hc ht
  obtain ⟨c, rfl⟩ := Int.eq_ofNat_of_zero_le hc.1
  obtain ⟨t, rfl⟩ := Int.eq_ofNat_of_zero_le ht.1
  have hc' : c ∈ Finset.range 3200 := by rw [Finset.mem_range]; omega
  have ht' : t ∈ Finset.range 3200 := by rw [Finset.mem_range]; omega
  rw [total_volume_eq_sum, total_volume_eq_sum]
  have hpt : ∀ k : ℕ, (move state (c : Int) (t : Int) a (k : Int)).volume =
      (state (k : Int)).volume + ((if k = t then a else 0) - (if k = c then a else 0)) := by
    intro k
    by_cases hkt : k = t
    · subst hkt
      have : k ≠ c := fun h => hne (by rw [h])
      rw [move_target a hne]
      simp [this]
    · by_cases hkc : k = c
      · subst hkc
        rw [move_current a hne]
        simp [hkt]
        ring
      · rw [move_other a (by exact_mod_cast hkc) (by exact_mod_cast hkt)]
        simp [hkt, hkc]
  rw [Finset.sum_congr rfl (fun k _ => hpt k), Finset.sum_add_distrib, Finset.sum_sub_distrib,
    Finset.sum_ite_eq' _ t, Finset.sum_ite_eq' _ c, if_pos hc', if_pos ht']
  ring

theorem total_volume_congr {s s' : Cells} (h : ∀ i, InArray i → s i = s' i) :
    total_volume s = total_volume s' := by
  rw [total_volume_eq_sum, total_volume_eq_sum]
  apply Finset.sum_congr rfl
  intro k hk
  rw [Finset.mem_range] at hk
  rw [h (k : Int) (by rw [inArray_iff]; omega)]

/-! ## Capacity -/

theorem fill_amount_nonneg {t r : ℚ} (ht : t ≤ 1) (hr : 0 ≤ r) : 0 ≤ fill_amount 1 t r := by
  rw [fill_amount_eq_min]
  exact le_min (by linarith) hr

theorem fill_amount_le_room (m t r : ℚ) : fill_amount m t r ≤ m - t := by
  rw [fill_amount_eq_min]
  exact min_le_left _ _

theorem fill_amount_le_rate (m t r : ℚ) : fill_amount m t r ≤ r := by
  rw [fill_amount_eq_min]
  exact min_le_right _ _

theorem atMostFull_stable : StableUnderFlow AtMostFull := by
  intro x y st x' y' r h hs hr
  obtain ⟨hc, ht, hne⟩ := flowStep_inArray hs
  intro i hi
  have hn := fill_amount_nonneg (h _ ht) hr
  have hroom := fill_amount_le_room 1 (st (cell_index x' y')).volume r
  by_cases h1 : i = cell_index x' y'
  · rw [h1, move_target _ hne]
    show (st (cell_index x' y')).volume + _ ≤ 1
    linarith
  · by_cases h2 : i = cell_index x y
    · rw [h2, move_current _ hne]
      show (st (cell_index x y)).volume - _ ≤ 1
      have := h _ hc
      linarith
    · rw [move_other _ h2 h1]
      exact h i hi

theorem atMostFull_local : ArrayLocal AtMostFull := by
  intro s s' h hs i hi
  rw [← h i hi]
  exact hs i hi

theorem run_action_atMostFull (g : Game) (a : Action) (ha : a.Valid) (h : AtMostFull g.state) :
    ∃ g', run_action g a = some g' ∧ AtMostFull g'.state := by
  cases a with
  | step =>
    obtain ⟨g', h1, h2, -, -⟩ := game_update_inv atMostFull_stable atMostFull_local g h
    exact ⟨g', h1, h2⟩
  | inject x y =>
    have hx : InGrid x y := ha
    refine ⟨{ g with state := Function.update g.state (cell_index x y) ⟨1, TILE_SIZE⟩ }, by simp only [run_action, create_water_generator,
      store_eq (inArray_cell_index hx), Option.map_some'], ?_⟩
    intro i hi
    show (Function.update g.state (cell_index x y) _ i).volume ≤ 1
    by_cases h1 : i = cell_index x y
    · rw [h1, Function.update_same]
    · rw [Function.update_noteq h1]
      exact h i hi

/-! ## A single wet cell -/

theorem cell_index_ne {x y x' y' : Int} (h : InGrid x y) (h' : InGrid x' y')
    (hne : x' ≠ x ∨ y' ≠ y) : cell_index x' y' ≠ cell_index x y := by
  rw [inGrid_iff] at h h'
  rw [cell_index_eq, cell_index_eq]
  omega

theorem fill_amount_half_of_le_half {t : ℚ} (ht : t ≤ 1 / 2) : fill_amount 1 t (1 / 2) = 1 / 2 := by
  rw [fill_amount_eq_min]
  exact min_eq_right (by linarith)

theorem fill_amount_half_of_ge_half {t : ℚ} (ht : 1 / 2 ≤ t) : fill_amount 1 t (1 / 2) = 1 - t := by
  rw [fill_amount_eq_min]
  exact min_eq_left (by linarith)

/-- A wet cell over a cell holding less than `1/2` sends exactly `1/2` down and
does nothing else. -/
theorem process_water_cell_drain {x y : Int} (hg : InGrid x y) (hy : y + 1 < TILE_HEIGHT)
    (state : Cells) (hb : (state (cell_index x (y + 1))).volume < 1 / 2) :
    process_water_cell x y state =
      some (move state (cell_index x y) (cell_index x (y + 1)) (1 / 2)) := by
  have hne : cell_index x y ≠ cell_index x (y + 1) := by
    rw [cell_index_eq, cell_index_eq]; omega
  rw [process_water_cell_eq hg hy, fill_amount_half_of_le_half (le_of_lt hb)]
  simp only
  split
  · rfl
  · rw [if_pos]
    rw [move_target _ hne]
    show (state (cell_index x (y + 1))).volume + 1 / 2 < 1
    linarith

/-- One step of a grid whose only wet cell is `(x, y)`, above the bottom row:
the step is the single transfer of `1/2` from `(x, y)` to `(x, y + 1)`. -/
theorem game_update_single_cell (g : Game) (x y : Int) (hg : InGrid x y)
    (hy : y + 1 < TILE_HEIGHT) (hv : 0 < (g.state (cell_index x y)).volume)
    (hz : ∀ x' y', InGrid x' y' → (x' ≠ x ∨ y' ≠ y) → (g.state (cell_index x' y')).volume = 0) :
    game_update g =
      some (committed g (move (snapshot g) (cell_index x y) (cell_index x (y + 1)) (1 / 2))) := by
  have hg' := hg
  rw [inGrid_iff] at hg'
  have hskip : ∀ x' y', InGrid x' y' → (x' ≠ x ∨ y' ≠ y) →
      ¬ ((g.state (cell_index x' y')).volume > 0 ∧ y' + 1 < TILE_HEIGHT) := by
    intro x' y' h1 h2 h3
    rw [hz x' y' h1 h2] at h3
    exact lt_irrefl _ h3.1
  have hcell : update_cell g x y (snapshot g) =
      some (move (snapshot g) (cell_index x y) (cell_index x (y + 1)) (1 / 2)) := by
    rw [update_cell_eq g hg, if_pos ⟨hv, hy⟩]
    apply process_water_cell_drain hg hy
    rw [snapshot_inArray g (inArray_cell_index (inGrid_below hg hy)),
      hz x (y + 1) (inGrid_below hg hy) (Or.inr (by omega))]
    norm_num
  obtain ⟨s', h1, h2⟩ := simulate_rule g
    (fun k s => (y < k → s = snapshot g) ∧
      (k ≤ y → s = move (snapshot g) (cell_index x y) (cell_index x (y + 1)) (1 / 2)))
    (snapshot g) ⟨fun _ => rfl, fun h => by omega⟩
    (by
      intro k s hk0 hk1 hs
      by_cases hky : k = y
      · subst hky
        refine ⟨_, ?_, fun h => by omega, fun _ => rfl⟩
        rw [hs.1 (by omega), update_row_single g hg _
          (fun x' hx' hne => hskip x' k hx' (Or.inl hne))]
        exact hcell
      · refine ⟨s, ?_, fun h => hs.1 (by omega), fun h => hs.2 (by omega)⟩
        exact update_row_skip g hk0 hk1 s
          (fun x' hx' => hskip x' k hx' (Or.inr hky)))
  rw [game_update_eq, h1, h2.2 hg'.2.2.1]
  rfl

/-! ## Cascades into empty cells -/

theorem cascade_result_other {state : Cells} {current target i : Int} (offset : Int)
    (hc : i ≠ current) (ht : i ≠ target) :
    cascade_result state current target offset i = state i := by
  unfold cascade_result
  split
  · exact move_other _ hc ht
  · rfl

/-- A pass of a cascade body into an empty cell moves `v / (10 * offset)`, where
`v` in `(0, 1]` is the volume of the current cell. -/
theorem cascade_result_zero (state : Cells) (current target offset : Int)
    (ho : 1 ≤ offset) (ht : (state target).volume = 0) (hc0 : 0 < (state current).volume)
    (hc1 : (state current).volume ≤ 1) :
    cascade_result state current target offset =
      move state current target ((state current).volume / (10 * (offset : ℚ))) := by
  have ho' : (1 : ℚ) ≤ (offset : ℚ) := by exact_mod_cast ho
  have hpos : (0 : ℚ) < 10 * (offset : ℚ) := by linarith
  have hrate : ((state current).volume - 0) * (1 / 10) / (offset : ℚ) =
      (state current).volume / (10 * (offset : ℚ)) := by
    field_simp
  have hle : (state current).volume / (10 * (offset : ℚ)) ≤ 1 / 10 := by
    rw [div_le_iff₀ hpos]
    nlinarith
  unfold cascade_result
  rw [ht, if_pos hc0, hrate, fill_amount_eq_min, min_eq_right (by linarith)]

/-- Three passes of a cascade body, at offsets 1, 2, 3, into three empty cells. -/
theorem cascade_three_zero (state : Cells) (current t1 t2 t3 : Int) (v : ℚ)
    (h1 : current ≠ t1) (h2 : current ≠ t2) (h3 : current ≠ t3)
    (h12 : t1 ≠ t2) (h13 : t1 ≠ t3) (h23 : t2 ≠ t3)
    (hv : (state current).volume = v) (hv0 : 0 < v) (hv1 : v ≤ 1)
    (z1 : (state t1).volume = 0) (z2 : (state t2).volume = 0) (z3 : (state t3).volume = 0) :
    ∃ s3, cascade_result (cascade_result (cascade_result state current t1 1) current t2 2)
        current t3 3 = s3 ∧
      (s3 current).volume = 1653 / 2000 * v ∧ (s3 t1).volume = v / 10 ∧
      (s3 t2).volume = 9 / 200 * v ∧ (s3 t3).volume = 57 / 2000 * v ∧
      ∀ i, i ≠ current → i ≠ t1 → i ≠ t2 → i ≠ t3 → s3 i = state i := by
  have e1 := cascade_result_zero state current t1 1 (le_refl _) z1 (by rw [hv]; exact hv0)
    (by rw [hv]; exact hv1)
  have c1 : (cascade_result state current t1 1 current).volume = 9 / 10 * v := by
    rw [e1, move_current _ h1]
    show (state current).volume - _ = _
    rw [hv]; push_cast; ring
  have e2 := cascade_result_zero (cascade_result state current t1 1) current t2 2 (by norm_num)
    (by rw [cascade_result_other _ h2.symm h12.symm, z2]) (by rw [c1]; linarith)
    (by rw [c1]; linarith)
  have c2 : (cascade_result (cascade_result state current t1 1) current t2 2 current).volume =
      171 / 200 * v := by
    rw [e2, move_current _ h2]
    show (cascade_result state current t1 1 current).volume - _ = _
    rw [c1]; push_cast; ring
  have e3 := cascade_result_zero
    (cascade_result (cascade_result state current t1 1) current t2 2) current t3 3 (by norm_num)
    (by rw [cascade_result_other _ h3.symm h23.symm, cascade_result_other _ h3.symm h13.symm, z3])
    (by rw [c2]; linarith) (by rw [c2]; linarith)
  refine ⟨_, rfl, ?_, ?_, ?_, ?_, ?_⟩
  · rw [e3, move_current _ h3]
    show (cascade_result (cascade_result state current t1 1) current t2 2 current).volume - _ = _
    rw [c2]; push_cast; ring
  · rw [cascade_result_other _ h1.symm h13, cascade_result_other _ h1.symm h12, e1,
      move_target _ h1]
    show (state t1).volume + _ = _
    rw [z1, hv]; push_cast; ring
  · rw [cascade_result_other _ h2.symm h23, e2, move_target _ h2]
    show (cascade_result state current t1 1 t2).volume + _ = _
    rw [cascade_result_other _ h2.symm h12.symm, z2, c1]; push_cast; ring
  · rw [e3, move_target _ h3]
    show (cascade_result (cascade_result state current t1 1) current t2 2 t3).volume + _ = _
    rw [cascade_result_other _ h3.symm h23.symm, cascade_result_other _ h3.symm h13.symm, z3, c2]
    push_cast; ring
  · intro i hc i1 i2 i3
    rw [cascade_result_other _ hc i3, cascade_result_other _ hc i2, cascade_result_other _ hc i1]

/-- The right cascade loop makes all three passes when column `x + 3` exists. -/
theorem cascade_right_full {x y : Int} (hg : InGrid x y) (hx : x + 3 < TILE_WIDTH)
    (state : Cells) :
    cascade_right x y [1, 2, 3] state =
      some (cascade_result (cascade_result (cascade_result state (cell_index x y)
        (cell_index (x + 1) y) 1) (cell_index x y) (cell_index (x + 2) y) 2)
        (cell_index x y) (cell_index (x + 3) y) 3) := by
  have hg' := hg
  rw [inGrid_iff] at hg'
  have hx' := hx
  rw [TILE_WIDTH_eq] at hx'
  have g1 : InGrid (x + 1) y := by rw [inGrid_iff]; omega
  have g2 : InGrid (x + 2) y := by rw [inGrid_iff]; omega
  have g3 : InGrid (x + 3) y := by rw [inGrid_iff]; omega
  have l1 : x + 1 < TILE_WIDTH := by rw [TILE_WIDTH_eq]; omega
  have l2 : x + 2 < TILE_WIDTH := by rw [TILE_WIDTH_eq]; omega
  simp only [cascade_right, if_pos l1, if_pos l2, if_pos hx,
    cascade_cell_eq _ (inArray_cell_index hg) (inArray_cell_index g1),
    cascade_cell_eq _ (inArray_cell_index hg) (inArray_cell_index g2),
    cascade_cell_eq _ (inArray_cell_index hg) (inArray_cell_index g3),
    Option.bind_eq_bind, Option.some_bind]

/-- The left cascade loop makes all three passes when column `x - 3` exists. -/
theorem cascade_left_full {x y : Int} (hg : InGrid x y) (hx : x - 3 ≥ 0)
    (state : Cells) :
    cascade_left x y [1, 2, 3] state =
      some (cascade_result (cascade_result (cascade_result state (cell_index x y)
        (cell_index (x - 1) y) 1) (cell_index x y) (cell_index (x - 2) y) 2)
        (cell_index x y) (cell_index (x - 3) y) 3) := by
  have hg' := hg
  rw [inGrid_iff] at hg'
  have g1 : InGrid (x - 1) y := by rw [inGrid_iff]; omega
  have g2 : InGrid (x - 2) y := by rw [inGrid_iff]; omega
  have g3 : InGrid (x - 3) y := by rw [inGrid_iff]; omega
  have l1 : x - 1 ≥ 0 := by omega
  have l2 : x - 2 ≥ 0 := by omega
  simp only [cascade_left, if_pos l1, if_pos l2, if_pos hx,
    cascade_cell_eq _ (inArray_cell_index hg) (inArray_cell_index g1),
    cascade_cell_eq _ (inArray_cell_index hg) (inArray_cell_index g2),
    cascade_cell_eq _ (inArray_cell_index hg) (inArray_cell_index g3),
    Option.bind_eq_bind, Option.some_bind]

/-- The left cascade loop succeeds and leaves alone every cell that is neither
the current cell nor one of its (at most three) left neighbours. -/
theorem cascade_left_frame {x y : Int} (hg : InGrid x y) (state : Cells) :
    ∃ st', cascade_left x y [1, 2, 3] state = some st' ∧
      ∀ i, i ≠ cell_index x y → i ≠ cell_index (x - 1) y → i ≠ cell_index (x - 2) y →
        i ≠ cell_index (x - 3) y → st' i = state i := by
  obtain ⟨st', m, h1, h2, -, -⟩ := cascade_left_rule
    (J := fun _ s => ∀ i, i ≠ cell_index x y → i ≠ cell_index (x - 1) y →
      i ≠ cell_index (x - 2) y → i ≠ cell_index (x - 3) y → s i = state i)
    hg [1, 2, 3] offsets_123 0 state (fun _ _ _ _ _ => rfl)
    (by
      intro k s o hmem _ hs i hc i1 i2 i3
      have hne : i ≠ cell_index (x - o) y := by
        simp only [List.mem_cons, List.mem_singleton, List.not_mem_nil, or_false] at hmem
        rcases hmem with rfl | rfl | rfl
        · exact i1
        · exact i2
        · exact i3
      rw [cascade_result_other _ hc hne]
      exact hs i hc i1 i2 i3)
  exact ⟨st', h1, h2⟩

/-! ## Bounds on a lateral spread -/

/-- One pass of a cascade body keeps the bookkeeping of `RowBounds`, with one
more factor `9/10` in the lower bound. -/
theorem rowBounds_step {s0 s : Cells} {x y x' : Int} {lo hi : ℚ} {n : Nat} {offset : Int}
    (hg : InGrid x y) (hg' : InGrid x' y) (hne : x' ≠ x) (ho : 1 ≤ offset) (hlo : 0 ≤ lo)
    (h : RowBounds s0 x y lo hi n s) :
    RowBounds s0 x y lo hi (n + 1)
      (cascade_result s (cell_index x y) (cell_index x' y) offset) := by
  obtain ⟨hframe, hrow, hlow, hhigh⟩ := h
  have hct : cell_index x y ≠ cell_index x' y := (cell_index_ne hg hg' (Or.inl hne)).symm
  have hpow : (0 : ℚ) ≤ (9 / 10 : ℚ) ^ n * lo := by positivity
  have hpow' : (9 / 10 : ℚ) ^ (n + 1) * lo = 9 / 10 * ((9 / 10 : ℚ) ^ n * lo) := by ring
  unfold cascade_result
  split
  · rename_i hlt
    have hc := hrow x hg
    have ht := hrow x' hg'
    have ho' : (1 : ℚ) ≤ (offset : ℚ) := by exact_mod_cast ho
    have hrate0 : 0 ≤ ((s (cell_index x y)).volume - (s (cell_index x' y)).volume) * (1 / 10)
        / (offset : ℚ) := by
      apply div_nonneg _ (by linarith)
      nlinarith
    have hrate1 : ((s (cell_index x y)).volume - (s (cell_index x' y)).volume) * (1 / 10)
        / (offset : ℚ) ≤ (s (cell_index x y)).volume / 10 := by
      rw [div_le_iff₀ (by linarith)]
      nlinarith
    have ha0 := fill_amount_nonneg ht.2 hrate0
    have ha1 := fill_amount_le_room 1 (s (cell_index x' y)).volume
      (((s (cell_index x y)).volume - (s (cell_index x' y)).volume) * (1 / 10) / (offset : ℚ))
    have ha2 := fill_amount_le_rate 1 (s (cell_index x' y)).volume
      (((s (cell_index x y)).volume - (s (cell_index x' y)).volume) * (1 / 10) / (offset : ℚ))
    have hcur := @move_current s (cell_index x y) (cell_index x' y) (fill_amount 1 (s (cell_index x' y)).volume
      (((s (cell_index x y)).volume - (s (cell_index x' y)).volume) * (1 / 10) / (offset : ℚ))) hct
    have htgt := @move_target s (cell_index x y) (cell_index x' y) (fill_amount 1 (s (cell_index x' y)).volume
      (((s (cell_index x y)).volume - (s (cell_index x' y)).volume) * (1 / 10) / (offset : ℚ))) hct
    refine ⟨?_, ?_, ?_, ?_⟩
    · intro a b hab hb
      rw [move_other _ (cell_index_ne hg hab (Or.inr hb)) (cell_index_ne hg' hab (Or.inr hb))]
      exact hframe a b hab hb
    · intro a ha
      by_cases h1 : a = x'
      · subst h1
        rw [htgt]
        constructor
        · show 0 ≤ (s (cell_index a y)).volume + _
          linarith
        · show (s (cell_index a y)).volume + _ ≤ 1
          linarith
      · by_cases h2 : a = x
        · subst h2
          rw [hcur]
          constructor
          · show 0 ≤ (s (cell_index a y)).volume - _
            linarith
          · show (s (cell_index a y)).volume - _ ≤ 1
            linarith
        · rw [move_other _ (cell_index_ne hg ha (Or.inl h2)) (cell_index_ne hg' ha (Or.inl h1))]
          exact hrow a ha
    · rw [hcur, hpow']
      show _ ≤ (s (cell_index x y)).volume - _
      linarith
    · rw [hcur]
      show (s (cell_index x y)).volume - _ ≤ hi
      linarith
  · refine ⟨hframe, hrow, ?_, hhigh⟩
    rw [hpow']
    linarith

theorem cascade_right_rowBounds {s0 : Cells} {x y : Int} {lo hi : ℚ} (hg : InGrid x y)
    (hlo : 0 ≤ lo) (offsets : List Int) (ho : ∀ o ∈ offsets, 1 ≤ o ∧ o ≤ 3) (n : Nat)
    (s : Cells) (h : RowBounds s0 x y lo hi n s) :
    ∃ s' m, cascade_right x y offsets s = some s' ∧ RowBounds s0 x y lo hi m s' ∧ n ≤ m ∧
      m ≤ n + offsets.length :=
  cascade_right_rule (J := RowBounds s0 x y lo hi) hg offsets ho n s h
    (by
      intro k s1 o hmem hlt hs
      have ho1 := ho o hmem
      have hg' := hg
      rw [inGrid_iff] at hg'
      rw [TILE_WIDTH_eq] at hlt
      exact rowBounds_step hg (by rw [inGrid_iff]; omega) (by omega) ho1.1 hlo hs)

theorem cascade_left_rowBounds {s0 : Cells} {x y : Int} {lo hi : ℚ} (hg : InGrid x y)
    (hlo : 0 ≤ lo) (offsets : List Int) (ho : ∀ o ∈ offsets, 1 ≤ o ∧ o ≤ 3) (n : Nat)
    (s : Cells) (h : RowBounds s0 x y lo hi n s) :
    ∃ s' m, cascade_left x y offsets s = some s' ∧ RowBounds s0 x y lo hi m s' ∧ n ≤ m ∧
      m ≤ n + offsets.length :=
  cascade_left_rule (J := RowBounds s0 x y lo hi) hg offsets ho n s h
    (by
      intro k s1 o hmem hge hs
      have ho1 := ho o hmem
      have hg' := hg
      rw [inGrid_iff] at hg'
      exact rowBounds_step hg (by rw [inGrid_iff]; omega) (by omega) ho1.1 hlo hs)

/-- A whole lateral spread makes at most six passes through a cascade body. -/
theorem try_horizontal_flow_rowBounds {s0 : Cells} {x y : Int} {lo hi : ℚ} (hg : InGrid x y)
    (hy : y + 1 < TILE_HEIGHT) (hlo : 0 ≤ lo) (s : Cells) (h : RowBounds s0 x y lo hi 0 s) :
    ∃ s' m, try_horizontal_flow x y s = some s' ∧ RowBounds s0 x y lo hi m s' ∧ m ≤ 6 := by
  rw [try_horizontal_flow_eq hg hy]
  split
  · obtain ⟨s1, m1, e1, b1, -, u1⟩ := cascade_right_rowBounds hg hlo _ offsets_123 0 s h
    obtain ⟨s2, m2, e2, b2, -, u2⟩ := cascade_left_rowBounds hg hlo _ offsets_123 m1 s1 b1
    refine ⟨s2, m2, by simp [e1, e2], b2, ?_⟩
    simp only [List.length_cons, List.length_nil] at u1 u2
    omega
  · exact ⟨s, 0, rfl, h, by norm_num⟩

/-! ## Spread out of a lone cell -/

/-- Lateral spread out of a cell `(x, y)` that holds `c` in `(0, 1]`, has a right
neighbour, stands on a cell above `1/2` and is alone in its row: the other
rows are untouched, `(x, y)` keeps at most `9/10 * c` and `(x + 1, y)` ends
with a positive volume. -/
theorem try_horizontal_flow_lone_cell {x y : Int} (hg : InGrid x y) (hy : y + 1 < TILE_HEIGHT)
    (hx1 : x + 1 < TILE_WIDTH) (s : Cells) (hc0 : 0 < (s (cell_index x y)).volume)
    (hc1 : (s (cell_index x y)).volume ≤ 1)
    (hb : (s (cell_index x (y + 1))).volume > 1 / 2)
    (hrow : ∀ x', InGrid x' y → x' ≠ x → (s (cell_index x' y)).volume = 0) :
    ∃ s', try_horizontal_flow x y s = some s' ∧
      (∀ x' y', InGrid x' y' → y' ≠ y → s' (cell_index x' y') = s (cell_index x' y')) ∧
      (s' (cell_index x y)).volume ≤ 9 / 10 * (s (cell_index x y)).volume ∧
      0 < (s' (cell_index (x + 1) y)).volume := by
  have hg' := hg
  rw [inGrid_iff] at hg'
  have hx1' := hx1
  rw [TILE_WIDTH_eq] at hx1'
  have g1 : InGrid (x + 1) y := by rw [inGrid_iff]; omega
  have hct : cell_index x y ≠ cell_index (x + 1) y := (cell_index_ne hg g1 (Or.inl (by omega))).symm
  have e1 := cascade_result_zero s (cell_index x y) (cell_index (x + 1) y) 1 (le_refl _)
    (hrow (x + 1) g1 (by omega)) hc0 hc1
  have hamt : (s (cell_index x y)).volume / (10 * ((1 : Int) : ℚ)) =
      (s (cell_index x y)).volume / 10 := by push_cast; ring
  rw [hamt] at e1
  -- the state after the first pass of the right loop
  have hstart : RowBounds s x y 0 (9 / 10 * (s (cell_index x y)).volume) 0
        (move s (cell_index x y) (cell_index (x + 1) y) ((s (cell_index x y)).volume / 10)) ∧
      0 < (move s (cell_index x y) (cell_index (x + 1) y) ((s (cell_index x y)).volume / 10)
        (cell_index (x + 1) y)).volume := by
    refine ⟨⟨?_, ?_, ?_, ?_⟩, ?_⟩
    · intro a b hab hb'
      exact move_other _ (cell_index_ne hg hab (Or.inr hb')) (cell_index_ne g1 hab (Or.inr hb'))
    · intro a ha
      by_cases h1 : a = x + 1
      · subst h1
        rw [move_target _ hct]
        show 0 ≤ (s (cell_index (x + 1) y)).volume + _ ∧ (s (cell_index (x + 1) y)).volume + _ ≤ 1
        rw [hrow (x + 1) g1 (by omega)]
        constructor <;> linarith
      · by_cases h2 : a = x
        · subst h2
          rw [move_current _ hct]
          show 0 ≤ (s (cell_index a y)).volume - _ ∧ (s (cell_index a y)).volume - _ ≤ 1
          constructor <;> linarith
        · rw [move_other _ (cell_index_ne hg ha (Or.inl h2)) (cell_index_ne g1 ha (Or.inl h1)),
            hrow a ha h2]
          norm_num
    · rw [move_current _ hct]
      show _ ≤ (s (cell_index x y)).volume - _
      norm_num
      linarith
    · rw [move_current _ hct]
      show (s (cell_index x y)).volume - _ ≤ _
      linarith
    · rw [move_target _ hct]
      show 0 < (s (cell_index (x + 1) y)).volume + _
      rw [hrow (x + 1) g1 (by omega)]
      linarith
  -- the remaining passes keep the bounds and do not touch `(x + 1, y)`
  have hJ : ∀ (k : Nat) (s1 : Cells) (x' : Int) (o : Int), InGrid x' y → x' ≠ x → x' ≠ x + 1 →
      1 ≤ o →
      (RowBounds s x y 0 (9 / 10 * (s (cell_index x y)).volume) k s1 ∧
        0 < (s1 (cell_index (x + 1) y)).volume) →
      (RowBounds s x y 0 (9 / 10 * (s (cell_index x y)).volume) (k + 1)
          (cascade_result s1 (cell_index x y) (cell_index x' y) o) ∧
        0 < (cascade_result s1 (cell_index x y) (cell_index x' y) o
          (cell_index (x + 1) y)).volume) := by
    intro k s1 x' o hx' n1 n2 ho h
    refine ⟨rowBounds_step hg hx' n1 ho (le_refl _) h.1, ?_⟩
    rw [cascade_result_other _ hct.symm (cell_index_ne hx' g1 (Or.inl (Ne.symm n2)))]
    exact h.2
  have o23 : ∀ o ∈ ([2, 3] : List Int), 1 ≤ o ∧ o ≤ 3 := by
    intro o ho
    simp only [List.mem_cons, List.mem_singleton, List.not_mem_nil, or_false] at ho
    omega
  obtain ⟨s2, m2, e2, b2, -, -⟩ := cascade_right_rule
    (J := fun k s1 => RowBounds s x y 0 (9 / 10 * (s (cell_index x y)).volume) k s1 ∧
      0 < (s1 (cell_index (x + 1) y)).volume)
    hg [2, 3] o23 0 _ hstart
    (by
      intro k s1 o hmem hlt h
      simp only [List.mem_cons, List.mem_singleton, List.not_mem_nil, or_false] at hmem
      rw [TILE_WIDTH_eq] at hlt
      exact hJ k s1 (x + o) o (by rw [inGrid_iff]; omega) (by omega) (by omega) (by omega) h)
  obtain ⟨s3, m3, e3, b3, -, -⟩ := cascade_left_rule
    (J := fun k s1 => RowBounds s x y 0 (9 / 10 * (s (cell_index x y)).volume) k s1 ∧
      0 < (s1 (cell_index (x + 1) y)).volume)
    hg [1, 2, 3] offsets_123 m2 s2 b2
    (by
      intro k s1 o hmem hge h
      have ho1 := offsets_123 o hmem
      exact hJ k s1 (x - o) o (by rw [inGrid_iff]; omega) (by omega) (by omega) (by omega) h)
  refine ⟨s3, ?_, b3.1.1, b3.1.2.2.2, b3.2⟩
  rw [try_horizontal_flow_eq hg hy, if_pos hb]
  have hr : cascade_right x y [1, 2, 3] s = some s2 := by
    rw [cascade_right, if_pos hx1,
      cascade_cell_eq _ (inArray_cell_index hg) (inArray_cell_index g1), e1]
    exact e2
  rw [hr]
  exact e3

/-- A full cell on a full cell, alone in its row: nothing flows down, and the
lateral spread leaves it with at least `(9/10)^6`. -/
theorem process_water_cell_full_on_full {x y : Int} (hg : InGrid x y)
    (hy : y + 1 < TILE_HEIGHT) (s : Cells) (hc : (s (cell_index x y)).volume = 1)
    (hb : (s (cell_index x (y + 1))).volume = 1)
    (hrow : ∀ x', InGrid x' y → x' ≠ x → (s (cell_index x' y)).volume = 0) :
    ∃ s', process_water_cell x y s = some s' ∧
      (∀ x' y', InGrid x' y' → y' ≠ y → s' (cell_index x' y') = s (cell_index x' y')) ∧
      1 / 2 ≤ (s' (cell_index x y)).volume ∧ (s' (cell_index x y)).volume ≤ 1 := by
  have hamt : fill_amount 1 (s (cell_index x (y + 1))).volume (1 / 2) = 0 := by
    rw [hb, fill_amount_eq_min]; norm_num
  have hstart : RowBounds s x y 1 1 0 s := by
    refine ⟨fun _ _ _ _ => rfl, ?_, by rw [hc]; norm_num, by rw [hc]⟩
    intro a ha
    by_cases h : a = x
    · rw [h, hc]; norm_num
    · rw [hrow a ha h]; norm_num
  obtain ⟨s', m, e, b, hm⟩ := try_horizontal_flow_rowBounds hg hy (by norm_num) s hstart
  refine ⟨s', ?_, b.1, ?_, b.2.2.2⟩
  · rw [process_water_cell_eq hg hy, hamt, move_zero]
    simp only
    rw [if_neg (by rw [hc]; norm_num), if_neg (by rw [hb]; norm_num)]
    exact e
  · have h6 : (9 / 10 : ℚ) ^ 6 ≤ (9 / 10 : ℚ) ^ m :=
      pow_le_pow_of_le_one (by norm_num) (by norm_num) hm
    have := b.2.2.1
    norm_num at h6 this ⊢
    linarith

/-! ## A column of three full cells -/

/-- One step of a column of three full cells `(x, y)`, `(x, y + 1)`, `(x, y + 2)`
that does not reach the bottom row: the lateral spread happens in row `y + 1`,
and the two neighbours of `(x, y)` stay empty. -/
theorem game_update_column_above_bottom (g : Game) (x y : Int) (hx0 : 0 < x)
    (hx1 : x + 1 < TILE_WIDTH) (hy0 : 0 ≤ y) (hy : y + 3 < TILE_HEIGHT)
    (f1 : (g.state (cell_index x y)).volume = 1)
    (f2 : (g.state (cell_index x (y + 1))).volume = 1)
    (f3 : (g.state (cell_index x (y + 2))).volume = 1)
    (hz : ∀ x' y', InGrid x' y' → (x' ≠ x ∨ (y' ≠ y ∧ y' ≠ y + 1 ∧ y' ≠ y + 2)) →
      (g.state (cell_index x' y')).volume = 0) :
    ∃ g', game_update g = some g' ∧ (g'.state (cell_index (x + 1) y)).volume = 0 ∧
      (g'.state (cell_index (x - 1) y)).volume = 0 := by
  have hW := TILE_WIDTH_eq
  have hH := TILE_HEIGHT_eq
  have gy : InGrid x y := by rw [inGrid_iff]; omega
  have gy1 : InGrid x (y + 1) := by rw [inGrid_iff]; omega
  have gy2 : InGrid x (y + 2) := by rw [inGrid_iff]; omega
  have gy3 : InGrid x (y + 3) := by rw [inGrid_iff]; omega
  have gr : InGrid (x + 1) y := by rw [inGrid_iff]; omega
  have gl : InGrid (x - 1) y := by rw [inGrid_iff]; omega
  have s0eq : ∀ x' y', InGrid x' y' → snapshot g (cell_index x' y') = g.state (cell_index x' y') :=
    fun x' y' h => snapshot_inArray g (inArray_cell_index h)
  have hskip : ∀ x' y', InGrid x' y' → (x' ≠ x ∨ (y' ≠ y ∧ y' ≠ y + 1 ∧ y' ≠ y + 2)) →
      ¬ ((g.state (cell_index x' y')).volume > 0 ∧ y' + 1 < TILE_HEIGHT) := by
    intro x' y' h1 h2 h3
    rw [hz x' y' h1 h2] at h3
    exact lt_irrefl _ h3.1
  -- row `y + 2` drains into the empty cell below it
  have hA : update_cell g x (y + 2) (snapshot g) =
      some (move (snapshot g) (cell_index x (y + 2)) (cell_index x (y + 2 + 1)) (1 / 2)) := by
    rw [update_cell_eq g gy2, if_pos ⟨by rw [f3]; norm_num, by omega⟩]
    apply process_water_cell_drain gy2 (by omega)
    have e : y + 2 + 1 = y + 3 := by ring
    rw [e, s0eq _ _ gy3, hz x (y + 3) gy3 (Or.inr (by omega))]
    norm_num
  have e3 : y + 2 + 1 = y + 3 := by ring
  rw [e3] at hA
  have n23 : cell_index x (y + 2) ≠ cell_index x (y + 3) :=
    (cell_index_ne gy2 gy3 (Or.inr (by omega))).symm
  -- row `y + 1` fills the cell below it and spreads sideways
  have hB : ∀ s, s = move (snapshot g) (cell_index x (y + 2)) (cell_index x (y + 3)) (1 / 2) →
      ∃ s', update_cell g x (y + 1) s = some s' ∧
        (∀ x' y', InGrid x' y' → y' ≤ y → s' (cell_index x' y') = g.state (cell_index x' y')) ∧
        (s' (cell_index x (y + 1))).volume < 1 / 2 := by
    intro s hs
    have e2 : y + 1 + 1 = y + 2 := by ring
    have n12 : cell_index x (y + 1) ≠ cell_index x (y + 2) :=
      (cell_index_ne gy1 gy2 (Or.inr (by omega))).symm
    have sval : ∀ x' y', InGrid x' y' → y' ≤ y + 1 →
        s (cell_index x' y') = g.state (cell_index x' y') := by
      intro x' y' h hle
      rw [hs, move_other _ (cell_index_ne gy2 h (Or.inr (by omega)))
        (cell_index_ne gy3 h (Or.inr (by omega))), s0eq _ _ h]
    have sbelow : (s (cell_index x (y + 2))).volume = 1 / 2 := by
      rw [hs, move_current _ n23]
      show (snapshot g (cell_index x (y + 2))).volume - 1 / 2 = 1 / 2
      rw [s0eq _ _ gy2, f3]; norm_num
    have hamt : fill_amount 1 (s (cell_index x (y + 1 + 1))).volume (1 / 2) = 1 / 2 := by
      rw [e2, sbelow, fill_amount_eq_min]; norm_num
    have c1 : (move s (cell_index x (y + 1)) (cell_index x (y + 2)) (1 / 2)
        (cell_index x (y + 1))).volume = 1 / 2 := by
      rw [move_current _ n12]
      show (s (cell_index x (y + 1))).volume - 1 / 2 = 1 / 2
      rw [sval _ _ gy1 (le_refl _), f2]; norm_num
    have b1 : (move s (cell_index x (y + 1)) (cell_index x (y + 2)) (1 / 2)
        (cell_index x (y + 2))).volume = 1 := by
      rw [move_target _ n12]
      show (s (cell_index x (y + 2))).volume + 1 / 2 = 1
      rw [sbelow]; norm_num
    obtain ⟨s', hs', fr, hcur, -⟩ := try_horizontal_flow_lone_cell gy1 (by omega) hx1
      (move s (cell_index x (y + 1)) (cell_index x (y + 2)) (1 / 2))
      (by rw [c1]; norm_num) (by rw [c1]; norm_num) (by rw [e2, b1]; norm_num)
      (by
        intro x' hx' hne
        rw [move_other _ (cell_index_ne gy1 hx' (Or.inl hne))
          (cell_index_ne gy2 hx' (Or.inr (by omega))), sval _ _ hx' (le_refl _)]
        exact hz x' (y + 1) hx' (Or.inl hne))
    refine ⟨s', ?_, ?_, ?_⟩
    · rw [update_cell_eq g gy1, if_pos ⟨by rw [f2]; norm_num, by omega⟩,
        process_water_cell_eq gy1 (by omega), hamt]
      simp only
      rw [e2, if_neg (by rw [c1]; norm_num), if_neg (by rw [b1]; norm_num)]
      exact hs'
    · intro x' y' h hle
      rw [fr x' y' h (by omega), move_other _ (cell_index_ne gy1 h (Or.inr (by omega)))
        (cell_index_ne gy2 h (Or.inr (by omega)))]
      exact sval x' y' h (by omega)
    · rw [c1] at hcur
      linarith
  -- row `y` drains into the cell below it, which holds less than a half
  have hC : ∀ s, (∀ x' y', InGrid x' y' → y' ≤ y →
        s (cell_index x' y') = g.state (cell_index x' y')) →
      (s (cell_index x (y + 1))).volume < 1 / 2 →
      ∃ s', update_cell g x y s = some s' ∧ (s' (cell_index (x + 1) y)).volume = 0 ∧
        (s' (cell_index (x - 1) y)).volume = 0 := by
    intro s hs hb
    refine ⟨move s (cell_index x y) (cell_index x (y + 1)) (1 / 2), ?_, ?_, ?_⟩
    · rw [update_cell_eq g gy, if_pos ⟨by rw [f1]; norm_num, by omega⟩]
      exact process_water_cell_drain gy (by omega) s hb
    · rw [move_other _ (cell_index_ne gy gr (Or.inl (by omega)))
        (cell_index_ne gy1 gr (Or.inl (by omega))), hs _ _ gr (le_refl _)]
      exact hz (x + 1) y gr (Or.inl (by omega))
    · rw [move_other _ (cell_index_ne gy gl (Or.inl (by omega)))
        (cell_index_ne gy1 gl (Or.inl (by omega))), hs _ _ gl (le_refl _)]
      exact hz (x - 1) y gl (Or.inl (by omega))
  obtain ⟨s', h1, h2⟩ := simulate_rule g
    (fun k s => (y + 3 ≤ k → s = snapshot g) ∧
      (k = y + 2 → s = move (snapshot g) (cell_index x (y + 2)) (cell_index x (y + 3)) (1 / 2)) ∧
      (k = y + 1 → (∀ x' y', InGrid x' y' → y' ≤ y →
          s (cell_index x' y') = g.state (cell_index x' y')) ∧
        (s (cell_index x (y + 1))).volume < 1 / 2) ∧
      (k ≤ y → (s (cell_index (x + 1) y)).volume = 0 ∧ (s (cell_index (x - 1) y)).volume = 0))
    (snapshot g) ⟨fun _ => rfl, fun h => by omega, fun h => by omega, fun h => by omega⟩
    (by
      intro k s hk0 hk1 hs
      by_cases c3 : y + 3 ≤ k
      · refine ⟨s, ?_, fun _ => hs.1 (by omega), fun h => by omega, fun h => by omega,
          fun h => by omega⟩
        exact update_row_skip g hk0 hk1 s (fun x' hx' => hskip x' k hx' (Or.inr (by omega)))
      · by_cases c2 : k = y + 2
        · subst c2
          refine ⟨_, ?_, fun h => by omega, fun _ => rfl, fun h => by omega, fun h => by omega⟩
          rw [hs.1 (by omega), update_row_single g gy2 _
            (fun x' hx' hne => hskip x' (y + 2) hx' (Or.inl hne))]
          exact hA
        · by_cases c1 : k = y + 1
          · subst c1
            obtain ⟨s', e, p1, p2⟩ := hB s (hs.2.1 (by ring))
            refine ⟨s', ?_, fun h => by omega, fun h => by omega, fun _ => ⟨p1, p2⟩,
              fun h => by omega⟩
            rw [update_row_single g gy1 _
              (fun x' hx' hne => hskip x' (y + 1) hx' (Or.inl hne))]
            exact e
          · by_cases c0 : k = y
            · subst c0
              obtain ⟨q1, q2⟩ := hs.2.2.1 rfl
              obtain ⟨s', e, p1, p2⟩ := hC s q1 q2
              refine ⟨s', ?_, fun h => by omega, fun h => by omega, fun h => by omega,
                fun _ => ⟨p1, p2⟩⟩
              rw [update_row_single g gy _
                (fun x' hx' hne => hskip x' k hx' (Or.inl hne))]
              exact e
            · refine ⟨s, ?_, fun h => by omega, fun h => by omega, fun h => by omega,
                fun _ => hs.2.2.2 (by omega)⟩
              exact update_row_skip g hk0 hk1 s
                (fun x' hx' => hskip x' k hx' (Or.inr (by omega))))
  refine ⟨committed g s', by rw [game_update_eq, h1]; rfl, ?_, ?_⟩
  · rw [committed_state, commit_inArray _ _ (inArray_cell_index gr)]
    exact (h2.2.2.2 hy0).1
  · rw [committed_state, commit_inArray _ _ (inArray_cell_index gl)]
    exact (h2.2.2.2 hy0).2

theorem column_game_full (x y : Int) :
    ((column_game x y).state (cell_index x y)).volume = 1 ∧
    ((column_game x y).state (cell_index x (y + 1))).volume = 1 ∧
    ((column_game x y).state (cell_index x (y + 2))).volume = 1 := by
  simp [column_game]

theorem column_game_zero {x y x' y' : Int} (hx0 : 0 ≤ x) (hx1 : x < 80) (h' : InGrid x' y')
    (hne : x' ≠ x ∨ (y' ≠ y ∧ y' ≠ y + 1 ∧ y' ≠ y + 2)) :
    ((column_game x y).state (cell_index x' y')).volume = 0 := by
  rw [inGrid_iff] at h'
  have n1 : cell_index x' y' ≠ cell_index x y := by
    rw [cell_index_eq, cell_index_eq]; omega
  have n2 : cell_index x' y' ≠ cell_index x (y + 1) := by
    rw [cell_index_eq, cell_index_eq]; omega
  have n3 : cell_index x' y' ≠ cell_index x (y + 2) := by
    rw [cell_index_eq, cell_index_eq]; omega
  simp [column_game, n1, n2, n3]

/-- One step of a column of three full cells standing on the bottom row: the
top cell `(x, y)` spreads sideways and its right neighbour becomes wet. -/
theorem game_update_column_on_bottom (g : Game) (x y : Int) (hx0 : 0 < x)
    (hx1 : x + 1 < TILE_WIDTH) (hy : y + 2 = TILE_HEIGHT - 1)
    (f1 : (g.state (cell_index x y)).volume = 1)
    (f2 : (g.state (cell_index x (y + 1))).volume = 1)
    (f3 : (g.state (cell_index x (y + 2))).volume = 1)
    (hz : ∀ x' y', InGrid x' y' → (x' ≠ x ∨ (y' ≠ y ∧ y' ≠ y + 1 ∧ y' ≠ y + 2)) →
      (g.state (cell_index x' y')).volume = 0) :
    ∃ g', game_update g = some g' ∧ 0 < (g'.state (cell_index (x + 1) y)).volume := by
  have hW := TILE_WIDTH_eq
  have hH := TILE_HEIGHT_eq
  have gy : InGrid x y := by rw [inGrid_iff]; omega
  have gy1 : InGrid x (y + 1) := by rw [inGrid_iff]; omega
  have gy2 : InGrid x (y + 2) := by rw [inGrid_iff]; omega
  have gr : InGrid (x + 1) y := by rw [inGrid_iff]; omega
  have e2 : y + 1 + 1 = y + 2 := by ring
  have n01 : cell_index x y ≠ cell_index x (y + 1) :=
    (cell_index_ne gy gy1 (Or.inr (by omega))).symm
  have s0eq : ∀ x' y', InGrid x' y' → snapshot g (cell_index x' y') = g.state (cell_index x' y') :=
    fun x' y' h => snapshot_inArray g (inArray_cell_index h)
  have hskip : ∀ x' y', InGrid x' y' → (x' ≠ x ∨ (y' ≠ y ∧ y' ≠ y + 1)) →
      ¬ ((g.state (cell_index x' y')).volume > 0 ∧ y' + 1 < TILE_HEIGHT) := by
    intro x' y' h1 h2 h3
    have h1' := h1
    rw [inGrid_iff] at h1'
    by_cases hb : y' = y + 2
    · omega
    · rw [hz x' y' h1 (by omega)] at h3
      exact lt_irrefl _ h3.1
  -- row `y + 1`: nothing flows down, the cell spreads sideways
  have hA : ∃ s', update_cell g x (y + 1) (snapshot g) = some s' ∧
      (∀ x' y', InGrid x' y' → y' ≠ y + 1 → s' (cell_index x' y') = g.state (cell_index x' y')) ∧
      1 / 2 ≤ (s' (cell_index x (y + 1))).volume ∧ (s' (cell_index x (y + 1))).volume ≤ 1 := by
    obtain ⟨s', e, fr, lo, hi⟩ := process_water_cell_full_on_full gy1 (by omega) (snapshot g)
      (by rw [s0eq _ _ gy1, f2]) (by rw [e2, s0eq _ _ gy2, f3])
      (by
        intro x' hx' hne
        rw [s0eq _ _ hx']
        exact hz x' (y + 1) hx' (Or.inl hne))
    refine ⟨s', ?_, ?_, lo, hi⟩
    · rw [update_cell_eq g gy1, if_pos ⟨by rw [f2]; norm_num, by omega⟩]
      exact e
    · intro x' y' h hne
      rw [fr x' y' h hne, s0eq _ _ h]
  -- row `y`: the cell tops up the cell below it and spreads sideways
  have hB : ∀ s, (∀ x' y', InGrid x' y' → y' ≠ y + 1 →
        s (cell_index x' y') = g.state (cell_index x' y')) →
      1 / 2 ≤ (s (cell_index x (y + 1))).volume → (s (cell_index x (y + 1))).volume ≤ 1 →
      ∃ s', update_cell g x y s = some s' ∧ 0 < (s' (cell_index (x + 1) y)).volume := by
    intro s fr lo hi
    have hamt : fill_amount 1 (s (cell_index x (y + 1))).volume (1 / 2) =
        1 - (s (cell_index x (y + 1))).volume := fill_amount_half_of_ge_half lo
    have c1 : (move s (cell_index x y) (cell_index x (y + 1))
        (1 - (s (cell_index x (y + 1))).volume) (cell_index x y)).volume =
        (s (cell_index x (y + 1))).volume := by
      rw [move_current _ n01]
      show (s (cell_index x y)).volume - _ = _
      rw [fr _ _ gy (by omega), f1]; ring
    have b1 : (move s (cell_index x y) (cell_index x (y + 1))
        (1 - (s (cell_index x (y + 1))).volume) (cell_index x (y + 1))).volume = 1 := by
      rw [move_target _ n01]
      show (s (cell_index x (y + 1))).volume + _ = 1
      ring
    obtain ⟨s', e, -, -, pos⟩ := try_horizontal_flow_lone_cell gy (by omega) hx1
      (move s (cell_index x y) (cell_index x (y + 1)) (1 - (s (cell_index x (y + 1))).volume))
      (by rw [c1]; linarith) (by rw [c1]; exact hi) (by rw [b1]; norm_num)
      (by
        intro x' hx' hne
        rw [move_other _ (cell_index_ne gy hx' (Or.inl hne))
          (cell_index_ne gy1 hx' (Or.inr (by omega))), fr _ _ hx' (by omega)]
        exact hz x' y hx' (Or.inl hne))
    refine ⟨s', ?_, pos⟩
    rw [update_cell_eq g gy, if_pos ⟨by rw [f1]; norm_num, by omega⟩,
      process_water_cell_eq gy (by omega), hamt]
    simp only
    rw [if_neg (by rw [c1]; linarith), if_neg (by rw [b1]; norm_num)]
    exact e
  obtain ⟨s', h1, h2⟩ := simulate_rule g
    (fun k s => (y + 2 ≤ k → s = snapshot g) ∧
      (k = y + 1 → (∀ x' y', InGrid x' y' → y' ≠ y + 1 →
          s (cell_index x' y') = g.state (cell_index x' y')) ∧
        1 / 2 ≤ (s (cell_index x (y + 1))).volume ∧ (s (cell_index x (y + 1))).volume ≤ 1) ∧
      (k ≤ y → 0 < (s (cell_index (x + 1) y)).volume))
    (snapshot g) ⟨fun _ => rfl, fun h => by omega, fun h => by omega⟩
    (by
      intro k s hk0 hk1 hs
      by_cases c2 : y + 2 ≤ k
      · refine ⟨s, ?_, fun _ => hs.1 (by omega), fun h => by omega, fun h => by omega⟩
        exact update_row_skip g hk0 hk1 s (fun x' hx' => hskip x' k hx' (Or.inr (by omega)))
      · by_cases c1 : k = y + 1
        · subst c1
          obtain ⟨s', e, p⟩ := hA
          refine ⟨s', ?_, fun h => by omega, fun _ => p, fun h => by omega⟩
          rw [hs.1 (by omega), update_row_single g gy1 _
            (fun x' hx' hne => hskip x' (y + 1) hx' (Or.inl hne))]
          exact e
        · by_cases c0 : k = y
          · subst c0
            obtain ⟨q1, q2, q3⟩ := hs.2.1 rfl
            obtain ⟨s', e, p⟩ := hB s q1 q2 q3
            refine ⟨s', ?_, fun h => by omega, fun h => by omega, fun _ => p⟩
            rw [update_row_single g gy _
              (fun x' hx' hne => hskip x' k hx' (Or.inl hne))]
            exact e
          · refine ⟨s, ?_, fun h => by omega, fun h => by omega, fun _ => hs.2.2 (by omega)⟩
            exact update_row_skip g hk0 hk1 s
              (fun x' hx' => hskip x' k hx' (Or.inr (by omega))))
  refine ⟨committed g s', by rw [game_update_eq, h1]; rfl, ?_⟩
  rw [committed_state, commit_inArray _ _ (inArray_cell_index gr)]
  exact h2.2.2 (by omega)

/-! ## Claims C1, C3, C5, C7 -/

/-- C1 (conservation): over exact arithmetic, `game_update` always succeeds and
the sum of the volumes of all cells after it equals the sum before it. -/
theorem C1_game_update_conserves_volume (g : Game) :
    ∃ g', game_update g = some g' ∧ total_volume g'.state = total_volume g.state := by
  have hstable : StableUnderFlow (fun s => total_volume s = total_volume g.state) := by
    intro x y st x' y' r h hs _
    obtain ⟨hc, ht, hne⟩ := flowStep_inArray hs
    show total_volume (move _ _ _ _) = _
    rw [total_volume_move hc ht hne, h]
  have hlocal : ArrayLocal (fun s => total_volume s = total_volume g.state) := by
    intro s s' h hs
    show total_volume s' = _
    rw [← total_volume_congr h, hs]
  obtain ⟨g', h1, h2, -, -⟩ := game_update_inv hstable hlocal g rfl
  exact ⟨g', h1, h2⟩

/-- C3 (capacity ceiling): if every cell volume is at most `1`, then after one
`game_update` every cell volume is still at most `1`; and the same holds after
any sequence of steps and injections at cells of the grid. -/
theorem C3_capacity_ceiling (g : Game) (h : ∀ i, InArray i → (g.state i).volume ≤ 1) :
    (∃ g', game_update g = some g' ∧ ∀ i, InArray i → (g'.state i).volume ≤ 1) ∧
    (∀ actions : List Action, (∀ a ∈ actions, a.Valid) →
      ∃ g', run_actions actions g = some g' ∧ ∀ i, InArray i → (g'.state i).volume ≤ 1) := by
  constructor
  · obtain ⟨g', h1, h2, -, -⟩ := game_update_inv atMostFull_stable atMostFull_local g h
    exact ⟨g', h1, h2⟩
  · intro actions
    induction actions generalizing g with
    | nil => intro _; exact ⟨g, rfl, h⟩
    | cons a rest ih =>
      intro hv
      obtain ⟨g1, h1, hb1⟩ := run_action_atMostFull g a (hv a (List.mem_cons_self _ _)) h
      obtain ⟨g2, h2, hb2⟩ := ih g1 hb1 (fun b hb => hv b (List.mem_cons_of_mem _ hb))
      refine ⟨g2, ?_, hb2⟩
      unfold run_actions at h2 ⊢
      rw [List.foldlM_cons, h1]
      exact h2

theorem C3_capacity_ceiling_witness :
    (∃ g', game_update empty_game = some g' ∧ ∀ i, InArray i → (g'.state i).volume ≤ 1) ∧
    (∀ actions : List Action, (∀ a ∈ actions, a.Valid) →
      ∃ g', run_actions actions empty_game = some g' ∧
        ∀ i, InArray i → (g'.state i).volume ≤ 1) :=
  C3_capacity_ceiling empty_game (fun _ _ => by simp [empty_game])

/-- C7 (lateral gating): for a cell `(x, y)` of the grid, if `y` is the bottom
row or the cell directly below holds at most `1/2`, then `try_horizontal_flow`
succeeds and leaves the whole array unchanged. -/
theorem C7_lateral_gating (state : Cells) (x y : Int) (hg : InGrid x y)
    (h : y = TILE_HEIGHT - 1 ∨ (state (cell_index x (y + 1))).volume ≤ 1 / 2) :
    try_horizontal_flow x y state = some state := by
  by_cases hy : y + 1 < TILE_HEIGHT
  · rw [try_horizontal_flow_eq hg hy]
    rcases h with h | h
    · omega
    · rw [if_neg (not_lt.mpr h)]
  · unfold try_horizontal_flow
    simp [hy]

theorem C7_lateral_gating_witness :
    try_horizontal_flow 5 39 empty_game.state = some empty_game.state :=
  C7_lateral_gating empty_game.state 5 39 ((inGrid_iff 5 39).mpr (by decide))
    (Or.inl (by decide))

/-! ## Claims C2, C4 -/

/-- C2 (non-negativity), evaluated on the code: the grid whose only wet cell is
`(0, 0)` with volume `1/4` has every volume in `[0, 1]`, and after one
`game_update` cell `(0, 0)` holds `-1/4`. -/
theorem C2_step_makes_volume_negative :
    (∀ i, InArray i → 0 ≤ ((single_cell_game 0 0 (1 / 4)).state i).volume ∧
      ((single_cell_game 0 0 (1 / 4)).state i).volume ≤ 1) ∧
    ∃ g', game_update (single_cell_game 0 0 (1 / 4)) = some g' ∧
      (g'.state (cell_index 0 0)).volume = -1 / 4 := by
  have hg : InGrid 0 0 := (inGrid_iff 0 0).mpr (by decide)
  constructor
  · intro i _
    unfold single_cell_game
    by_cases h : i = cell_index 0 0
    · simp only [if_pos h]; norm_num
    · simp only [if_neg h]; norm_num
  · refine ⟨_, game_update_single_cell _ 0 0 hg (by decide) ?_ ?_, ?_⟩
    · simp [single_cell_game]
    · intro x' y' h1 h2
      simp [single_cell_game, cell_index_ne hg h1 h2]
    · rw [committed_state, commit_inArray _ _ (inArray_cell_index hg), move_current _ (by decide),
        snapshot_inArray _ (inArray_cell_index hg)]
      simp [single_cell_game]
      norm_num

/-- C4 (downward-only step): if cell `(x, y)`, above the bottom row, holds `1`
and every other cell holds `0`, then after one `game_update` cell `(x, y)` holds
exactly `1/2`, cell `(x, y + 1)` holds exactly `1/2`, and every other cell
still holds `0`. -/
theorem C4_single_full_cell_step (g : Game) (x y : Int) (hg : InGrid x y)
    (hy : y + 1 < TILE_HEIGHT) (hfull : (g.state (cell_index x y)).volume = 1)
    (hz : ∀ x' y', InGrid x' y' → (x' ≠ x ∨ y' ≠ y) → (g.state (cell_index x' y')).volume = 0) :
    ∃ g', game_update g = some g' ∧
      (g'.state (cell_index x y)).volume = 1 / 2 ∧
      (g'.state (cell_index x (y + 1))).volume = 1 / 2 ∧
      ∀ x' y', InGrid x' y' → (x' ≠ x ∨ (y' ≠ y ∧ y' ≠ y + 1)) →
        (g'.state (cell_index x' y')).volume = 0 := by
  have hb := inGrid_below hg hy
  have hne : cell_index x y ≠ cell_index x (y + 1) :=
    (cell_index_ne hg hb (Or.inr (by omega))).symm
  refine ⟨_, game_update_single_cell g x y hg hy (by rw [hfull]; norm_num) hz, ?_, ?_, ?_⟩
  · rw [committed_state, commit_inArray _ _ (inArray_cell_index hg), move_current _ hne,
      snapshot_inArray _ (inArray_cell_index hg)]
    show (g.state (cell_index x y)).volume - 1 / 2 = 1 / 2
    rw [hfull]; norm_num
  · rw [committed_state, commit_inArray _ _ (inArray_cell_index hb), move_target _ hne,
      snapshot_inArray _ (inArray_cell_index hb)]
    show (g.state (cell_index x (y + 1))).volume + 1 / 2 = 1 / 2
    rw [hz x (y + 1) hb (Or.inr (by omega))]; norm_num
  · intro x' y' h' hne'
    rw [committed_state, commit_inArray _ _ (inArray_cell_index h'),
      move_other _ (cell_index_ne hg h' (by omega)) (cell_index_ne hb h' (by omega)),
      snapshot_inArray _ (inArray_cell_index h')]
    exact hz x' y' h' (by omega)

theorem C4_single_full_cell_step_witness :
    ∃ g', game_update (single_cell_game 5 3 1) = some g' ∧
      (g'.state (cell_index 5 3)).volume = 1 / 2 ∧
      (g'.state (cell_index 5 (3 + 1))).volume = 1 / 2 ∧
      ∀ x' y', InGrid x' y' → (x' ≠ 5 ∨ (y' ≠ 3 ∧ y' ≠ 3 + 1)) →
        (g'.state (cell_index x' y')).volume = 0 :=
  C4_single_full_cell_step (single_cell_game 5 3 1) 5 3 ((inGrid_iff 5 3).mpr (by decide))
    (by decide) (by simp [single_cell_game])
    (fun x' y' h1 h2 => by
      simp [single_cell_game, cell_index_ne ((inGrid_iff 5 3).mpr (by decide)) h1 h2])

/-! ## Claims C8, C9 -/

/-- C8 (distance decay): for a cell `(x, y)` holding `v` in `(0, 1]`, with the
cell below above `1/2` and the three cells to its right inside the grid and
empty, `try_horizontal_flow` leaves exactly `0.1 * v`, `0.045 * v` and
`0.0285 * v` at offsets 1, 2 and 3, each strictly more than the next. -/
theorem C8_distance_decay (state : Cells) (x y : Int) (v : ℚ) (hg : InGrid x y)
    (hx : x + 3 < TILE_WIDTH) (hy : y + 1 < TILE_HEIGHT)
    (hv : (state (cell_index x y)).volume = v) (hv0 : 0 < v) (hv1 : v ≤ 1)
    (hb : (state (cell_index x (y + 1))).volume > 1 / 2)
    (z1 : (state (cell_index (x + 1) y)).volume = 0)
    (z2 : (state (cell_index (x + 2) y)).volume = 0)
    (z3 : (state (cell_index (x + 3) y)).volume = 0) :
    ∃ st', try_horizontal_flow x y state = some st' ∧
      (st' (cell_index (x + 1) y)).volume = 1 / 10 * v ∧
      (st' (cell_index (x + 2) y)).volume = 45 / 1000 * v ∧
      (st' (cell_index (x + 3) y)).volume = 285 / 10000 * v ∧
      (st' (cell_index (x + 1) y)).volume > (st' (cell_index (x + 2) y)).volume ∧
      (st' (cell_index (x + 2) y)).volume > (st' (cell_index (x + 3) y)).volume := by
  have e : ∀ a b : Int, cell_index a b = 80 * b + a := cell_index_eq
  obtain ⟨s3, hs3, -, r1, r2, r3, -⟩ := cascade_three_zero state
    (cell_index x y) (cell_index (x + 1) y) (cell_index (x + 2) y)
    (cell_index (x + 3) y) v (by rw [e, e]; omega) (by rw [e, e]; omega)
    (by rw [e, e]; omega) (by rw [e, e]; omega) (by rw [e, e]; omega) (by rw [e, e]; omega)
    hv hv0 hv1 z1 z2 z3
  obtain ⟨st', hl, hframe⟩ := cascade_left_frame hg s3
  have f1 : (st' (cell_index (x + 1) y)).volume = 1 / 10 * v := by
    rw [hframe _ (by rw [e, e]; omega) (by rw [e, e]; omega) (by rw [e, e]; omega)
      (by rw [e, e]; omega), r1]; ring
  have f2 : (st' (cell_index (x + 2) y)).volume = 45 / 1000 * v := by
    rw [hframe _ (by rw [e, e]; omega) (by rw [e, e]; omega) (by rw [e, e]; omega)
      (by rw [e, e]; omega), r2]; ring
  have f3 : (st' (cell_index (x + 3) y)).volume = 285 / 10000 * v := by
    rw [hframe _ (by rw [e, e]; omega) (by rw [e, e]; omega) (by rw [e, e]; omega)
      (by rw [e, e]; omega), r3]; ring
  refine ⟨st', ?_, f1, f2, f3, ?_, ?_⟩
  · rw [try_horizontal_flow_eq hg hy, if_pos hb, cascade_right_full hg hx, hs3]
    exact hl
  · rw [f1, f2]; linarith
  · rw [f2, f3]; linarith

theorem C8_distance_decay_witness :
    ∃ st', try_horizontal_flow 5 3 (fun i => if i = 245 ∨ i = 325 then ⟨1, 10⟩ else ⟨0, 10⟩)
        = some st' ∧
      (st' (cell_index (5 + 1) 3)).volume = 1 / 10 * 1 ∧
      (st' (cell_index (5 + 2) 3)).volume = 45 / 1000 * 1 ∧
      (st' (cell_index (5 + 3) 3)).volume = 285 / 10000 * 1 ∧
      (st' (cell_index (5 + 1) 3)).volume > (st' (cell_index (5 + 2) 3)).volume ∧
      (st' (cell_index (5 + 2) 3)).volume > (st' (cell_index (5 + 3) 3)).volume :=
  C8_distance_decay (fun i => if i = 245 ∨ i = 325 then ⟨1, 10⟩ else ⟨0, 10⟩) 5 3 1
    ((inGrid_iff 5 3).mpr (by decide)) (by decide) (by decide)
    (by simp [cell_index_eq]) (by norm_num) (by norm_num)
    (by norm_num [cell_index_eq]) (by simp [cell_index_eq]) (by simp [cell_index_eq])
    (by simp [cell_index_eq])

/-- C9 (rightward bias), over exact arithmetic: for a cell `(x, y)` holding `v`
in `(0, 1]`, with the cell below above `1/2` and the six cells at offsets 1..3
to the right and to the left inside the grid and empty, after
`try_horizontal_flow` computed without rounding the right cell at each offset
holds strictly more than the left cell at the same offset. -/
theorem C9_rightward_bias (state : Cells) (x y : Int) (v : ℚ) (hg : InGrid x y)
    (hxr : x + 3 < TILE_WIDTH) (hxl : x - 3 ≥ 0) (hy : y + 1 < TILE_HEIGHT)
    (hv : (state (cell_index x y)).volume = v) (hv0 : 0 < v) (hv1 : v ≤ 1)
    (hb : (state (cell_index x (y + 1))).volume > 1 / 2)
    (zr : ∀ k : Int, 1 ≤ k → k ≤ 3 → (state (cell_index (x + k) y)).volume = 0)
    (zl : ∀ k : Int, 1 ≤ k → k ≤ 3 → (state (cell_index (x - k) y)).volume = 0) :
    ∃ st', try_horizontal_flow x y state = some st' ∧
      ∀ k : Int, 1 ≤ k → k ≤ 3 →
        (st' (cell_index (x + k) y)).volume > (st' (cell_index (x - k) y)).volume := by
  have e : ∀ a b : Int, cell_index a b = 80 * b + a := cell_index_eq
  obtain ⟨s3, hs3, rc, r1, r2, r3, rframe⟩ := cascade_three_zero state
    (cell_index x y) (cell_index (x + 1) y) (cell_index (x + 2) y)
    (cell_index (x + 3) y) v (by rw [e, e]; omega) (by rw [e, e]; omega)
    (by rw [e, e]; omega) (by rw [e, e]; omega) (by rw [e, e]; omega) (by rw [e, e]; omega)
    hv hv0 hv1 (zr 1 (by norm_num) (by norm_num)) (zr 2 (by norm_num) (by norm_num))
    (zr 3 (by norm_num) (by norm_num))
  have zl' : ∀ k : Int, 1 ≤ k → k ≤ 3 → (s3 (cell_index (x - k) y)).volume = 0 := by
    intro k k1 k3
    rw [rframe _ (by rw [e, e]; omega) (by rw [e, e]; omega) (by rw [e, e]; omega)
      (by rw [e, e]; omega)]
    exact zl k k1 k3
  obtain ⟨s6, hs6, -, l1, l2, l3, lframe⟩ := cascade_three_zero s3
    (cell_index x y) (cell_index (x - 1) y) (cell_index (x - 2) y)
    (cell_index (x - 3) y) (1653 / 2000 * v)
    (by rw [e, e]; omega) (by rw [e, e]; omega)
    (by rw [e, e]; omega) (by rw [e, e]; omega) (by rw [e, e]; omega) (by rw [e, e]; omega)
    rc (by linarith) (by linarith) (zl' 1 (by norm_num) (by norm_num))
    (zl' 2 (by norm_num) (by norm_num)) (zl' 3 (by norm_num) (by norm_num))
  have keep : ∀ k : Int, 1 ≤ k → k ≤ 3 →
      s6 (cell_index (x + k) y) = s3 (cell_index (x + k) y) := by
    intro k k1 k3
    exact lframe _ (by rw [e, e]; omega) (by rw [e, e]; omega) (by rw [e, e]; omega)
      (by rw [e, e]; omega)
  refine ⟨s6, ?_, ?_⟩
  · rw [try_horizontal_flow_eq hg hy, if_pos hb, cascade_right_full hg hxr, hs3]
    show cascade_left x y [1, 2, 3] s3 = some s6
    rw [cascade_left_full hg hxl, hs6]
  · intro k k1 k3
    rw [keep k k1 k3]
    have hk : k = 1 ∨ k = 2 ∨ k = 3 := by omega
    rcases hk with rfl | rfl | rfl
    · rw [r1, l1]; linarith
    · rw [r2, l2]; linarith
    · rw [r3, l3]; linarith

theorem C9_rightward_bias_witness :
    ∃ st', try_horizontal_flow 5 3 (fun i => if i = 245 ∨ i = 325 then ⟨1, 10⟩ else ⟨0, 10⟩)
        = some st' ∧
      ∀ k : Int, 1 ≤ k → k ≤ 3 →
        (st' (cell_index (5 + k) 3)).volume > (st' (cell_index (5 - k) 3)).volume :=
  C9_rightward_bias (fun i => if i = 245 ∨ i = 325 then ⟨1, 10⟩ else ⟨0, 10⟩) 5 3 1
    ((inGrid_iff 5 3).mpr (by decide)) (by decide) (by decide) (by decide)
    (by simp [cell_index_eq]) (by norm_num) (by norm_num)
    (by norm_num [cell_index_eq])
    (fun k k1 k3 => by
      have h1 : cell_index (5 + k) 3 ≠ 245 := by rw [cell_index_eq]; omega
      have h2 : cell_index (5 + k) 3 ≠ 325 := by rw [cell_index_eq]; omega
      simp [h1, h2])
    (fun k k1 k3 => by
      have h1 : cell_index (5 - k) 3 ≠ 245 := by rw [cell_index_eq]; omega
      have h2 : cell_index (5 - k) 3 ≠ 325 := by rw [cell_index_eq]; omega
      simp [h1, h2])

/-! ## Claim C6 -/

/-- C6 (lateral scenario), as the code has it: for an interior column `x` and
the row `y` with `y + 2` the bottom row, if `(x, y)`, `(x, y + 1)` and
`(x, y + 2)` hold `1` and every other cell holds `0`, then after one
`game_update` at least one of `(x + 1, y)`, `(x - 1, y)` has a positive volume. -/
theorem C6_lateral_scenario_on_bottom_row (g : Game) (x y : Int) (hx0 : 0 < x)
    (hx1 : x + 1 < TILE_WIDTH) (hy : y + 2 = TILE_HEIGHT - 1)
    (f1 : (g.state (cell_index x y)).volume = 1)
    (f2 : (g.state (cell_index x (y + 1))).volume = 1)
    (f3 : (g.state (cell_index x (y + 2))).volume = 1)
    (hz : ∀ x' y', InGrid x' y' → (x' ≠ x ∨ (y' ≠ y ∧ y' ≠ y + 1 ∧ y' ≠ y + 2)) →
      (g.state (cell_index x' y')).volume = 0) :
    ∃ g', game_update g = some g' ∧
      ((g'.state (cell_index (x + 1) y)).volume > 0 ∨
        (g'.state (cell_index (x - 1) y)).volume > 0) := by
  obtain ⟨g', h1, h2⟩ := game_update_column_on_bottom g x y hx0 hx1 hy f1 f2 f3 hz
  exact ⟨g', h1, Or.inl h2⟩

theorem C6_lateral_scenario_on_bottom_row_witness :
    ∃ g', game_update (column_game 5 37) = some g' ∧
      ((g'.state (cell_index (5 + 1) 37)).volume > 0 ∨
        (g'.state (cell_index (5 - 1) 37)).volume > 0) :=
  C6_lateral_scenario_on_bottom_row (column_game 5 37) 5 37 (by decide) (by decide) (by decide)
    (column_game_full 5 37).1 (column_game_full 5 37).2.1 (column_game_full 5 37).2.2
    (fun _ _ h hne => column_game_zero (by decide) (by decide) h hne)

/-- C6 fails as stated: in the grid with `(1, 0)`, `(1, 1)`, `(1, 2)` full and
every other cell empty (column 1 is interior and `0 + 2 < TILE_HEIGHT`), one
`game_update` leaves both `(2, 0)` and `(0, 0)` empty. -/
theorem C6_counterexample :
    (0 < (1 : Int) ∧ (1 : Int) + 1 < TILE_WIDTH ∧ (0 : Int) + 2 < TILE_HEIGHT) ∧
    ((column_game 1 0).state (cell_index 1 0)).volume = 1 ∧
    ((column_game 1 0).state (cell_index 1 (0 + 1))).volume = 1 ∧
    ((column_game 1 0).state (cell_index 1 (0 + 2))).volume = 1 ∧
    (∀ x' y', InGrid x' y' → (x' ≠ 1 ∨ (y' ≠ 0 ∧ y' ≠ 0 + 1 ∧ y' ≠ 0 + 2)) →
      ((column_game 1 0).state (cell_index x' y')).volume = 0) ∧
    ∃ g', game_update (column_game 1 0) = some g' ∧
      ¬ ((g'.state (cell_index (1 + 1) 0)).volume > 0 ∨
        (g'.state (cell_index (1 - 1) 0)).volume > 0) := by
  refine ⟨by decide, (column_game_full 1 0).1, (column_game_full 1 0).2.1,
    (column_game_full 1 0).2.2,
    fun _ _ h hne => column_game_zero (by decide) (by decide) h hne, ?_⟩
  obtain ⟨g', h1, h2, h3⟩ := game_update_column_above_bottom (column_game 1 0) 1 0 (by decide)
    (by decide) (by decide) (by decide) (column_game_full 1 0).1 (column_game_full 1 0).2.1
    (column_game_full 1 0).2.2 (fun _ _ h hne => column_game_zero (by decide) (by decide) h hne)
  refine ⟨g', h1, ?_⟩
  rw [h2, h3]
  norm_num

/-! ## Claim C11 -/

/-- C11 (no wraparound): for a cell `(x, y)` of the grid above the bottom row,
`process_water_cell x y` succeeds and changes no cell other than `(x, y + 1)`
and the cells of row `y` in columns `max 0 (x - 3) .. min (TILE_WIDTH - 1) (x + 3)`;
in particular the cells just before the start of row `y` and just after its end
are unchanged. -/
theorem C11_no_wraparound (state : Cells) (x y : Int) (hg : InGrid x y)
    (hy : y + 1 < TILE_HEIGHT) :
    ∃ st', process_water_cell x y state = some st' ∧
      (∀ i, i ≠ cell_index x (y + 1) →
        (∀ x', max 0 (x - 3) ≤ x' → x' ≤ min (TILE_WIDTH - 1) (x + 3) → i ≠ cell_index x' y) →
        st' i = state i) ∧
      (∀ k : Int, 1 ≤ k → k ≤ 3 → x - k < 0 →
        st' (cell_index x y - k) = state (cell_index x y - k)) ∧
      (∀ k : Int, 1 ≤ k → k ≤ 3 → x + k ≥ TILE_WIDTH →
        st' (cell_index x y + k) = state (cell_index x y + k)) := by
  have hW := TILE_WIDTH_eq
  have hg' := hg
  rw [inGrid_iff] at hg'
  have hstable : StableUnderFlowFrom x y (fun s => ∀ i, i ≠ cell_index x (y + 1) →
      (∀ x', max 0 (x - 3) ≤ x' → x' ≤ min (TILE_WIDTH - 1) (x + 3) → i ≠ cell_index x' y) →
      s i = state i) := by
    intro st x' y' r h hs _ i h1 h2
    obtain ⟨-, -, hg2, hcase⟩ := hs
    have hg2' := hg2
    rw [inGrid_iff] at hg2'
    have hc : i ≠ cell_index x y :=
      h2 x (by rw [max_le_iff]; omega) (by rw [le_min_iff]; omega)
    have ht : i ≠ cell_index x' y' := by
      rcases hcase with ⟨rfl, rfl⟩ | ⟨rfl, -, hlo, hhi⟩
      · exact h1
      · exact h2 x' (by rw [max_le_iff]; omega) (by rw [le_min_iff]; omega)
    rw [move_other _ hc ht]
    exact h i h1 h2
  obtain ⟨st', e, hI⟩ := process_water_cell_inv hstable hg hy state (fun _ _ _ => rfl)
  refine ⟨st', e, hI, ?_, ?_⟩
  · intro k k1 k3 hk
    apply hI
    · rw [cell_index_eq, cell_index_eq]; omega
    · intro x' hlo _
      rw [max_le_iff] at hlo
      rw [cell_index_eq, cell_index_eq]; omega
  · intro k k1 k3 hk
    apply hI
    · rw [cell_index_eq, cell_index_eq]; omega
    · intro x' _ hhi
      rw [le_min_iff] at hhi
      rw [cell_index_eq, cell_index_eq]; omega

theorem C11_no_wraparound_witness :
    ∃ st', process_water_cell 0 5 empty_game.state = some st' ∧
      (∀ i, i ≠ cell_index 0 (5 + 1) →
        (∀ x', max 0 (0 - 3) ≤ x' → x' ≤ min (TILE_WIDTH - 1) (0 + 3) → i ≠ cell_index x' 5) →
        st' i = empty_game.state i) ∧
      (∀ k : Int, 1 ≤ k → k ≤ 3 → 0 - k < 0 →
        st' (cell_index 0 5 - k) = empty_game.state (cell_index 0 5 - k)) ∧
      (∀ k : Int, 1 ≤ k → k ≤ 3 → 0 + k ≥ TILE_WIDTH →
        st' (cell_index 0 5 + k) = empty_game.state (cell_index 0 5 + k)) :=
  C11_no_wraparound empty_game.state 0 5 ((inGrid_iff 0 5).mpr (by decide)) (by decide)

/-! ## Steps that change nothing -/

theorem committed_snapshot (g : Game) : committed g (snapshot g) = g := by
  cases g with
  | mk w h st =>
    unfold committed commit snapshot
    simp only
    congr 1
    funext i
    by_cases hi : 0 ≤ i ∧ i < 3200
    · simp only [if_pos hi]
    · simp only [if_neg hi]

/-- When no cell changes the copy of the grid, `game_update` returns the game
it was given. -/
theorem game_update_of_noop (g : Game)
    (h : ∀ x y, InGrid x y → update_cell g x y (snapshot g) = some (snapshot g)) :
    game_update g = some g := by
  obtain ⟨s', h1, h2⟩ := simulate_rule g (fun _ s => s = snapshot g) (snapshot g) rfl
    (by
      intro y s hy0 hy1 hs
      obtain ⟨s', e1, e2⟩ := update_row_rule g hy0 hy1 (fun _ s => s = snapshot g) s hs
        (by
          intro x s1 hg hs1
          refine ⟨snapshot g, ?_, rfl⟩
          rw [hs1]
          exact h x y hg)
      exact ⟨s', e1, e2⟩)
  rw [game_update_eq, h1, h2]
  show some (committed g (snapshot g)) = some g
  rw [committed_snapshot]

/-- A pass of a cascade body changes nothing when the target does not hold less
than the current cell. -/
theorem cascade_result_of_not_lt {state : Cells} {current target : Int} (offset : Int)
    (h : ¬ (state target).volume < (state current).volume) :
    cascade_result state current target offset = state := by
  unfold cascade_result
  rw [if_neg h]

/-- The lateral spread changes nothing when no cell of the row holds less than
the current cell. -/
theorem try_horizontal_flow_level {x y : Int} (hg : InGrid x y) (state : Cells)
    (h : ∀ x', InGrid x' y →
      ¬ (state (cell_index x' y)).volume < (state (cell_index x y)).volume) :
    try_horizontal_flow x y state = some state := by
  by_cases hy : y + 1 < TILE_HEIGHT
  · have hg' := hg
    rw [inGrid_iff] at hg'
    rw [try_horizontal_flow_eq hg hy]
    split
    · obtain ⟨s1, m1, e1, b1, -, -⟩ := cascade_right_rule (J := fun _ s => s = state) hg
        [1, 2, 3] offsets_123 0 state rfl
        (by
          intro k s o hmem hlt hs
          have ho := offsets_123 o hmem
          rw [TILE_WIDTH_eq] at hlt
          rw [hs]
          exact cascade_result_of_not_lt o (h (x + o) (by rw [inGrid_iff]; omega)))
      obtain ⟨s2, m2, e2, b2, -, -⟩ := cascade_left_rule (J := fun _ s => s = state) hg
        [1, 2, 3] offsets_123 0 state rfl
        (by
          intro k s o hmem hge hs
          have ho := offsets_123 o hmem
          rw [hs]
          exact cascade_result_of_not_lt o (h (x - o) (by rw [inGrid_iff]; omega)))
      rw [e1, b1]
      show cascade_left x y [1, 2, 3] state = some state
      rw [e2, b2]
    · rfl
  · unfold try_horizontal_flow
    simp [hy]

/-! ## Claims C14, C16, C19, and the bounds of a transfer -/

/-- C14 (bottom row has no outflow): if every cell volume is at most `1`, then
after one `game_update` every cell of the bottom row holds at least what it
held before; and the simulation loop passes over every bottom-row cell
without processing it. -/
theorem C14_bottom_row_no_outflow (g : Game) (h : ∀ i, InArray i → (g.state i).volume ≤ 1) :
    (∃ g', game_update g = some g' ∧
      ∀ x, InGrid x (TILE_HEIGHT - 1) →
        (g'.state (cell_index x (TILE_HEIGHT - 1))).volume ≥
          (g.state (cell_index x (TILE_HEIGHT - 1))).volume) ∧
    (∀ (x : Int) (st : Cells), InGrid x (TILE_HEIGHT - 1) →
      update_cell g x (TILE_HEIGHT - 1) st = some st) := by
  have hH := TILE_HEIGHT_eq
  constructor
  · have hstable : StableUnderFlow (fun s => AtMostFull s ∧
        ∀ x, InGrid x (TILE_HEIGHT - 1) →
          (s (cell_index x (TILE_HEIGHT - 1))).volume ≥
            (g.state (cell_index x (TILE_HEIGHT - 1))).volume) := by
      intro x0 y0 st x' y' r hI hs hr
      refine ⟨atMostFull_stable x0 y0 st x' y' r hI.1 hs hr, ?_⟩
      obtain ⟨hc, ht, hne⟩ := flowStep_inArray hs
      intro x hx
      have hn := fill_amount_nonneg (hI.1 _ ht) hr
      have hsrc : cell_index x (TILE_HEIGHT - 1) ≠ cell_index x0 y0 :=
        cell_index_ne hs.1 hx (Or.inr (by have := hs.2.1; omega))
      by_cases h1 : cell_index x (TILE_HEIGHT - 1) = cell_index x' y'
      · rw [h1, move_target _ hne]
        show (st (cell_index x' y')).volume + _ ≥ _
        have := hI.2 x hx
        rw [h1] at this
        linarith
      · rw [move_other _ hsrc h1]
        exact hI.2 x hx
    have hlocal : ArrayLocal (fun s => AtMostFull s ∧
        ∀ x, InGrid x (TILE_HEIGHT - 1) →
          (s (cell_index x (TILE_HEIGHT - 1))).volume ≥
            (g.state (cell_index x (TILE_HEIGHT - 1))).volume) := by
      intro s s' hss hI
      refine ⟨atMostFull_local s s' hss hI.1, ?_⟩
      intro x hx
      rw [← hss _ (inArray_cell_index hx)]
      exact hI.2 x hx
    obtain ⟨g', e, hI, -, -⟩ := game_update_inv hstable hlocal g ⟨h, fun _ _ => le_refl _⟩
    exact ⟨g', e, hI.2⟩
  · intro x st hx
    rw [update_cell_eq g hx, if_neg (fun hc => by have := hc.2; omega)]

theorem C14_bottom_row_no_outflow_witness :
    (∃ g', game_update empty_game = some g' ∧
      ∀ x, InGrid x (TILE_HEIGHT - 1) →
        (g'.state (cell_index x (TILE_HEIGHT - 1))).volume ≥
          (empty_game.state (cell_index x (TILE_HEIGHT - 1))).volume) ∧
    (∀ (x : Int) (st : Cells), InGrid x (TILE_HEIGHT - 1) →
      update_cell empty_game x (TILE_HEIGHT - 1) st = some st) :=
  C14_bottom_row_no_outflow empty_game (fun _ _ => by simp [empty_game])

/-- Over exact arithmetic: for a call of `fill` on two cells of the array with
the target's volume at most the capacity `c` and a rate `r ≥ 0`, the amount
`m = min (c - t) r` satisfies `0 ≤ m ≤ r`, the call succeeds and leaves the
target at most at `c`; for two distinct cells the target ends at `t + m` and
the source at `s - m`. -/
theorem fill_transfer_bounds_exact (state : Cells) (current target : Int) (c r : ℚ)
    (hc : InArray current) (ht : InArray target) (htc : (state target).volume ≤ c)
    (hr : 0 ≤ r) :
    0 ≤ min (c - (state target).volume) r ∧ min (c - (state target).volume) r ≤ r ∧
    ∃ st', fill state current target c r = some st' ∧ (st' target).volume ≤ c ∧
      (current ≠ target →
        (st' target).volume = (state target).volume + min (c - (state target).volume) r ∧
        (st' current).volume = (state current).volume - min (c - (state target).volume) r) := by
  have hm0 : 0 ≤ min (c - (state target).volume) r := le_min (by linarith) hr
  have hm1 : min (c - (state target).volume) r ≤ c - (state target).volume := min_le_left _ _
  refine ⟨hm0, min_le_right _ _, _, fill_eq hc ht c r, ?_, ?_⟩
  · rw [fill_amount_eq_min]
    by_cases hne : current = target
    · subst hne
      simp only [move, Function.update_same]
      linarith
    · rw [move_target _ hne]
      show (state target).volume + _ ≤ c
      linarith
  · intro hne
    rw [fill_amount_eq_min, move_target _ hne, move_current _ hne]
    exact ⟨rfl, rfl⟩

/-- C16 (empty grid is a fixed point): if every cell has volume `0`, then
`game_update` succeeds, every cell has volume `0` after it, and the game is
the one it was given. -/
theorem C16_empty_grid_fixed_point (g : Game) (h : ∀ i, InArray i → (g.state i).volume = 0) :
    ∃ g', game_update g = some g' ∧ (∀ i, InArray i → (g'.state i).volume = 0) ∧ g' = g := by
  refine ⟨g, game_update_of_noop g ?_, h, rfl⟩
  intro x y hg
  rw [update_cell_eq g hg, if_neg]
  intro hc
  rw [h _ (inArray_cell_index hg)] at hc
  exact lt_irrefl _ hc.1

theorem C16_empty_grid_fixed_point_witness :
    ∃ g', game_update empty_game = some g' ∧
      (∀ i, InArray i → (g'.state i).volume = 0) ∧ g' = empty_game :=
  C16_empty_grid_fixed_point empty_game (fun _ _ => by simp [empty_game])

theorem pool_game_volume (k : Int) {x y : Int} (hg : InGrid x y) :
    ((pool_game k).state (cell_index x y)).volume = if TILE_HEIGHT - k ≤ y then 1 else 0 := by
  rw [inGrid_iff] at hg
  unfold pool_game
  simp only [cell_index_eq]
  by_cases h : TILE_HEIGHT - k ≤ y
  · rw [if_pos h, if_pos (by omega)]
  · rw [if_neg h, if_neg (by omega)]

/-- C19 (settled pool is a fixed point): for every `k`, in particular for
`0 ≤ k ≤ TILE_HEIGHT`, a grid whose bottom `k` rows hold `1` in every cell and
whose other rows hold `0` in every cell is returned unchanged by `game_update`. -/
theorem C19_settled_pool_fixed_point (g : Game) (k : Int)
    (h : ∀ x y, InGrid x y →
      (g.state (cell_index x y)).volume = if TILE_HEIGHT - k ≤ y then 1 else 0) :
    game_update g = some g := by
  have hH := TILE_HEIGHT_eq
  apply game_update_of_noop
  intro x y hg
  have hg' := hg
  rw [inGrid_iff] at hg'
  have s0eq : ∀ x' y', InGrid x' y' → snapshot g (cell_index x' y') = g.state (cell_index x' y') :=
    fun x' y' h' => snapshot_inArray g (inArray_cell_index h')
  rw [update_cell_eq g hg]
  split
  · rename_i hc
    have hfull : TILE_HEIGHT - k ≤ y := by
      by_contra hn
      rw [h x y hg, if_neg hn] at hc
      exact lt_irrefl _ hc.1
    have hb := inGrid_below hg hc.2
    have vcur : (snapshot g (cell_index x y)).volume = 1 := by
      rw [s0eq _ _ hg, h x y hg, if_pos hfull]
    have vbelow : (snapshot g (cell_index x (y + 1))).volume = 1 := by
      rw [s0eq _ _ hb, h x (y + 1) hb, if_pos (by omega)]
    have hamt : fill_amount 1 (snapshot g (cell_index x (y + 1))).volume (1 / 2) = 0 := by
      rw [vbelow, fill_amount_eq_min]; norm_num
    rw [process_water_cell_eq hg hc.2, hamt, move_zero]
    simp only
    rw [if_neg (by rw [vcur]; norm_num), if_neg (by rw [vbelow]; norm_num)]
    apply try_horizontal_flow_level hg
    intro x' hx'
    rw [vcur, s0eq _ _ hx', h x' y hx', if_pos hfull]
    norm_num
  · rfl

theorem C19_settled_pool_fixed_point_witness :
    game_update (pool_game 3) = some (pool_game 3) :=
  C19_settled_pool_fixed_point (pool_game 3) 3 (fun _ _ hg => pool_game_volume 3 hg)

/-! ## The branch taken by `process_water_cell` -/

theorem can_flow_down_eq {x y : Int} (hg : InGrid x y) (hy : y + 1 < TILE_HEIGHT)
    (state : Cells) :
    can_flow_down x y state = some (decide ((state (cell_index x (y + 1))).volume < 1)) := by
  unfold can_flow_down
  rw [if_pos hy, load_eq (inArray_cell_index (inGrid_below hg hy))]
  rfl

theorem has_water_below_eq {x y : Int} (hg : InGrid x y) (hy : y + 1 < TILE_HEIGHT)
    (state : Cells) :
    has_water_below x y state =
      some (decide ((state (cell_index x (y + 1))).volume > 1 / 2)) := by
  unfold has_water_below
  rw [if_pos hy, load_eq (inArray_cell_index (inGrid_below hg hy))]
  rfl

/-- The volume of the cell below after the downward transfer: `1` when it held
at least `1/2`, and `1/2` more than before otherwise. -/
theorem below_after_fill (b : ℚ) :
    b + fill_amount 1 b (1 / 2) = if 1 / 2 ≤ b then 1 else b + 1 / 2 := by
  by_cases h : 1 / 2 ≤ b
  · rw [if_pos h, fill_amount_half_of_ge_half h]; ring
  · rw [if_neg h, fill_amount_half_of_le_half (le_of_lt (not_le.mp h))]

/-- Over exact arithmetic: for a cell `(x, y)` of the grid above the
bottom row, `process_water_cell x y` gets to the cascade loops of
`try_horizontal_flow` exactly when the cell below held at least `1/2` before
the downward transfer and the current cell is not exactly `0` after it; the
guard `has_water_below` is true whenever `try_horizontal_flow` is called from
`process_water_cell`; and the result of the call is that of the two cascade
loops in the first case and the array after the downward transfer otherwise. -/
theorem lateral_spread_trigger_exact (state : Cells) (x y : Int) (hg : InGrid x y)
    (hy : y + 1 < TILE_HEIGHT) :
    ∃ s1, fill state (cell_index x y) (cell_index x (y + 1)) 1 (1 / 2) = some s1 ∧
      reaches_cascade x y state =
        some (decide ((state (cell_index x (y + 1))).volume ≥ 1 / 2 ∧
          (s1 (cell_index x y)).volume ≠ 0)) ∧
      ((s1 (cell_index x y)).volume ≠ 0 → can_flow_down x y s1 = some false →
        has_water_below x y s1 = some true) ∧
      process_water_cell x y state =
        (if (state (cell_index x (y + 1))).volume ≥ 1 / 2 ∧ (s1 (cell_index x y)).volume ≠ 0
          then (cascade_right x y [1, 2, 3] s1).bind (cascade_left x y [1, 2, 3])
          else some s1) := by
  have hc := inArray_cell_index hg
  have hb := inArray_cell_index (inGrid_below hg hy)
  have hne : cell_index x y ≠ cell_index x (y + 1) := by
    rw [cell_index_eq, cell_index_eq]; omega
  obtain ⟨s1, hs1⟩ : ∃ s1, s1 = move state (cell_index x y) (cell_index x (y + 1))
      (fill_amount 1 (state (cell_index x (y + 1))).volume (1 / 2)) := ⟨_, rfl⟩
  have hbelow : (s1 (cell_index x (y + 1))).volume =
      if 1 / 2 ≤ (state (cell_index x (y + 1))).volume then 1
      else (state (cell_index x (y + 1))).volume + 1 / 2 := by
    rw [hs1, move_target _ hne]
    exact below_after_fill _
  have hfill : fill state (cell_index x y) (cell_index x (y + 1)) 1 (1 / 2) = some s1 := by
    rw [fill_eq hc hb, hs1]
  have n11 : ¬ (1 : ℚ) < 1 := by norm_num
  have p12 : (1 : ℚ) > 1 / 2 := by norm_num
  refine ⟨s1, hfill, ?_, ?_, ?_⟩
  · unfold reaches_cascade
    simp only [hfill, load_eq hc, Option.bind_eq_bind, Option.some_bind,
      Option.pure_def, can_flow_down_eq hg hy, has_water_below_eq hg hy]
    by_cases h0 : (s1 (cell_index x y)).volume = 0
    · rw [if_pos h0, decide_eq_false (fun h => h.2 h0)]
    · rw [if_neg h0]
      by_cases h1 : 1 / 2 ≤ (state (cell_index x (y + 1))).volume
      · rw [hbelow, if_pos h1, decide_eq_false n11, decide_eq_true p12,
          decide_eq_true (⟨h1, h0⟩ : (state (cell_index x (y + 1))).volume ≥ 1 / 2 ∧
            (s1 (cell_index x y)).volume ≠ 0)]
        rfl
      · have h2 : (state (cell_index x (y + 1))).volume + 1 / 2 < 1 := by
          have := not_le.mp h1
          linarith
        have h3 : ¬ ((state (cell_index x (y + 1))).volume ≥ 1 / 2 ∧
            (s1 (cell_index x y)).volume ≠ 0) := fun h => h1 h.1
        rw [hbelow, if_neg h1, decide_eq_true h2, if_pos rfl, decide_eq_false h3]
  · intro _ hdown
    rw [can_flow_down_eq hg hy] at hdown
    rw [has_water_below_eq hg hy]
    have h1 : ¬ (s1 (cell_index x (y + 1))).volume < 1 := by
      intro hlt
      rw [decide_eq_true hlt] at hdown
      exact absurd hdown (by decide)
    have h2 : (s1 (cell_index x (y + 1))).volume > 1 / 2 := by
      have := not_lt.mp h1
      linarith
    rw [decide_eq_true h2]
  · rw [process_water_cell_eq hg hy, ← hs1]
    simp only
    by_cases h0 : (s1 (cell_index x y)).volume = 0
    · rw [if_pos h0, if_neg (fun h => h.2 h0)]
    · rw [if_neg h0]
      by_cases h1 : 1 / 2 ≤ (state (cell_index x (y + 1))).volume
      · have hb1 : (s1 (cell_index x (y + 1))).volume = 1 := by rw [hbelow, if_pos h1]
        rw [if_pos (⟨h1, h0⟩ : (state (cell_index x (y + 1))).volume ≥ 1 / 2 ∧
            (s1 (cell_index x y)).volume ≠ 0), hb1, if_neg n11,
          try_horizontal_flow_eq hg hy, hb1, if_pos p12]
      · have h2 : (s1 (cell_index x (y + 1))).volume < 1 := by
          rw [hbelow, if_neg h1]
          have := not_le.mp h1
          linarith
        rw [if_pos h2, if_neg (fun h => h1 h.1)]

/-! ## The downward transfer -/

/-- The lateral spread out of `(x, y)` succeeds and changes no cell outside row `y`. -/
theorem try_horizontal_flow_row_frame {x y : Int} (hg : InGrid x y) (state : Cells) :
    ∃ st', try_horizontal_flow x y state = some st' ∧
      ∀ i, (∀ x', InGrid x' y → i ≠ cell_index x' y) → st' i = state i := by
  by_cases hy : y + 1 < TILE_HEIGHT
  · have hg' := hg
    rw [inGrid_iff] at hg'
    rw [try_horizontal_flow_eq hg hy]
    split
    · obtain ⟨s1, m1, e1, b1, -, -⟩ := cascade_right_rule
        (J := fun _ s => ∀ i, (∀ x', InGrid x' y → i ≠ cell_index x' y) → s i = state i) hg
        [1, 2, 3] offsets_123 0 state (fun _ _ => rfl)
        (by
          intro k s o hmem hlt hs i hi
          have ho := offsets_123 o hmem
          rw [TILE_WIDTH_eq] at hlt
          rw [cascade_result_other _ (hi x hg) (hi (x + o) (by rw [inGrid_iff]; omega))]
          exact hs i hi)
      obtain ⟨s2, m2, e2, b2, -, -⟩ := cascade_left_rule
        (J := fun _ s => ∀ i, (∀ x', InGrid x' y → i ≠ cell_index x' y) → s i = state i) hg
        [1, 2, 3] offsets_123 m1 s1 b1
        (by
          intro k s o hmem hge hs i hi
          have ho := offsets_123 o hmem
          rw [cascade_result_other _ (hi x hg) (hi (x - o) (by rw [inGrid_iff]; omega))]
          exact hs i hi)
      exact ⟨s2, by rw [e1]; exact e2, b2⟩
    · exact ⟨state, rfl, fun _ _ => rfl⟩
  · refine ⟨state, ?_, fun _ _ => rfl⟩
    unfold try_horizontal_flow
    simp [hy]

theorem stacked_game_upper (x y : Int) (a b : ℚ) :
    ((stacked_game x y a b).state (cell_index x y)).volume = a := by
  simp [stacked_game]

theorem stacked_game_lower (x y : Int) (a b : ℚ) :
    ((stacked_game x y a b).state (cell_index x (y + 1))).volume = b := by
  have h : cell_index x (y + 1) ≠ cell_index x y := by
    rw [cell_index_eq, cell_index_eq]; omega
  simp [stacked_game, h]

theorem stacked_game_zero {x y x' y' : Int} (a b : ℚ) (hx0 : 0 ≤ x) (hx1 : x < 80)
    (h' : InGrid x' y') (hne : x' ≠ x ∨ (y' ≠ y ∧ y' ≠ y + 1)) :
    ((stacked_game x y a b).state (cell_index x' y')).volume = 0 := by
  rw [inGrid_iff] at h'
  have n1 : cell_index x' y' ≠ cell_index x y := by
    rw [cell_index_eq, cell_index_eq]; omega
  have n2 : cell_index x' y' ≠ cell_index x (y + 1) := by
    rw [cell_index_eq, cell_index_eq]; omega
  simp [stacked_game, n1, n2]

/-- Invariant rule for the body of the simulation loop: the property only has
to survive the transfers out of `(x, y)` when `(x, y)` holds water before the
tick. -/
theorem update_cell_inv_wet {I : Cells → Prop} (g : Game) {x y : Int}
    (hI : (g.state (cell_index x y)).volume > 0 → StableUnderFlowFrom x y I)
    (hg : InGrid x y) (st : Cells) (h : I st) :
    ∃ st', update_cell g x y st = some st' ∧ I st' := by
  rw [update_cell_eq g hg]
  split
  · rename_i hc
    exact process_water_cell_inv (hI hc.1) hg hc.2 st h
  · exact ⟨st, rfl, h⟩

/-- Invariant rule for a whole step, with only the cells that hold water before
the tick as sources. -/
theorem game_update_inv_wet {I : Cells → Prop} (g : Game)
    (hI : ∀ x y, InGrid x y → (g.state (cell_index x y)).volume > 0 →
      StableUnderFlowFrom x y I)
    (hloc : ArrayLocal I) (h : I g.state) :
    ∃ g', game_update g = some g' ∧ I g'.state := by
  have h0 : I (snapshot g) := hloc g.state _ (fun i hi => (snapshot_inArray g hi).symm) h
  obtain ⟨ns, hns, hIns⟩ := simulate_rule g (fun _ s => I s) (snapshot g) h0
    (fun y s hy0 hy1 hs => update_row_rule g hy0 hy1 (fun _ s => I s) s hs
      (fun x s1 hg hs1 => update_cell_inv_wet g (hI x y hg) hg s1 hs1))
  refine ⟨committed g ns, by rw [game_update_eq, hns]; rfl, ?_⟩
  exact hloc ns _ (fun i hi => (commit_inArray g ns hi).symm) hIns

/-! ## Volume of the upper rows -/

theorem rows_volume_eq_sum (y : Int) (state : Cells) :
    rows_volume y state = ∑ r in Finset.range (y + 1).toNat, ∑ c in Finset.range 80,
      (state (cell_index (c : Int) (r : Int))).volume := by
  unfold rows_volume row_volume count_up
  rw [TILE_WIDTH_eq]
  simp only [List.map_map]
  rfl

theorem sum_grid_indicator (n : ℕ) (xt yt : Int) (hx0 : 0 ≤ xt) (hx1 : xt < 80)
    (hy0 : 0 ≤ yt) (a : ℚ) :
    (∑ r in Finset.range n, ∑ c in Finset.range 80,
      (if (r : Int) = yt ∧ (c : Int) = xt then a else 0)) = if yt < (n : Int) then a else 0 := by
  obtain ⟨tr, rfl⟩ := Int.eq_ofNat_of_zero_le hy0
  obtain ⟨tc, rfl⟩ := Int.eq_ofNat_of_zero_le hx0
  have htc : tc ∈ Finset.range 80 := by rw [Finset.mem_range]; omega
  have inner : ∀ r : ℕ, (∑ c in Finset.range 80,
      (if (r : Int) = (tr : Int) ∧ (c : Int) = (tc : Int) then a else 0)) =
      if r = tr then a else 0 := by
    intro r
    by_cases h : r = tr
    · subst h
      simp only [true_and, Nat.cast_inj, if_true]
      rw [Finset.sum_ite_eq' _ tc, if_pos htc]
    · have h' : ¬ (r : Int) = (tr : Int) := by exact_mod_cast h
      simp only [h', false_and, if_false, h]
      exact Finset.sum_const_zero
  rw [Finset.sum_congr rfl (fun r _ => inner r), Finset.sum_ite_eq' _ tr]
  by_cases h : tr < n
  · rw [if_pos (Finset.mem_range.mpr h), if_pos (by exact_mod_cast h)]
  · rw [if_neg (fun hm => h (Finset.mem_range.mp hm)), if_neg (by exact_mod_cast h)]

/-- Effect of a transfer between two cells of the grid on the volume of rows
`0, ..., y`. -/
theorem rows_volume_move {state : Cells} {xc yc xt yt : Int} (hc : InGrid xc yc)
    (ht : InGrid xt yt) (hne : xt ≠ xc ∨ yt ≠ yc) (y : Int) (a : ℚ) :
    rows_volume y (move state (cell_index xc yc) (cell_index xt yt) a) =
      rows_volume y state + (if yt < ((y + 1).toNat : Int) then a else 0) -
        (if yc < ((y + 1).toNat : Int) then a else 0) := by
  have hc' := hc
  have ht' := ht
  rw [inGrid_iff] at hc' ht'
  have hct : cell_index xc yc ≠ cell_index xt yt := (cell_index_ne hc ht hne).symm
  have hpt : ∀ r c : ℕ, c ∈ Finset.range 80 →
      (move state (cell_index xc yc) (cell_index xt yt) a
        (cell_index (c : Int) (r : Int))).volume =
      (state (cell_index (c : Int) (r : Int))).volume +
        ((if (r : Int) = yt ∧ (c : Int) = xt then a else 0) -
          (if (r : Int) = yc ∧ (c : Int) = xc then a else 0)) := by
    intro r c hcr
    rw [Finset.mem_range] at hcr
    by_cases h1 : (r : Int) = yt ∧ (c : Int) = xt
    · have h2 : ¬ ((r : Int) = yc ∧ (c : Int) = xc) := by omega
      rw [if_pos h1, if_neg h2, h1.1, h1.2, move_target _ hct]
      show (state (cell_index xt yt)).volume + a = _
      ring
    · by_cases h2 : (r : Int) = yc ∧ (c : Int) = xc
      · rw [if_neg h1, if_pos h2, h2.1, h2.2, move_current _ hct]
        show (state (cell_index xc yc)).volume - a = _
        ring
      · rw [if_neg h1, if_neg h2, move_other]
        · ring
        · rw [cell_index_eq, cell_index_eq]; omega
        · rw [cell_index_eq, cell_index_eq]; omega
  rw [rows_volume_eq_sum, rows_volume_eq_sum,
    Finset.sum_congr rfl (fun r _ => Finset.sum_congr rfl (fun c hcr => hpt r c hcr))]
  simp only [Finset.sum_add_distrib, Finset.sum_sub_distrib]
  rw [sum_grid_indicator _ xt yt ht'.1 ht'.2.1 ht'.2.2.1,
    sum_grid_indicator _ xc yc hc'.1 hc'.2.1 hc'.2.2.1]
  ring

theorem rows_volume_congr {s s' : Cells} {y : Int} (hy : y < TILE_HEIGHT)
    (h : ∀ i, InArray i → s i = s' i) : rows_volume y s = rows_volume y s' := by
  rw [TILE_HEIGHT_eq] at hy
  rw [rows_volume_eq_sum, rows_volume_eq_sum]
  apply Finset.sum_congr rfl
  intro r hr
  apply Finset.sum_congr rfl
  intro c hcr
  rw [Finset.mem_range] at hr hcr
  rw [h _ (inArray_cell_index (by rw [inGrid_iff]; omega))]

/-! ## Upper rows in exact arithmetic -/

/-- Over exact arithmetic: if every cell volume is at most `1`, then
for every row `y` the volume held in rows `0, ..., y` after one `game_update`
is at most the volume held there before; and if rows `0, ..., y` are all empty
before the step, they are all empty after it. -/
theorem upper_rows_volume_exact (g : Game) (h : ∀ i, InArray i → (g.state i).volume ≤ 1)
    (y : Int) (hy0 : 0 ≤ y) (hy1 : y < TILE_HEIGHT) :
    ∃ g', game_update g = some g' ∧
      rows_volume y g'.state ≤ rows_volume y g.state ∧
      ((∀ x' y', InGrid x' y' → y' ≤ y → (g.state (cell_index x' y')).volume = 0) →
        ∀ x' y', InGrid x' y' → y' ≤ y → (g'.state (cell_index x' y')).volume = 0) := by
  have hn : ((y + 1).toNat : Int) = y + 1 := Int.toNat_of_nonneg (by omega)
  have hstable : ∀ x0 y0, InGrid x0 y0 → (g.state (cell_index x0 y0)).volume > 0 →
      StableUnderFlowFrom x0 y0 (fun s => AtMostFull s ∧
        rows_volume y s ≤ rows_volume y g.state ∧
        ((∀ x' y', InGrid x' y' → y' ≤ y → (g.state (cell_index x' y')).volume = 0) →
          ∀ x' y', InGrid x' y' → y' ≤ y → s (cell_index x' y') = g.state (cell_index x' y'))) := by
    intro x0 y0 hg0 hwet st x' y' r hI hs hr
    obtain ⟨hc, ht, hne⟩ := flowStep_inArray hs
    have ha := fill_amount_nonneg (hI.1 _ ht) hr
    obtain ⟨-, hbelow, hg2, hcase⟩ := hs
    have hgeo : x' ≠ x0 ∨ y' ≠ y0 := by
      rcases hcase with ⟨_, h2⟩ | ⟨_, h2, _⟩
      · exact Or.inr (by omega)
      · exact Or.inl h2
    refine ⟨atMostFull_stable x0 y0 st x' y' r hI.1 ⟨hg0, hbelow, hg2, hcase⟩ hr, ?_, ?_⟩
    · rw [rows_volume_move hg0 hg2 hgeo, hn]
      have hle := hI.2.1
      by_cases h1 : y' < y + 1
      · by_cases h2 : y0 < y + 1
        · rw [if_pos h1, if_pos h2]; linarith
        · exfalso
          rcases hcase with ⟨_, h3⟩ | ⟨h3, _⟩ <;> omega
      · by_cases h2 : y0 < y + 1
        · rw [if_neg h1, if_pos h2]; linarith
        · rw [if_neg h1, if_neg h2]; linarith
    · intro hz a b hab hb
      have hy0' : y < y0 := by
        by_contra hcon
        rw [hz x0 y0 hg0 (by omega)] at hwet
        exact lt_irrefl _ hwet
      rw [move_other _ (cell_index_ne hg0 hab (Or.inr (by omega)))
        (cell_index_ne hg2 hab (Or.inr (by
          rcases hcase with ⟨_, h3⟩ | ⟨h3, _⟩ <;> omega)))]
      exact hI.2.2 hz a b hab hb
  have hlocal : ArrayLocal (fun s => AtMostFull s ∧
      rows_volume y s ≤ rows_volume y g.state ∧
      ((∀ x' y', InGrid x' y' → y' ≤ y → (g.state (cell_index x' y')).volume = 0) →
        ∀ x' y', InGrid x' y' → y' ≤ y → s (cell_index x' y') = g.state (cell_index x' y'))) := by
    intro s s' hss hI
    refine ⟨atMostFull_local s s' hss hI.1, ?_, ?_⟩
    · rw [← rows_volume_congr hy1 hss]
      exact hI.2.1
    · intro hz a b hab hb
      rw [← hss _ (inArray_cell_index hab)]
      exact hI.2.2 hz a b hab hb
  obtain ⟨g', e, hI⟩ := game_update_inv_wet g hstable hlocal
    ⟨h, le_refl _, fun _ _ _ _ _ => rfl⟩
  refine ⟨g', e, hI.2.1, ?_⟩
  intro hz a b hab hb
  rw [hI.2.2 hz a b hab hb]
  exact hz a b hab hb

/-! ## The cells visited by the cascade loops -/

/-- The right cascade loop is the loop body applied, in order, to the offsets
that come before the first one failing `x+offset < TILE_WIDTH`. -/
theorem cascade_right_eq_foldlM (x y : Int) (offsets : List Int) (state : Cells) :
    cascade_right x y offsets state =
      (offsets.takeWhile (fun o => decide (x + o < TILE_WIDTH))).foldlM
        (fun s o => cascade_cell (cell_index x y) (cell_index (x + o) y) o s) state := by
  induction offsets generalizing state with
  | nil => rfl
  | cons o rest ih =>
    unfold cascade_right
    by_cases h : x + o < TILE_WIDTH
    · rw [if_pos h, List.takeWhile_cons_of_pos (by simpa using h), List.foldlM_cons]
      simp only [Option.bind_eq_bind]
      congr 1
      funext s
      exact ih s
    · rw [if_neg h, List.takeWhile_cons_of_neg (by simpa using h)]
      rfl

/-- The left cascade loop is the loop body applied, in order, to the offsets
that come before the first one failing `x-offset >= 0`. -/
theorem cascade_left_eq_foldlM (x y : Int) (offsets : List Int) (state : Cells) :
    cascade_left x y offsets state =
      (offsets.takeWhile (fun o => decide (x - o ≥ 0))).foldlM
        (fun s o => cascade_cell (cell_index x y) (cell_index (x - o) y) o s) state := by
  induction offsets generalizing state with
  | nil => rfl
  | cons o rest ih =>
    unfold cascade_left
    by_cases h : x - o ≥ 0
    · rw [if_pos h, List.takeWhile_cons_of_pos (by simpa using h), List.foldlM_cons]
      simp only [Option.bind_eq_bind]
      congr 1
      funext s
      exact ih s
    · rw [if_neg h, List.takeWhile_cons_of_neg (by simpa using h)]
      rfl

theorem mem_takeWhile_123 {p : Int → Bool} {o : Int}
    (h : o ∈ ([1, 2, 3] : List Int).takeWhile p) : p o = true ∧ 1 ≤ o ∧ o ≤ 3 :=
  ⟨List.mem_takeWhile_imp h, offsets_123 o ((List.takeWhile_sublist p).subset h)⟩

/-! ## The size field -/

theorem uniformSize_stable : StableUnderFlow UniformSize := by
  intro x y st x' y' r h _ _ i hi
  rw [move_size]
  exact h i hi

theorem uniformSize_local : ArrayLocal UniformSize := by
  intro s s' h hs i hi
  rw [← h i hi]
  exact hs i hi

theorem uniformSize_empty : UniformSize empty_game.state := fun _ _ => rfl

/-- Every grid that `main` can pass to `create_water_generator` or to
`game_update` has all sizes equal to `TILE_SIZE`. -/
theorem run_actions_uniformSize (actions : List Action) (hv : ∀ a ∈ actions, a.Valid)
    (g : Game) (h : UniformSize g.state) :
    ∃ g', run_actions actions g = some g' ∧ UniformSize g'.state := by
  induction actions generalizing g with
  | nil => exact ⟨g, rfl, h⟩
  | cons a rest ih =>
    have step : ∃ g1, run_action g a = some g1 ∧ UniformSize g1.state := by
      cases a with
      | step =>
        obtain ⟨g', h1, h2, -, -⟩ := game_update_inv uniformSize_stable uniformSize_local g h
        exact ⟨g', h1, h2⟩
      | inject x y =>
        have hx : InGrid x y := hv _ (List.mem_cons_self _ _)
        refine ⟨{ g with state := Function.update g.state (cell_index x y) ⟨1, TILE_SIZE⟩ },
          by simp only [run_action, create_water_generator,
            store_eq (inArray_cell_index hx), Option.map_some'], ?_⟩
        intro i hi
        show (Function.update g.state (cell_index x y) _ i).size = TILE_SIZE
        by_cases h1 : i = cell_index x y
        · rw [h1, Function.update_same]
        · rw [Function.update_noteq h1]
          exact h i hi
    obtain ⟨g1, h1, hb1⟩ := step
    obtain ⟨g2, h2, hb2⟩ := ih (fun b hb => hv b (List.mem_cons_of_mem _ hb)) g1 hb1
    refine ⟨g2, ?_, hb2⟩
    unfold run_actions at h2 ⊢
    rw [List.foldlM_cons, h1]
    exact h2

/-! ## Claim C12 -/

/-- C12 (source injection): for every grid of the data model (every size is
`TILE_SIZE`) and every cell `(x, y)` of it, `create_water_generator x y`
succeeds, sets the volume of `(x, y)` to `1`, leaves the size of that cell equal
to its previous value, and leaves every other cell unchanged; the result is
again a grid of the data model. -/
theorem C12_source_injection (state : Cells) (x y : Int) (hs : UniformSize state)
    (hg : InGrid x y) :
    ∃ st', create_water_generator x y state = some st' ∧
      (st' (cell_index x y)).volume = 1 ∧
      (st' (cell_index x y)).size = (state (cell_index x y)).size ∧
      (∀ i, i ≠ cell_index x y → st' i = state i) ∧
      UniformSize st' := by
  refine ⟨Function.update state (cell_index x y) ⟨1, TILE_SIZE⟩, ?_, ?_, ?_, ?_, ?_⟩
  · unfold create_water_generator
    rw [store_eq (inArray_cell_index hg)]
  · rw [Function.update_same]
  · rw [Function.update_same, hs _ (inArray_cell_index hg)]
  · intro i hi
    exact Function.update_noteq hi _ _
  · intro i hi
    by_cases h1 : i = cell_index x y
    · rw [h1, Function.update_same]
    · rw [Function.update_noteq h1]
      exact hs i hi

theorem C12_source_injection_witness :
    ∃ st', create_water_generator 10 10 empty_game.state = some st' ∧
      (st' (cell_index 10 10)).volume = 1 ∧
      (st' (cell_index 10 10)).size = (empty_game.state (cell_index 10 10)).size ∧
      (∀ i, i ≠ cell_index 10 10 → st' i = empty_game.state i) ∧
      UniformSize st' :=
  C12_source_injection empty_game.state 10 10 uniformSize_empty
    ((inGrid_iff 10 10).mpr (by decide))



/-! ## The rounded operations in exact arithmetic -/

theorem fill_fp_exact : fill_fp exact_arith = fill := rfl

theorem cascade_cell_fp_exact : cascade_cell_fp exact_arith = cascade_cell := rfl

theorem cascade_right_fp_exact (x y : Int) (offsets : List Int) (state : Cells) :
    cascade_right_fp exact_arith x y offsets state = cascade_right x y offsets state := by
  induction offsets generalizing state with
  | nil => rfl
  | cons o rest ih =>
    unfold cascade_right_fp cascade_right
    rw [cascade_cell_fp_exact]
    split
    · simp only [Option.bind_eq_bind]
      congr 1
      funext s
      exact ih s
    · rfl

theorem cascade_left_fp_exact (x y : Int) (offsets : List Int) (state : Cells) :
    cascade_left_fp exact_arith x y offsets state = cascade_left x y offsets state := by
  induction offsets generalizing state with
  | nil => rfl
  | cons o rest ih =>
    unfold cascade_left_fp cascade_left
    rw [cascade_cell_fp_exact]
    split
    · simp only [Option.bind_eq_bind]
      congr 1
      funext s
      exact ih s
    · rfl

theorem try_horizontal_flow_fp_exact : try_horizontal_flow_fp exact_arith = try_horizontal_flow := by
  funext x y state
  unfold try_horizontal_flow_fp try_horizontal_flow
  simp only [cascade_right_fp_exact, cascade_left_fp_exact]

theorem process_water_cell_fp_exact : process_water_cell_fp exact_arith = process_water_cell := by
  funext x y state
  unfold process_water_cell_fp process_water_cell
  rw [fill_fp_exact, try_horizontal_flow_fp_exact]

theorem reaches_cascade_fp_exact : reaches_cascade_fp exact_arith = reaches_cascade := by
  funext x y state
  unfold reaches_cascade_fp reaches_cascade
  rw [fill_fp_exact]

theorem game_update_fp_exact : game_update_fp exact_arith = game_update := by
  funext g
  unfold game_update_fp game_update simulate_fp simulate update_row_fp update_row
    update_cell_fp update_cell
  rw [process_water_cell_fp_exact]

/-! ## Evaluating a rounding -/

theorem int_log_two_eq {x : ℚ} (e : Int) (h1 : (2 : ℚ) ^ e ≤ x) (h2 : x < (2 : ℚ) ^ (e + 1)) :
    Int.log 2 x = e := by
  have hx : 0 < x := lt_of_lt_of_le (by positivity) h1
  have a : e ≤ Int.log 2 x := (Int.zpow_le_iff_le_log (by norm_num) hx).mp (by exact_mod_cast h1)
  have b : Int.log 2 x < e + 1 := (Int.lt_zpow_iff_log_lt (by norm_num) hx).mp (by exact_mod_cast h2)
  omega

/-- Rounding, evaluated: `x` lies in the binade of exponent `e0`, the spacing is
`2^(e-(p-1))` with `e = max e0 emin`, `x` lies between the multiples `f` and
`f + 1` of the spacing, and `n` is the one of the two that rounding picks. -/
theorem fp_round_eq (p : Nat) (emin : Int) (x : ℚ) (e0 e f n : Int)
    (h1 : (2 : ℚ) ^ e0 ≤ |x|) (h2 : |x| < (2 : ℚ) ^ (e0 + 1)) (he : max e0 emin = e)
    (hf1 : (f : ℚ) ≤ x / (2 : ℚ) ^ (e - ((p : Int) - 1)))
    (hf2 : x / (2 : ℚ) ^ (e - ((p : Int) - 1)) < (f : ℚ) + 1)
    (hn : (if x / (2 : ℚ) ^ (e - ((p : Int) - 1)) - f < 1 / 2 then f
      else if x / (2 : ℚ) ^ (e - ((p : Int) - 1)) - f > 1 / 2 then f + 1
      else if f % 2 = 0 then f else f + 1) = n) :
    fp_round p emin x = (n : ℚ) * (2 : ℚ) ^ (e - ((p : Int) - 1)) := by
  have hfl : ⌊x / (2 : ℚ) ^ (e - ((p : Int) - 1))⌋ = f := by
    rw [Int.floor_eq_iff]; exact ⟨hf1, hf2⟩
  unfold fp_round round_half_even
  rw [int_log_two_eq e0 h1 h2, he, hfl, hn]

theorem fp_round_zero (p : Nat) (emin : Int) : fp_round p emin 0 = 0 := by
  unfold fp_round round_half_even
  simp

/-! ## Closed forms of the rounded operations -/

theorem fill_fp_eq (A : Arith) {state : Cells} {current target : Int} (hc : InArray current)
    (ht : InArray target) (max_volume flow_rate : ℚ) :
    fill_fp A state current target max_volume flow_rate =
      some (move_fp A state current target
        (fill_amount_fp A max_volume (state target).volume flow_rate)) := by
  unfold fill_fp
  simp only [load_eq ht, load_eq hc, store_eq hc, store_eq ht, Option.bind_eq_bind,
    Option.some_bind]
  rfl

theorem move_fp_target (A : Arith) {state : Cells} {current target : Int} (a : ℚ)
    (h : current ≠ target) :
    move_fp A state current target a target =
      { volume := A.to_float ((state target).volume + a), size := (state target).size } := by
  simp [move_fp, Function.update_noteq (Ne.symm h)]

theorem move_fp_current (A : Arith) {state : Cells} {current target : Int} (a : ℚ)
    (h : current ≠ target) :
    move_fp A state current target a current =
      { volume := A.to_float ((state current).volume - a), size := (state current).size } := by
  simp [move_fp, Function.update_noteq h]

theorem move_fp_other (A : Arith) {state : Cells} {current target i : Int} (a : ℚ)
    (hc : i ≠ current) (ht : i ≠ target) : move_fp A state current target a i = state i := by
  simp [move_fp, Function.update_noteq hc, Function.update_noteq ht]

/-- A rounded transfer that leaves both volumes as they were leaves the array
as it was. -/
theorem move_fp_eq_self (A : Arith) {state : Cells} {current target : Int} {a : ℚ}
    (h : current ≠ target)
    (hc : A.to_float ((state current).volume - a) = (state current).volume)
    (ht : A.to_float ((state target).volume + a) = (state target).volume) :
    move_fp A state current target a = state := by
  funext i
  by_cases h1 : i = target
  · subst h1
    rw [move_fp_target A a h, ht]
  · by_cases h2 : i = current
    · subst h2
      rw [move_fp_current A a h, hc]
    · exact move_fp_other A a h2 h1

theorem cascade_cell_fp_eq (A : Arith) {state : Cells} {current target : Int} (offset : Int)
    (hc : InArray current) (ht : InArray target) :
    cascade_cell_fp A current target offset state =
      if (state target).volume < (state current).volume then
        some (move_fp A state current target (fill_amount_fp A 1 (state target).volume
          (flow_rate_fp A (state current).volume (state target).volume offset)))
      else some state := by
  unfold cascade_cell_fp
  simp only [load_eq ht, load_eq hc, Option.bind_eq_bind, Option.some_bind]
  split
  · rw [fill_fp_eq A hc ht]
  · rfl

/-! ## Values of binary32 and binary64 roundings -/

theorem to_float_zero : ieee_arith.to_float 0 = 0 := fp_round_zero 24 (-126)

theorem to_float_one : ieee_arith.to_float 1 = 1 := by
  show fp_round 24 (-126) 1 = 1
  rw [fp_round_eq 24 (-126) 1 0 0 8388608 8388608 (by norm_num) (by norm_num) (by decide)
    (by norm_num) (by norm_num) (by norm_num)]
  norm_num

theorem to_float_half : ieee_arith.to_float (1 / 2) = 1 / 2 := by
  show fp_round 24 (-126) (1 / 2) = 1 / 2
  rw [fp_round_eq 24 (-126) _ (-1) (-1) 8388608 8388608 (by norm_num [abs_of_pos])
    (by norm_num [abs_of_pos]) (by decide) (by norm_num) (by norm_num) (by norm_num)]
  norm_num

/-- The `double` constant `0.1`. -/
theorem to_double_tenth :
    ieee_arith.to_double (1 / 10) = 7205759403792794 / 2 ^ 56 := by
  show fp_round 53 (-1022) (1 / 10) = _
  rw [fp_round_eq 53 (-1022) _ (-4) (-4) 7205759403792793 7205759403792794
    (by norm_num [abs_of_pos]) (by norm_num [abs_of_pos]) (by decide) (by norm_num)
    (by norm_num) (by norm_num)]
  norm_num

/-! ### The least positive `float` -/

theorem to_float_least : ieee_arith.to_float (1 / 2 ^ 149) = 1 / 2 ^ 149 := by
  show fp_round 24 (-126) (1 / 2 ^ 149) = _
  rw [fp_round_eq 24 (-126) _ (-149) (-126) 1 1 (by norm_num [abs_of_pos])
    (by norm_num [abs_of_pos]) (by decide) (by norm_num) (by norm_num) (by norm_num)]
  norm_num

theorem flow_rate_least_1 : flow_rate_fp ieee_arith (1 / 2 ^ 149) 0 1 = 0 := by
  unfold flow_rate_fp
  rw [sub_zero, to_float_least, to_double_tenth]
  have d1 : ieee_arith.to_double (1 / 2 ^ 149 * (7205759403792794 / 2 ^ 56)) =
      7205759403792794 / 2 ^ 205 := by
    show fp_round 53 (-1022) _ = _
    rw [fp_round_eq 53 (-1022) _ (-153) (-153) 7205759403792794 7205759403792794
      (by norm_num [abs_of_pos]) (by norm_num [abs_of_pos]) (by decide) (by norm_num)
      (by norm_num) (by norm_num)]
    norm_num
  have d2 : ieee_arith.to_double (7205759403792794 / 2 ^ 205 / ((1 : Int) : ℚ)) =
      7205759403792794 / 2 ^ 205 := by
    show fp_round 53 (-1022) _ = _
    rw [fp_round_eq 53 (-1022) _ (-153) (-153) 7205759403792794 7205759403792794
      (by norm_num [abs_of_pos]) (by norm_num [abs_of_pos]) (by decide) (by norm_num)
      (by norm_num) (by norm_num)]
    norm_num
  rw [d1, d2]
  show fp_round 24 (-126) _ = _
  rw [fp_round_eq 24 (-126) _ (-153) (-126) 0 0 (by norm_num [abs_of_pos])
    (by norm_num [abs_of_pos]) (by decide) (by norm_num) (by norm_num) (by norm_num)]
  norm_num

theorem flow_rate_least_2 : flow_rate_fp ieee_arith (1 / 2 ^ 149) 0 2 = 0 := by
  unfold flow_rate_fp
  rw [sub_zero, to_float_least, to_double_tenth]
  have d1 : ieee_arith.to_double (1 / 2 ^ 149 * (7205759403792794 / 2 ^ 56)) =
      7205759403792794 / 2 ^ 205 := by
    show fp_round 53 (-1022) _ = _
    rw [fp_round_eq 53 (-1022) _ (-153) (-153) 7205759403792794 7205759403792794
      (by norm_num [abs_of_pos]) (by norm_num [abs_of_pos]) (by decide) (by norm_num)
      (by norm_num) (by norm_num)]
    norm_num
  have d2 : ieee_arith.to_double (7205759403792794 / 2 ^ 205 / ((2 : Int) : ℚ)) =
      7205759403792794 / 2 ^ 206 := by
    show fp_round 53 (-1022) _ = _
    rw [fp_round_eq 53 (-1022) _ (-154) (-154) 7205759403792794 7205759403792794
      (by norm_num [abs_of_pos]) (by norm_num [abs_of_pos]) (by decide) (by norm_num)
      (by norm_num) (by norm_num)]
    norm_num
  rw [d1, d2]
  show fp_round 24 (-126) _ = _
  rw [fp_round_eq 24 (-126) _ (-154) (-126) 0 0 (by norm_num [abs_of_pos])
    (by norm_num [abs_of_pos]) (by decide) (by norm_num) (by norm_num) (by norm_num)]
  norm_num

theorem flow_rate_least_3 : flow_rate_fp ieee_arith (1 / 2 ^ 149) 0 3 = 0 := by
  unfold flow_rate_fp
  rw [sub_zero, to_float_least, to_double_tenth]
  have d1 : ieee_arith.to_double (1 / 2 ^ 149 * (7205759403792794 / 2 ^ 56)) =
      7205759403792794 / 2 ^ 205 := by
    show fp_round 53 (-1022) _ = _
    rw [fp_round_eq 53 (-1022) _ (-153) (-153) 7205759403792794 7205759403792794
      (by norm_num [abs_of_pos]) (by norm_num [abs_of_pos]) (by decide) (by norm_num)
      (by norm_num) (by norm_num)]
    norm_num
  have d2 : ieee_arith.to_double (7205759403792794 / 2 ^ 205 / ((3 : Int) : ℚ)) =
      4803839602528529 / 2 ^ 206 := by
    show fp_round 53 (-1022) _ = _
    rw [fp_round_eq 53 (-1022) _ (-154) (-154) 4803839602528529 4803839602528529
      (by norm_num [abs_of_pos]) (by norm_num [abs_of_pos]) (by decide) (by norm_num)
      (by norm_num) (by norm_num)]
    norm_num
  rw [d1, d2]
  show fp_round 24 (-126) _ = _
  rw [fp_round_eq 24 (-126) _ (-154) (-126) 0 0 (by norm_num [abs_of_pos])
    (by norm_num [abs_of_pos]) (by decide) (by norm_num) (by norm_num) (by norm_num)]
  norm_num

/-- In binary32 a pass of a cascade body out of a cell holding the least
positive `float` into an empty cell changes nothing: the flow rate rounds to `0`. -/
theorem cascade_cell_fp_least {state : Cells} {current target : Int} {offset : Int}
    (hc : InArray current) (ht : InArray target) (hne : current ≠ target)
    (ho : offset ∈ ([1, 2, 3] : List Int))
    (hv : (state current).volume = 1 / 2 ^ 149) (hz : (state target).volume = 0) :
    cascade_cell_fp ieee_arith current target offset state = some state := by
  have hrate : flow_rate_fp ieee_arith (1 / 2 ^ 149) 0 offset = 0 := by
    simp only [List.mem_cons, List.mem_singleton, List.not_mem_nil, or_false] at ho
    rcases ho with rfl | rfl | rfl
    · exact flow_rate_least_1
    · exact flow_rate_least_2
    · exact flow_rate_least_3
  have hamt : fill_amount_fp ieee_arith 1 0 0 = 0 := by
    unfold fill_amount_fp
    rw [sub_zero, to_float_one, if_pos (by norm_num)]
  rw [cascade_cell_fp_eq ieee_arith offset hc ht, hz, hv, if_pos (by positivity), hrate, hamt,
    move_fp_eq_self ieee_arith hne (by rw [hv, sub_zero, to_float_least])
      (by rw [hz, add_zero, to_float_zero])]

theorem cascade_right_fp_noop (A : Arith) (x y : Int) (state : Cells) (l : List Int)
    (h : ∀ o ∈ l, x + o < TILE_WIDTH →
      cascade_cell_fp A (cell_index x y) (cell_index (x + o) y) o state = some state) :
    cascade_right_fp A x y l state = some state := by
  induction l with
  | nil => rfl
  | cons o rest ih =>
    unfold cascade_right_fp
    split
    · rename_i hlt
      rw [h o (List.mem_cons_self _ _) hlt]
      exact ih (fun o' ho' => h o' (List.mem_cons_of_mem _ ho'))
    · rfl

theorem cascade_left_fp_noop (A : Arith) (x y : Int) (state : Cells) (l : List Int)
    (h : ∀ o ∈ l, x - o ≥ 0 →
      cascade_cell_fp A (cell_index x y) (cell_index (x - o) y) o state = some state) :
    cascade_left_fp A x y l state = some state := by
  induction l with
  | nil => rfl
  | cons o rest ih =>
    unfold cascade_left_fp
    split
    · rename_i hlt
      rw [h o (List.mem_cons_self _ _) hlt]
      exact ih (fun o' ho' => h o' (List.mem_cons_of_mem _ ho'))
    · rfl

theorem try_horizontal_flow_fp_noop (A : Arith) {x y : Int} (state : Cells) (hg : InGrid x y)
    (hr : ∀ o ∈ ([1, 2, 3] : List Int), x + o < TILE_WIDTH →
      cascade_cell_fp A (cell_index x y) (cell_index (x + o) y) o state = some state)
    (hl : ∀ o ∈ ([1, 2, 3] : List Int), x - o ≥ 0 →
      cascade_cell_fp A (cell_index x y) (cell_index (x - o) y) o state = some state) :
    try_horizontal_flow_fp A x y state = some state := by
  unfold try_horizontal_flow_fp
  by_cases hy : y + 1 < TILE_HEIGHT
  · rw [if_pos hy, load_eq (inArray_cell_index (inGrid_below hg hy))]
    simp only [Option.bind_eq_bind, Option.some_bind, Option.pure_def]
    split
    · rfl
    · rw [cascade_right_fp_noop A x y state _ hr]
      exact cascade_left_fp_noop A x y state _ hl
  · rw [if_neg hy]
    rfl

/-! ## Claim C9 in binary32 -/

/-- C9 fails in the arithmetic of the code: in binary32, with cell `(5, 3)`
holding the least positive `float` `2^-149` (a volume in `(0, 1]`), the cell
below holding `1` and all six cells at offsets 1..3 to the right and to the
left empty, every flow rate of `try_horizontal_flow` rounds to `0`, the array
is returned as it was, and no right cell holds more than the left cell at the
same offset. -/
theorem C9_counterexample :
    InGrid 5 3 ∧ (5 : Int) + 3 < TILE_WIDTH ∧ (5 : Int) - 3 ≥ 0 ∧ (3 : Int) + 1 < TILE_HEIGHT ∧
    ((stacked_game 5 3 (1 / 2 ^ 149) 1).state (cell_index 5 3)).volume = 1 / 2 ^ 149 ∧
    ieee_arith.to_float (1 / 2 ^ 149) = 1 / 2 ^ 149 ∧
    (0 : ℚ) < 1 / 2 ^ 149 ∧ (1 : ℚ) / 2 ^ 149 ≤ 1 ∧
    ((stacked_game 5 3 (1 / 2 ^ 149) 1).state (cell_index 5 (3 + 1))).volume > 1 / 2 ∧
    (∀ k : Int, 1 ≤ k → k ≤ 3 →
      ((stacked_game 5 3 (1 / 2 ^ 149) 1).state (cell_index (5 + k) 3)).volume = 0 ∧
      ((stacked_game 5 3 (1 / 2 ^ 149) 1).state (cell_index (5 - k) 3)).volume = 0) ∧
    ∃ st', try_horizontal_flow_fp ieee_arith 5 3 (stacked_game 5 3 (1 / 2 ^ 149) 1).state =
        some st' ∧
      ∀ k : Int, 1 ≤ k → k ≤ 3 →
        ¬ (st' (cell_index (5 + k) 3)).volume > (st' (cell_index (5 - k) 3)).volume := by
  have hg : InGrid 5 3 := (inGrid_iff 5 3).mpr (by decide)
  have hup := stacked_game_upper 5 3 (1 / 2 ^ 149) 1
  have hlo := stacked_game_lower 5 3 (1 / 2 ^ 149) 1
  have hzero : ∀ k : Int, 1 ≤ k → k ≤ 3 →
      ((stacked_game 5 3 (1 / 2 ^ 149) 1).state (cell_index (5 + k) 3)).volume = 0 ∧
      ((stacked_game 5 3 (1 / 2 ^ 149) 1).state (cell_index (5 - k) 3)).volume = 0 := by
    intro k k1 k3
    exact ⟨stacked_game_zero _ _ (by decide) (by decide) ((inGrid_iff _ _).mpr (by omega))
        (Or.inl (by omega)),
      stacked_game_zero _ _ (by decide) (by decide) ((inGrid_iff _ _).mpr (by omega))
        (Or.inl (by omega))⟩
  refine ⟨hg, by decide, by decide, by decide, hup, to_float_least, by positivity, ?_, ?_,
    hzero, (stacked_game 5 3 (1 / 2 ^ 149) 1).state, ?_, ?_⟩
  · rw [div_le_one (by positivity)]
    exact one_le_pow₀ (by norm_num)
  · rw [hlo]; norm_num
  · refine try_horizontal_flow_fp_noop ieee_arith _ hg ?_ ?_
    · intro o ho hlt
      have hgc : InGrid (5 + o) 3 := (inGrid_iff _ _).mpr
        ⟨by simp at ho; omega, by rw [TILE_WIDTH_eq] at hlt; omega, by decide, by decide⟩
      have hne : (5 : Int) + o ≠ 5 := by simp at ho; omega
      exact cascade_cell_fp_least (inArray_cell_index hg) (inArray_cell_index hgc)
        (cell_index_ne hg hgc (Or.inl hne)).symm ho hup
        (stacked_game_zero _ _ (by decide) (by decide) hgc (Or.inl hne))
    · intro o ho hlt
      have hgc : InGrid (5 - o) 3 := (inGrid_iff _ _).mpr
        ⟨by omega, by simp at ho; omega, by decide, by decide⟩
      have hne : (5 : Int) - o ≠ 5 := by simp at ho; omega
      exact cascade_cell_fp_least (inArray_cell_index hg) (inArray_cell_index hgc)
        (cell_index_ne hg hgc (Or.inl hne)).symm ho hup
        (stacked_game_zero _ _ (by decide) (by decide) hgc (Or.inl hne))
  · intro k k1 k3
    rw [(hzero k k1 k3).1, (hzero k k1 k3).2]
    exact lt_irrefl _

/-! ## Closed forms of the rounded control flow -/

theorem try_horizontal_flow_fp_eq (A : Arith) {x y : Int} (hg : InGrid x y)
    (hy : y + 1 < TILE_HEIGHT) (state : Cells) :
    try_horizontal_flow_fp A x y state =
      if (state (cell_index x (y + 1))).volume > 1 / 2 then
        (cascade_right_fp A x y [1, 2, 3] state).bind (cascade_left_fp A x y [1, 2, 3])
      else some state := by
  unfold try_horizontal_flow_fp
  simp only [if_pos hy, load_eq (inArray_cell_index (inGrid_below hg hy)), Option.bind_eq_bind,
    Option.some_bind, Option.pure_def]
  by_cases h : (state (cell_index x (y + 1))).volume > 1 / 2
  · rw [if_pos h]
    simp only [decide_eq_true h, Bool.not_true, Bool.false_eq_true, if_false]
  · rw [if_neg h]
    simp only [decide_eq_false h, Bool.not_false, if_true]

theorem process_water_cell_fp_eq (A : Arith) {x y : Int} (hg : InGrid x y)
    (hy : y + 1 < TILE_HEIGHT) (state : Cells) :
    process_water_cell_fp A x y state =
      (let s1 := move_fp A state (cell_index x y) (cell_index x (y + 1))
          (fill_amount_fp A 1 (state (cell_index x (y + 1))).volume (1 / 2))
       if (s1 (cell_index x y)).volume = 0 then some s1
       else if (s1 (cell_index x (y + 1))).volume < 1 then some s1
       else try_horizontal_flow_fp A x y s1) := by
  have hc := inArray_cell_index hg
  have hb := inArray_cell_index (inGrid_below hg hy)
  unfold process_water_cell_fp can_flow_down
  simp only [fill_fp_eq A hc hb, load_eq hc, load_eq hb, if_pos hy, Option.bind_eq_bind,
    Option.some_bind, Option.pure_def]
  split
  · rfl
  · by_cases h : (move_fp A state (cell_index x y) (cell_index x (y + 1))
        (fill_amount_fp A 1 (state (cell_index x (y + 1))).volume (1 / 2))
        (cell_index x (y + 1))).volume < 1
    · simp [h]
    · simp [h]

theorem reaches_cascade_fp_eq (A : Arith) {x y : Int} (hg : InGrid x y)
    (hy : y + 1 < TILE_HEIGHT) (state : Cells) :
    reaches_cascade_fp A x y state =
      (let s1 := move_fp A state (cell_index x y) (cell_index x (y + 1))
          (fill_amount_fp A 1 (state (cell_index x (y + 1))).volume (1 / 2))
       if (s1 (cell_index x y)).volume = 0 then some false
       else if (s1 (cell_index x (y + 1))).volume < 1 then some false
       else some (decide ((s1 (cell_index x (y + 1))).volume > 1 / 2))) := by
  have hc := inArray_cell_index hg
  have hb := inArray_cell_index (inGrid_below hg hy)
  unfold reaches_cascade_fp can_flow_down has_water_below
  simp only [fill_fp_eq A hc hb, load_eq hc, load_eq hb, if_pos hy, Option.bind_eq_bind,
    Option.some_bind, Option.pure_def]
  split
  · rfl
  · by_cases h : (move_fp A state (cell_index x y) (cell_index x (y + 1))
        (fill_amount_fp A 1 (state (cell_index x (y + 1))).volume (1 / 2))
        (cell_index x (y + 1))).volume < 1
    · simp [h]
    · simp [h]

/-! ## Claim C15 in binary32 -/

theorem to_float_three : ieee_arith.to_float 3 = 3 := by
  show fp_round 24 (-126) 3 = 3
  rw [fp_round_eq 24 (-126) _ 1 1 12582912 12582912 (by norm_num [abs_of_pos])
    (by norm_num [abs_of_pos]) (by decide) (by norm_num) (by norm_num) (by norm_num)]
  norm_num

theorem to_float_below_minus_one :
    ieee_arith.to_float (-(1 + 3 / 2 ^ 23)) = -(1 + 3 / 2 ^ 23) := by
  show fp_round 24 (-126) _ = _
  rw [fp_round_eq 24 (-126) _ 0 0 (-8388611) (-8388611) (by norm_num [abs_of_pos, abs_neg])
    (by norm_num [abs_of_pos, abs_neg]) (by decide) (by norm_num) (by norm_num) (by norm_num)]
  norm_num

/-- The room `1 - t` for `t = -(1 + 3 * 2^-23)` lies halfway between two
`float`s and rounds to the even one, `2 + 2^-21`. -/
theorem to_float_room_tie :
    ieee_arith.to_float (1 - -(1 + 3 / 2 ^ 23)) = 2 + 1 / 2 ^ 21 := by
  show fp_round 24 (-126) _ = _
  rw [fp_round_eq 24 (-126) _ 1 1 8388609 8388610 (by norm_num [abs_of_pos])
    (by norm_num [abs_of_pos]) (by decide) (by norm_num) (by norm_num) (by norm_num)]
  norm_num

theorem to_float_above_one :
    ieee_arith.to_float (-(1 + 3 / 2 ^ 23) + (2 + 1 / 2 ^ 21)) = 1 + 1 / 2 ^ 23 := by
  show fp_round 24 (-126) _ = _
  rw [fp_round_eq 24 (-126) _ 0 0 8388609 8388609 (by norm_num [abs_of_pos])
    (by norm_num [abs_of_pos]) (by decide) (by norm_num) (by norm_num) (by norm_num)]
  norm_num

/-- C15 fails in the arithmetic of the code: in binary32, `fill` with capacity
`1` and rate `3` on a target holding the `float` `t = -(1 + 3 * 2^-23) ≤ 1`
computes the room `1 - t` as `2 + 2^-21` (a tie, rounded to even), moves that
amount, and leaves the target at `1 + 2^-23`, above the capacity. -/
theorem C15_counterexample :
    InArray (cell_index 0 0) ∧ InArray (cell_index 0 (0 + 1)) ∧
    ((stacked_game 0 0 0 (-(1 + 3 / 2 ^ 23))).state (cell_index 0 (0 + 1))).volume =
      -(1 + 3 / 2 ^ 23) ∧
    ieee_arith.to_float (-(1 + 3 / 2 ^ 23)) = -(1 + 3 / 2 ^ 23) ∧
    ieee_arith.to_float 1 = 1 ∧ ieee_arith.to_float 3 = 3 ∧
    (-(1 + 3 / 2 ^ 23) : ℚ) ≤ 1 ∧ (0 : ℚ) ≤ 3 ∧
    ∃ st', fill_fp ieee_arith (stacked_game 0 0 0 (-(1 + 3 / 2 ^ 23))).state
        (cell_index 0 0) (cell_index 0 (0 + 1)) 1 3 = some st' ∧
      (st' (cell_index 0 (0 + 1))).volume = 1 + 1 / 2 ^ 23 ∧
      ¬ (st' (cell_index 0 (0 + 1))).volume ≤ 1 := by
  have hg : InGrid 0 0 := (inGrid_iff 0 0).mpr (by decide)
  have hc := inArray_cell_index hg
  have hb := inArray_cell_index (inGrid_below hg (by decide))
  have hne : cell_index 0 0 ≠ cell_index 0 (0 + 1) := by
    rw [cell_index_eq, cell_index_eq]; omega
  have hlo := stacked_game_lower 0 0 0 (-(1 + 3 / 2 ^ 23))
  have hv : (move_fp ieee_arith (stacked_game 0 0 0 (-(1 + 3 / 2 ^ 23))).state (cell_index 0 0)
      (cell_index 0 (0 + 1)) (fill_amount_fp ieee_arith 1
        ((stacked_game 0 0 0 (-(1 + 3 / 2 ^ 23))).state (cell_index 0 (0 + 1))).volume 3)
      (cell_index 0 (0 + 1))).volume = 1 + 1 / 2 ^ 23 := by
    rw [move_fp_target ieee_arith _ hne, hlo]
    unfold fill_amount_fp
    rw [to_float_room_tie, if_neg (by norm_num)]
    exact to_float_above_one
  refine ⟨hc, hb, hlo, to_float_below_minus_one, to_float_one, to_float_three, by norm_num,
    by norm_num, _, fill_fp_eq ieee_arith hc hb 1 3, hv, ?_⟩
  rw [hv]
  norm_num

/-! ## Claim C17 in binary32 -/

theorem to_float_below_half :
    ieee_arith.to_float (1 / 2 - 1 / 2 ^ 25) = 1 / 2 - 1 / 2 ^ 25 := by
  show fp_round 24 (-126) _ = _
  rw [fp_round_eq 24 (-126) _ (-2) (-2) 16777215 16777215 (by norm_num [abs_of_pos])
    (by norm_num [abs_of_pos]) (by decide) (by norm_num) (by norm_num) (by norm_num)]
  norm_num

/-- The room above `1/2 - 2^-25` is `1/2 + 2^-25`, halfway between two
`float`s; it rounds to the even one, `1/2`. -/
theorem to_float_room_half :
    ieee_arith.to_float (1 - (1 / 2 - 1 / 2 ^ 25)) = 1 / 2 := by
  show fp_round 24 (-126) _ = _
  rw [fp_round_eq 24 (-126) _ (-1) (-1) 8388608 8388608 (by norm_num [abs_of_pos])
    (by norm_num [abs_of_pos]) (by decide) (by norm_num) (by norm_num) (by norm_num)]
  norm_num

/-- The sum `(1/2 - 2^-25) + 1/2` is halfway between two `float`s; it rounds to
the even one, `1`. -/
theorem to_float_sum_one :
    ieee_arith.to_float (1 / 2 - 1 / 2 ^ 25 + 1 / 2) = 1 := by
  show fp_round 24 (-126) _ = _
  rw [fp_round_eq 24 (-126) _ (-1) (-1) 16777215 16777216 (by norm_num [abs_of_pos])
    (by norm_num [abs_of_pos]) (by decide) (by norm_num) (by norm_num) (by norm_num)]
  norm_num

theorem to_float_one_sub_half : ieee_arith.to_float (1 - 1 / 2) = 1 / 2 := by
  rw [show (1 : ℚ) - 1 / 2 = 1 / 2 by norm_num]
  exact to_float_half

/-- C17 fails in the arithmetic of the code: in binary32, with cell `(5, 3)`
full and the cell below holding the `float` `1/2 - 2^-25 < 1/2`, the downward
`fill` computes the room as exactly `1/2` (a tie, rounded to even), leaves
`(5, 3)` at `1/2` and lifts the cell below to exactly `1` (a tie again), so
`can_flow_down` is false, `has_water_below` is true, and `process_water_cell`
runs both cascade loops although the cell below held less than `1/2` before
the downward transfer. -/
theorem C17_counterexample :
    InGrid 5 3 ∧ (3 : Int) + 1 < TILE_HEIGHT ∧
    (∀ i, InArray i → ((stacked_game 5 3 1 (1 / 2 - 1 / 2 ^ 25)).state i).volume ≤ 1) ∧
    ((stacked_game 5 3 1 (1 / 2 - 1 / 2 ^ 25)).state (cell_index 5 (3 + 1))).volume =
      1 / 2 - 1 / 2 ^ 25 ∧
    ieee_arith.to_float (1 / 2 - 1 / 2 ^ 25) = 1 / 2 - 1 / 2 ^ 25 ∧
    ¬ ((stacked_game 5 3 1 (1 / 2 - 1 / 2 ^ 25)).state (cell_index 5 (3 + 1))).volume ≥ 1 / 2 ∧
    ∃ s1, fill_fp ieee_arith (stacked_game 5 3 1 (1 / 2 - 1 / 2 ^ 25)).state (cell_index 5 3)
        (cell_index 5 (3 + 1)) 1 (1 / 2) = some s1 ∧
      (s1 (cell_index 5 3)).volume = 1 / 2 ∧ (s1 (cell_index 5 3)).volume ≠ 0 ∧
      (s1 (cell_index 5 (3 + 1))).volume = 1 ∧
      reaches_cascade_fp ieee_arith 5 3 (stacked_game 5 3 1 (1 / 2 - 1 / 2 ^ 25)).state =
        some true ∧
      reaches_cascade_fp ieee_arith 5 3 (stacked_game 5 3 1 (1 / 2 - 1 / 2 ^ 25)).state ≠
        some (decide
          (((stacked_game 5 3 1 (1 / 2 - 1 / 2 ^ 25)).state (cell_index 5 (3 + 1))).volume ≥ 1 / 2 ∧
            (s1 (cell_index 5 3)).volume ≠ 0)) ∧
      process_water_cell_fp ieee_arith 5 3 (stacked_game 5 3 1 (1 / 2 - 1 / 2 ^ 25)).state =
        (cascade_right_fp ieee_arith 5 3 [1, 2, 3] s1).bind
          (cascade_left_fp ieee_arith 5 3 [1, 2, 3]) := by
  have hg : InGrid 5 3 := (inGrid_iff 5 3).mpr (by decide)
  have hy : (3 : Int) + 1 < TILE_HEIGHT := by decide
  have hc := inArray_cell_index hg
  have hb := inArray_cell_index (inGrid_below hg hy)
  have hne : cell_index 5 3 ≠ cell_index 5 (3 + 1) := by
    rw [cell_index_eq, cell_index_eq]; omega
  have hup := stacked_game_upper 5 3 1 (1 / 2 - 1 / 2 ^ 25)
  have hlo := stacked_game_lower 5 3 1 (1 / 2 - 1 / 2 ^ 25)
  have hlt : ¬ ((stacked_game 5 3 1 (1 / 2 - 1 / 2 ^ 25)).state
      (cell_index 5 (3 + 1))).volume ≥ 1 / 2 := by
    rw [hlo]; norm_num
  have hamt : fill_amount_fp ieee_arith 1
      ((stacked_game 5 3 1 (1 / 2 - 1 / 2 ^ 25)).state (cell_index 5 (3 + 1))).volume (1 / 2) =
      1 / 2 := by
    unfold fill_amount_fp
    rw [hlo, to_float_room_half, if_neg (lt_irrefl _)]
  have h1 : (move_fp ieee_arith (stacked_game 5 3 1 (1 / 2 - 1 / 2 ^ 25)).state (cell_index 5 3)
      (cell_index 5 (3 + 1)) (fill_amount_fp ieee_arith 1
        ((stacked_game 5 3 1 (1 / 2 - 1 / 2 ^ 25)).state (cell_index 5 (3 + 1))).volume (1 / 2))
      (cell_index 5 3)).volume = 1 / 2 := by
    rw [move_fp_current ieee_arith _ hne, hamt, hup]
    exact to_float_one_sub_half
  have h2 : (move_fp ieee_arith (stacked_game 5 3 1 (1 / 2 - 1 / 2 ^ 25)).state (cell_index 5 3)
      (cell_index 5 (3 + 1)) (fill_amount_fp ieee_arith 1
        ((stacked_game 5 3 1 (1 / 2 - 1 / 2 ^ 25)).state (cell_index 5 (3 + 1))).volume (1 / 2))
      (cell_index 5 (3 + 1))).volume = 1 := by
    rw [move_fp_target ieee_arith _ hne, hamt, hlo]
    exact to_float_sum_one
  have hr : reaches_cascade_fp ieee_arith 5 3 (stacked_game 5 3 1 (1 / 2 - 1 / 2 ^ 25)).state =
      some true := by
    rw [reaches_cascade_fp_eq ieee_arith hg hy]
    simp only
    rw [h1, h2, if_neg (by norm_num), if_neg (lt_irrefl _), decide_eq_true (by norm_num)]
  refine ⟨hg, hy, ?_, hlo, to_float_below_half, hlt, _, fill_fp_eq ieee_arith hc hb 1 (1 / 2),
    h1, by rw [h1]; norm_num, h2, hr, ?_, ?_⟩
  · intro i _
    unfold stacked_game
    by_cases hi : i = cell_index 5 3
    · simp only [if_pos hi]; norm_num
    · by_cases hj : i = cell_index 5 (3 + 1)
      · simp only [if_neg hi, if_pos hj]; norm_num
      · simp only [if_neg hi, if_neg hj]; norm_num
  · rw [hr, decide_eq_false (fun h => hlt h.1)]
    simp
  · rw [process_water_cell_fp_eq ieee_arith hg hy]
    simp only
    rw [h1, h2, if_neg (by norm_num), if_neg (lt_irrefl _),
      try_horizontal_flow_fp_eq ieee_arith hg hy, h2, if_pos (by norm_num)]

/-! ## A whole step with rounding -/

theorem update_cell_fp_eq (A : Arith) (g : Game) {x y : Int} (hg : InGrid x y) (state : Cells) :
    update_cell_fp A g x y state =
      if (g.state (cell_index x y)).volume > 0 ∧ y + 1 < TILE_HEIGHT then
        process_water_cell_fp A x y state
      else some state := by
  unfold update_cell_fp
  simp only [load_eq (inArray_cell_index hg), Option.bind_eq_bind, Option.some_bind,
    Option.pure_def]
  by_cases h1 : (g.state (cell_index x y)).volume > 0
  · by_cases h2 : y + 1 < TILE_HEIGHT
    · simp [h1, h2]
    · simp [h1, h2]
  · simp [h1]

theorem update_row_fp_rule (A : Arith) (g : Game) {y : Int} (hy0 : 0 ≤ y) (hy1 : y < 40)
    (J : Int → Cells → Prop) (st : Cells) (h0 : J 0 st)
    (hstep : ∀ (x : Int) (s : Cells), InGrid x y → J x s →
      ∃ s', update_cell_fp A g x y s = some s' ∧ J (x + 1) s') :
    ∃ s', update_row_fp A g y st = some s' ∧ J 80 s' := by
  have key := count_up_rule (fun s x => update_cell_fp A g x y s) J 80 st h0
    (fun x s hx0 hx1 hJ => hstep x s (by rw [inGrid_iff]; omega) hJ)
  unfold update_row_fp
  rw [TILE_WIDTH_eq]
  exact key

theorem simulate_fp_rule (A : Arith) (g : Game) (J : Int → Cells → Prop) (st : Cells)
    (h0 : J 40 st)
    (hstep : ∀ (y : Int) (s : Cells), 0 ≤ y → y < 40 → J (y + 1) s →
      ∃ s', update_row_fp A g y s = some s' ∧ J y s') :
    ∃ s', simulate_fp A g st = some s' ∧ J 0 s' := by
  have key := count_down_rule (fun s y => update_row_fp A g y s) J 40 st h0 hstep
  unfold simulate_fp
  rw [TILE_HEIGHT_eq]
  exact key

theorem game_update_fp_eq (A : Arith) (g : Game) :
    game_update_fp A g = (simulate_fp A g (snapshot g)).map (committed g) := by
  unfold game_update_fp
  simp only [copy_state_eq, Option.bind_eq_bind, Option.some_bind, Option.pure_def]
  cases h : simulate_fp A g (snapshot g) with
  | none =>
    have h' : simulate_fp A g
        (fun i => if 0 ≤ i ∧ i < 3200 then g.state i else { volume := 0, size := 0 }) = none := h
    simp [h']
  | some ns =>
    have h' : simulate_fp A g
        (fun i => if 0 ≤ i ∧ i < 3200 then g.state i else { volume := 0, size := 0 }) =
        some ns := h
    simp only [h', Option.some_bind, Option.map_some']
    rfl

/-- A row in which no cell qualifies for processing is left as it is. -/
theorem update_row_fp_skip (A : Arith) (g : Game) {y : Int} (hy0 : 0 ≤ y) (hy1 : y < 40)
    (st : Cells)
    (h : ∀ x, InGrid x y → ¬ ((g.state (cell_index x y)).volume > 0 ∧ y + 1 < TILE_HEIGHT)) :
    update_row_fp A g y st = some st := by
  obtain ⟨s', h1, h2⟩ := update_row_fp_rule A g hy0 hy1 (fun _ s => s = st) st rfl
    (by
      intro x s hg hs
      refine ⟨s, ?_, hs⟩
      rw [update_cell_fp_eq A g hg, if_neg (h x hg)])
  rw [h1, h2]

/-- A row in which only column `x0` qualifies for processing, and the
processing of that cell gives `st'`, ends as `st'`. -/
theorem update_row_fp_single (A : Arith) (g : Game) {x0 y : Int} (hg0 : InGrid x0 y)
    (st st' : Cells)
    (h : ∀ x, InGrid x y → x ≠ x0 →
      ¬ ((g.state (cell_index x y)).volume > 0 ∧ y + 1 < TILE_HEIGHT))
    (h0 : update_cell_fp A g x0 y st = some st') :
    update_row_fp A g y st = some st' := by
  have hg0' := hg0
  rw [inGrid_iff] at hg0'
  obtain ⟨s', h1, h2⟩ := update_row_fp_rule A g hg0'.2.2.1 hg0'.2.2.2
    (fun x s => (x ≤ x0 → s = st) ∧ (x0 < x → s = st')) st
    ⟨fun _ => rfl, fun hx => absurd hx (by omega)⟩
    (by
      intro x s hg hJ
      by_cases hx : x = x0
      · subst hx
        refine ⟨st', ?_, fun hx => absurd hx (by omega), fun _ => rfl⟩
        rw [hJ.1 (le_refl _)]
        exact h0
      · refine ⟨s, ?_, ?_, ?_⟩
        · rw [update_cell_fp_eq A g hg, if_neg (h x hg hx)]
        · intro hle
          exact hJ.1 (by omega)
        · intro hlt
          exact hJ.2 (by omega))
  rw [h1, h2.2 (by omega)]

/-! ## Claim C18 in binary32 -/

/-- Volume of rows `0, ..., r` of an array that is empty outside the cell
`(x, y)` and the cell below it. -/
theorem rows_volume_two_cells {state : Cells} {x y : Int} (hg : InGrid x y)
    (hy : y + 1 < TILE_HEIGHT)
    (hz : ∀ x' y', InGrid x' y' → (x' ≠ x ∨ (y' ≠ y ∧ y' ≠ y + 1)) →
      (state (cell_index x' y')).volume = 0) {r : Int} (hr : r < TILE_HEIGHT) :
    rows_volume r state =
      (if y < ((r + 1).toNat : Int) then (state (cell_index x y)).volume else 0) +
        (if y + 1 < ((r + 1).toNat : Int) then (state (cell_index x (y + 1))).volume else 0) := by
  have hg' := hg
  rw [inGrid_iff] at hg'
  rw [TILE_HEIGHT_eq] at hy hr
  have hpt : ∀ j c : ℕ, j ∈ Finset.range (r + 1).toNat → c ∈ Finset.range 80 →
      (state (cell_index (c : Int) (j : Int))).volume =
        (if (j : Int) = y ∧ (c : Int) = x then (state (cell_index x y)).volume else 0) +
          (if (j : Int) = y + 1 ∧ (c : Int) = x then
            (state (cell_index x (y + 1))).volume else 0) := by
    intro j c hj hcr
    rw [Finset.mem_range] at hj hcr
    by_cases h1 : (j : Int) = y ∧ (c : Int) = x
    · have h2 : ¬ ((j : Int) = y + 1 ∧ (c : Int) = x) := by omega
      rw [if_pos h1, if_neg h2, h1.1, h1.2, add_zero]
    · by_cases h2 : (j : Int) = y + 1 ∧ (c : Int) = x
      · rw [if_neg h1, if_pos h2, h2.1, h2.2, zero_add]
      · rw [if_neg h1, if_neg h2, add_zero]
        exact hz _ _ ((inGrid_iff _ _).mpr (by omega)) (by omega)
  rw [rows_volume_eq_sum,
    Finset.sum_congr rfl (fun j hj => Finset.sum_congr rfl (fun c hcr => hpt j c hj hcr))]
  simp only [Finset.sum_add_distrib]
  rw [sum_grid_indicator _ x y hg'.1 hg'.2.1 hg'.2.2.1,
    sum_grid_indicator _ x (y + 1) hg'.1 hg'.2.1 (by omega)]

/-- The `float` nearest to `0.1`. -/
theorem to_float_tenth : ieee_arith.to_float (13421773 / 2 ^ 27) = 13421773 / 2 ^ 27 := by
  show fp_round 24 (-126) _ = _
  rw [fp_round_eq 24 (-126) _ (-4) (-4) 13421773 13421773 (by norm_num [abs_of_pos])
    (by norm_num [abs_of_pos]) (by decide) (by norm_num) (by norm_num) (by norm_num)]
  norm_num

theorem to_float_room_tenth :
    ieee_arith.to_float (1 - 13421773 / 2 ^ 27) = 7549747 / 2 ^ 23 := by
  show fp_round 24 (-126) _ = _
  rw [fp_round_eq 24 (-126) _ (-1) (-1) 15099494 15099494 (by norm_num [abs_of_pos])
    (by norm_num [abs_of_pos]) (by decide) (by norm_num) (by norm_num) (by norm_num)]
  norm_num

/-- The sum `0.1f + 0.5` is not a `float`; it rounds up, by `3 * 2^-27`. -/
theorem to_float_tenth_add_half :
    ieee_arith.to_float (13421773 / 2 ^ 27 + 1 / 2) = 5033165 / 2 ^ 23 := by
  show fp_round 24 (-126) _ = _
  rw [fp_round_eq 24 (-126) _ (-1) (-1) 10066329 10066330 (by norm_num [abs_of_pos])
    (by norm_num [abs_of_pos]) (by decide) (by norm_num) (by norm_num) (by norm_num)]
  norm_num

/-- One step with rounding on a grid that is empty outside the cell `(x, y)`
and the cell below it, when `(x, y)` is wet, in the row above the bottom row, and the
downward transfer leaves it non-empty with the cell below not full: the step is
that one downward transfer. -/
theorem game_update_fp_two_cells (A : Arith) (g : Game) {x y : Int} (hg : InGrid x y)
    (hy : ¬ y + 2 < TILE_HEIGHT) (hy1 : y + 1 < TILE_HEIGHT)
    (hz : ∀ x' y', InGrid x' y' → (x' ≠ x ∨ (y' ≠ y ∧ y' ≠ y + 1)) →
      (g.state (cell_index x' y')).volume = 0)
    (hwet : (g.state (cell_index x y)).volume > 0) (a : ℚ)
    (ha : fill_amount_fp A 1 (g.state (cell_index x (y + 1))).volume (1 / 2) = a)
    (h1 : A.to_float ((g.state (cell_index x y)).volume - a) ≠ 0)
    (h2 : A.to_float ((g.state (cell_index x (y + 1))).volume + a) < 1) :
    game_update_fp A g = some (committed g
      (move_fp A (snapshot g) (cell_index x y) (cell_index x (y + 1)) a)) := by
  have hg' := hg
  rw [inGrid_iff] at hg'
  have hy' := hy1
  rw [TILE_HEIGHT_eq] at hy' hy
  have hc := inArray_cell_index hg
  have hb := inArray_cell_index (inGrid_below hg hy1)
  have hne : cell_index x y ≠ cell_index x (y + 1) := by
    rw [cell_index_eq, cell_index_eq]; omega
  have hcell : update_cell_fp A g x y (snapshot g) =
      some (move_fp A (snapshot g) (cell_index x y) (cell_index x (y + 1)) a) := by
    rw [update_cell_fp_eq A g hg, if_pos ⟨hwet, hy1⟩, process_water_cell_fp_eq A hg hy1]
    simp only
    rw [snapshot_inArray g hb, ha, move_fp_current A _ hne, move_fp_target A _ hne,
      snapshot_inArray g hc, snapshot_inArray g hb, if_neg h1, if_pos h2]
  obtain ⟨s', e1, e2⟩ := simulate_fp_rule A g
    (fun k s => (y < k → s = snapshot g) ∧
      (k ≤ y → s = move_fp A (snapshot g) (cell_index x y) (cell_index x (y + 1)) a))
    (snapshot g) ⟨fun _ => rfl, fun hk => absurd hk (by omega)⟩
    (by
      intro r s hr0 hr1 hJ
      by_cases hr : r = y
      · subst hr
        refine ⟨_, update_row_fp_single A g hg s _ ?_ ?_, fun hk => absurd hk (by omega),
          fun _ => rfl⟩
        · intro x' hgx hx' hw
          rw [hz x' r hgx (Or.inl hx')] at hw
          exact lt_irrefl _ hw.1
        · rw [hJ.1 (by omega)]
          exact hcell
      · refine ⟨s, update_row_fp_skip A g hr0 hr1 s ?_, ?_, ?_⟩
        · intro x' hgx hw
          by_cases hlast : r = y + 1
          · have := hw.2
            rw [TILE_HEIGHT_eq] at this
            omega
          · rw [hz x' r hgx (Or.inr ⟨hr, hlast⟩)] at hw
            exact lt_irrefl _ hw.1
        · intro hk
          exact hJ.1 (by omega)
        · intro hk
          exact hJ.2 (by omega))
  rw [game_update_fp_eq, e1, e2.2 hg'.2.2.1]
  rfl

/-- C18 fails in the arithmetic of the code: in binary32, with cell `(5, 38)`
full over cell `(5, 39)` holding the `float` nearest to `0.1` and every other
cell empty, one `game_update` takes `1/2` out of `(5, 38)` and leaves `(5, 39)`
at `5033165 / 2^23`, which is `3 * 2^-27` more than `0.1f + 1/2`: the volume
held in rows `0, ..., 39` grows from `147639501 / 2^27` to `9227469 / 2^23`. -/
theorem C18_counterexample :
    (∀ i, InArray i → ((stacked_game 5 38 1 (13421773 / 2 ^ 27)).state i).volume ≤ 1) ∧
    (∀ i, ieee_arith.to_float ((stacked_game 5 38 1 (13421773 / 2 ^ 27)).state i).volume =
      ((stacked_game 5 38 1 (13421773 / 2 ^ 27)).state i).volume) ∧
    (0 : Int) ≤ 39 ∧ (39 : Int) < TILE_HEIGHT ∧
    ∃ g', game_update_fp ieee_arith (stacked_game 5 38 1 (13421773 / 2 ^ 27)) = some g' ∧
      rows_volume 39 (stacked_game 5 38 1 (13421773 / 2 ^ 27)).state = 147639501 / 2 ^ 27 ∧
      rows_volume 39 g'.state = 9227469 / 2 ^ 23 ∧
      ¬ rows_volume 39 g'.state ≤
        rows_volume 39 (stacked_game 5 38 1 (13421773 / 2 ^ 27)).state := by
  have hg : InGrid 5 38 := (inGrid_iff 5 38).mpr (by decide)
  have hy1 : (38 : Int) + 1 < TILE_HEIGHT := by decide
  have hc := inArray_cell_index hg
  have hb := inArray_cell_index (inGrid_below hg hy1)
  have hne : cell_index 5 38 ≠ cell_index 5 (38 + 1) := by
    rw [cell_index_eq, cell_index_eq]; omega
  have hup := stacked_game_upper 5 38 1 (13421773 / 2 ^ 27)
  have hlo := stacked_game_lower 5 38 1 (13421773 / 2 ^ 27)
  have hz : ∀ x' y', InGrid x' y' → (x' ≠ 5 ∨ (y' ≠ 38 ∧ y' ≠ 38 + 1)) →
      ((stacked_game 5 38 1 (13421773 / 2 ^ 27)).state (cell_index x' y')).volume = 0 :=
    fun x' y' h' hne' => stacked_game_zero _ _ (by decide) (by decide) h' hne'
  have hamt : fill_amount_fp ieee_arith 1
      ((stacked_game 5 38 1 (13421773 / 2 ^ 27)).state (cell_index 5 (38 + 1))).volume (1 / 2) =
      1 / 2 := by
    unfold fill_amount_fp
    rw [hlo, to_float_room_tenth, if_pos (by norm_num)]
  have hstep := game_update_fp_two_cells ieee_arith (stacked_game 5 38 1 (13421773 / 2 ^ 27))
    hg (by decide) hy1 hz (by rw [hup]; norm_num) (1 / 2) hamt
    (by rw [hup, to_float_one_sub_half]; norm_num)
    (by rw [hlo, to_float_tenth_add_half]; norm_num)
  have hbefore : rows_volume 39 (stacked_game 5 38 1 (13421773 / 2 ^ 27)).state =
      147639501 / 2 ^ 27 := by
    rw [rows_volume_two_cells hg hy1 hz (by decide), hup, hlo, if_pos (by decide),
      if_pos (by decide)]
    norm_num
  have hafter : rows_volume 39 (committed (stacked_game 5 38 1 (13421773 / 2 ^ 27))
      (move_fp ieee_arith (snapshot (stacked_game 5 38 1 (13421773 / 2 ^ 27))) (cell_index 5 38)
        (cell_index 5 (38 + 1)) (1 / 2))).state = 9227469 / 2 ^ 23 := by
    rw [committed_state, rows_volume_two_cells hg hy1 ?_ (by decide), commit_inArray _ _ hc,
      commit_inArray _ _ hb, move_fp_current ieee_arith _ hne, move_fp_target ieee_arith _ hne,
      snapshot_inArray _ hc, snapshot_inArray _ hb, hup, hlo, to_float_one_sub_half,
      to_float_tenth_add_half, if_pos (by decide), if_pos (by decide)]
    · norm_num
    · intro x' y' h' hne'
      have hi := inArray_cell_index h'
      have n1 : cell_index x' y' ≠ cell_index 5 38 := by
        rw [inGrid_iff] at h'
        rw [cell_index_eq, cell_index_eq]; omega
      have n2 : cell_index x' y' ≠ cell_index 5 (38 + 1) := by
        rw [inGrid_iff] at h'
        rw [cell_index_eq, cell_index_eq]; omega
      rw [commit_inArray _ _ hi, move_fp_other ieee_arith _ n1 n2, snapshot_inArray _ hi]
      exact hz x' y' h' hne'
  refine ⟨?_, ?_, by decide, by decide, _, hstep, hbefore, hafter, ?_⟩
  · intro i _
    unfold stacked_game
    by_cases hi : i = cell_index 5 38
    · simp only [if_pos hi]; norm_num
    · by_cases hj : i = cell_index 5 (38 + 1)
      · simp only [if_neg hi, if_pos hj]; norm_num
      · simp only [if_neg hi, if_neg hj]; norm_num
  · intro i
    unfold stacked_game
    by_cases hi : i = cell_index 5 38
    · simp only [if_pos hi]; exact to_float_one
    · by_cases hj : i = cell_index 5 (38 + 1)
      · simp only [if_neg hi, if_pos hj]; exact to_float_tenth
      · simp only [if_neg hi, if_neg hj]; exact to_float_zero
  · rw [hafter, hbefore]
    norm_num

/-! ## What holds with every rounding -/

theorem round_half_even_nonneg {x : ℚ} (h : 0 ≤ x) : 0 ≤ round_half_even x := by
  have hf : 0 ≤ ⌊x⌋ := Int.floor_nonneg.mpr h
  unfold round_half_even
  split
  · exact hf
  · split
    · omega
    · split
      · exact hf
      · omega

/-- Rounding keeps the sign of a non-negative number. -/
theorem fp_round_nonneg (p : Nat) (emin : Int) {x : ℚ} (h : 0 ≤ x) : 0 ≤ fp_round p emin x := by
  unfold fp_round
  have hp : (0 : ℚ) < (2 : ℚ) ^ (max (Int.log 2 |x|) emin - ((p : Int) - 1)) :=
    zpow_pos (by norm_num) _
  exact mul_nonneg (by exact_mod_cast round_half_even_nonneg (div_nonneg h hp.le)) hp.le

/-- In binary32 the amount that `fill` moves lies between `0` and the rate,
when the target holds at most the capacity and the rate is not negative. -/
theorem fill_amount_fp_bounds {c t r : ℚ} (htc : t ≤ c) (hr : 0 ≤ r) :
    0 ≤ fill_amount_fp ieee_arith c t r ∧ fill_amount_fp ieee_arith c t r ≤ r := by
  have h0 : 0 ≤ ieee_arith.to_float (c - t) := fp_round_nonneg 24 (-126) (by linarith)
  unfold fill_amount_fp
  split
  · exact ⟨hr, le_refl _⟩
  · rename_i h
    exact ⟨h0, not_lt.mp h⟩

theorem cascade_cell_fp_frame (A : Arith) {current target : Int} (offset : Int)
    (hc : InArray current) (ht : InArray target) (state : Cells) :
    ∃ st', cascade_cell_fp A current target offset state = some st' ∧
      ∀ i, i ≠ current → i ≠ target → st' i = state i := by
  rw [cascade_cell_fp_eq A offset hc ht]
  split
  · exact ⟨_, rfl, fun i h1 h2 => move_fp_other A _ h1 h2⟩
  · exact ⟨_, rfl, fun _ _ _ => rfl⟩

theorem cascade_right_fp_frame (A : Arith) {x y : Int} (hg : InGrid x y) (l : List Int)
    (hl : ∀ o ∈ l, 0 ≤ o) (state : Cells) :
    ∃ st', cascade_right_fp A x y l state = some st' ∧
      ∀ i, (∀ x', InGrid x' y → i ≠ cell_index x' y) → st' i = state i := by
  induction l generalizing state with
  | nil => exact ⟨state, rfl, fun _ _ => rfl⟩
  | cons o rest ih =>
    unfold cascade_right_fp
    split
    · rename_i hlt
      have hg' := hg
      rw [inGrid_iff] at hg'
      rw [TILE_WIDTH_eq] at hlt
      have ho := hl o (List.mem_cons_self _ _)
      have hgt : InGrid (x + o) y := (inGrid_iff _ _).mpr (by omega)
      obtain ⟨s1, e1, f1⟩ := cascade_cell_fp_frame A o (inArray_cell_index hg)
        (inArray_cell_index hgt) state
      obtain ⟨s2, e2, f2⟩ := ih (fun o' ho' => hl o' (List.mem_cons_of_mem _ ho')) s1
      refine ⟨s2, ?_, ?_⟩
      · rw [e1]
        exact e2
      · intro i hi
        rw [f2 i hi, f1 i (hi x hg) (hi (x + o) hgt)]
    · exact ⟨state, rfl, fun _ _ => rfl⟩

theorem cascade_left_fp_frame (A : Arith) {x y : Int} (hg : InGrid x y) (l : List Int)
    (hl : ∀ o ∈ l, 0 ≤ o) (state : Cells) :
    ∃ st', cascade_left_fp A x y l state = some st' ∧
      ∀ i, (∀ x', InGrid x' y → i ≠ cell_index x' y) → st' i = state i := by
  induction l generalizing state with
  | nil => exact ⟨state, rfl, fun _ _ => rfl⟩
  | cons o rest ih =>
    unfold cascade_left_fp
    split
    · rename_i hlt
      have hg' := hg
      rw [inGrid_iff] at hg'
      have ho := hl o (List.mem_cons_self _ _)
      have hgt : InGrid (x - o) y := (inGrid_iff _ _).mpr (by omega)
      obtain ⟨s1, e1, f1⟩ := cascade_cell_fp_frame A o (inArray_cell_index hg)
        (inArray_cell_index hgt) state
      obtain ⟨s2, e2, f2⟩ := ih (fun o' ho' => hl o' (List.mem_cons_of_mem _ ho')) s1
      refine ⟨s2, ?_, ?_⟩
      · rw [e1]
        exact e2
      · intro i hi
        rw [f2 i hi, f1 i (hi x hg) (hi (x - o) hgt)]
    · exact ⟨state, rfl, fun _ _ => rfl⟩

/-- With every rounding, `process_water_cell x y` succeeds and changes no cell
outside row `y` other than the cell below `(x, y)`. -/
theorem process_water_cell_fp_frame (A : Arith) {x y : Int} (hg : InGrid x y)
    (hy : y + 1 < TILE_HEIGHT) (state : Cells) :
    ∃ st', process_water_cell_fp A x y state = some st' ∧
      ∀ i, (∀ x', InGrid x' y → i ≠ cell_index x' y) → i ≠ cell_index x (y + 1) →
        st' i = state i := by
  have h123 : ∀ o ∈ ([1, 2, 3] : List Int), 0 ≤ o := by
    intro o ho
    simp only [List.mem_cons, List.mem_singleton, List.not_mem_nil, or_false] at ho
    omega
  have hdown : ∀ i, (∀ x', InGrid x' y → i ≠ cell_index x' y) → i ≠ cell_index x (y + 1) →
      move_fp A state (cell_index x y) (cell_index x (y + 1))
        (fill_amount_fp A 1 (state (cell_index x (y + 1))).volume (1 / 2)) i = state i :=
    fun i h1 h2 => move_fp_other A _ (h1 x hg) h2
  rw [process_water_cell_fp_eq A hg hy]
  simp only
  split
  · exact ⟨_, rfl, hdown⟩
  · split
    · exact ⟨_, rfl, hdown⟩
    · rw [try_horizontal_flow_fp_eq A hg hy]
      split
      · obtain ⟨s2, e2, f2⟩ := cascade_right_fp_frame A hg [1, 2, 3] h123
          (move_fp A state (cell_index x y) (cell_index x (y + 1))
            (fill_amount_fp A 1 (state (cell_index x (y + 1))).volume (1 / 2)))
        obtain ⟨s3, e3, f3⟩ := cascade_left_fp_frame A hg [1, 2, 3] h123 s2
        refine ⟨s3, ?_, ?_⟩
        · rw [e2]
          exact e3
        · intro i h1 h2
          rw [f3 i h1, f2 i h1, hdown i h1 h2]
      · exact ⟨_, rfl, hdown⟩

/-- With every rounding, `game_update` succeeds, and the rows `0, ..., y0` are
left as they were when no cell of them holds water before the step. -/
theorem game_update_fp_upper_rows (A : Arith) (g : Game) (y0 : Int)
    (hz : ∀ x' y', InGrid x' y' → y' ≤ y0 → (g.state (cell_index x' y')).volume = 0) :
    ∃ g', game_update_fp A g = some g' ∧
      ∀ x' y', InGrid x' y' → y' ≤ y0 → g'.state (cell_index x' y') = g.state (cell_index x' y') := by
  obtain ⟨ns, e, hI⟩ := simulate_fp_rule A g
    (fun _ s => ∀ x' y', InGrid x' y' → y' ≤ y0 → s (cell_index x' y') = g.state (cell_index x' y'))
    (snapshot g) (fun x' y' h' _ => snapshot_inArray g (inArray_cell_index h'))
    (by
      intro y s hy0 hy1 hJ
      exact update_row_fp_rule A g hy0 hy1
        (fun _ s => ∀ x' y', InGrid x' y' → y' ≤ y0 →
          s (cell_index x' y') = g.state (cell_index x' y')) s hJ
        (by
          intro x s1 hg hs1
          rw [update_cell_fp_eq A g hg]
          split
          · rename_i hw
            have hyy : y0 < y := by
              by_contra hle
              rw [hz x y hg (not_lt.mp hle)] at hw
              exact lt_irrefl _ hw.1
            obtain ⟨s2, e2, f2⟩ := process_water_cell_fp_frame A hg hw.2 s1
            refine ⟨s2, e2, ?_⟩
            intro x' y' h' hle
            have hg' := hg
            have h'' := h'
            rw [inGrid_iff] at hg' h''
            rw [f2 _ (fun x'' hx'' => by
                rw [inGrid_iff] at hx''
                rw [cell_index_eq, cell_index_eq]; omega)
              (by rw [cell_index_eq, cell_index_eq]; omega)]
            exact hs1 x' y' h' hle
          · exact ⟨s1, rfl, hs1⟩))
  refine ⟨committed g ns, by rw [game_update_fp_eq, e]; rfl, ?_⟩
  intro x' y' h' hle
  rw [committed_state, commit_inArray g ns (inArray_cell_index h')]
  exact hI x' y' h' hle

theorem fill_amount_fp_eq_min (A : Arith) (c t r : ℚ) :
    fill_amount_fp A c t r = min (A.to_float (c - t)) r := by
  unfold fill_amount_fp
  split
  · rename_i h
    exact (min_eq_right (le_of_lt h)).symm
  · rename_i h
    exact (min_eq_left (not_lt.mp h)).symm

/-- With every rounding: for a cell `(x, y)` of the grid above the bottom row,
`process_water_cell x y` gets to the cascade loops of `try_horizontal_flow`
exactly when, after the downward transfer, the cell below holds at least `1`
and the current cell is not exactly `0`; the guard `has_water_below` is true
whenever `try_horizontal_flow` is called from `process_water_cell`. -/
theorem lateral_spread_trigger_fp (A : Arith) (state : Cells) {x y : Int} (hg : InGrid x y)
    (hy : y + 1 < TILE_HEIGHT) :
    ∃ s1, fill_fp A state (cell_index x y) (cell_index x (y + 1)) 1 (1 / 2) = some s1 ∧
      reaches_cascade_fp A x y state =
        some (decide ((s1 (cell_index x (y + 1))).volume ≥ 1 ∧
          (s1 (cell_index x y)).volume ≠ 0)) ∧
      ((s1 (cell_index x y)).volume ≠ 0 → can_flow_down x y s1 = some false →
        has_water_below x y s1 = some true) ∧
      process_water_cell_fp A x y state =
        (if (s1 (cell_index x (y + 1))).volume ≥ 1 ∧ (s1 (cell_index x y)).volume ≠ 0
          then (cascade_right_fp A x y [1, 2, 3] s1).bind (cascade_left_fp A x y [1, 2, 3])
          else some s1) := by
  have hc := inArray_cell_index hg
  have hb := inArray_cell_index (inGrid_below hg hy)
  obtain ⟨s1, hs1⟩ : ∃ s1, s1 = move_fp A state (cell_index x y) (cell_index x (y + 1))
      (fill_amount_fp A 1 (state (cell_index x (y + 1))).volume (1 / 2)) := ⟨_, rfl⟩
  refine ⟨s1, by rw [hs1]; exact fill_fp_eq A hc hb 1 (1 / 2), ?_, ?_, ?_⟩
  · rw [reaches_cascade_fp_eq A hg hy, ← hs1]
    simp only
    by_cases h0 : (s1 (cell_index x y)).volume = 0
    · rw [if_pos h0, decide_eq_false (fun h => h.2 h0)]
    · rw [if_neg h0]
      by_cases h1 : (s1 (cell_index x (y + 1))).volume < 1
      · rw [if_pos h1, decide_eq_false (fun h => absurd h1 (not_lt.mpr h.1))]
      · have h2 : (s1 (cell_index x (y + 1))).volume > 1 / 2 := by
          have := not_lt.mp h1
          linarith
        rw [if_neg h1, decide_eq_true h2, decide_eq_true ⟨not_lt.mp h1, h0⟩]
  · intro _ hd
    rw [can_flow_down_eq hg hy] at hd
    have h1 : ¬ (s1 (cell_index x (y + 1))).volume < 1 :=
      of_decide_eq_false (Option.some.inj hd)
    have h2 : (s1 (cell_index x (y + 1))).volume > 1 / 2 := by
      have := not_lt.mp h1
      linarith
    rw [has_water_below_eq hg hy, decide_eq_true h2]
  · rw [process_water_cell_fp_eq A hg hy, ← hs1]
    simp only
    by_cases h0 : (s1 (cell_index x y)).volume = 0
    · rw [if_pos h0, if_neg (fun h => h.2 h0)]
    · rw [if_neg h0]
      by_cases h1 : (s1 (cell_index x (y + 1))).volume < 1
      · rw [if_pos h1, if_neg (fun h => absurd h1 (not_lt.mpr h.1))]
      · have h2 : (s1 (cell_index x (y + 1))).volume > 1 / 2 := by
          have := not_lt.mp h1
          linarith
        rw [if_neg h1, if_pos ⟨not_lt.mp h1, h0⟩, try_horizontal_flow_fp_eq A hg hy,
          if_pos h2]

/-! ## Claims C15, C17, C18 -/

/-- C15 (transfer is never negative), as the code has it: for a call of `fill`
on two cells of the array with the target's volume `t` at most the capacity `c`
and a rate `r ≥ 0`,
* in binary32 the amount moved is `m = min (fl (c - t)) r`, it satisfies
  `0 ≤ m ≤ r`, the call succeeds, and for two distinct cells the target ends
  at `fl (t + m)` and the source at `fl (s - m)`;
* over exact arithmetic the amount is `m = min (c - t) r`, it satisfies
  `0 ≤ m ≤ r`, the call succeeds and leaves the target at most at `c`; for two
  distinct cells the target ends at `t + m` and the source at `s - m`. -/
theorem C15_transfer_never_negative (state : Cells) (current target : Int) (c r : ℚ)
    (hc : InArray current) (ht : InArray target) (htc : (state target).volume ≤ c)
    (hr : 0 ≤ r) :
    (0 ≤ min (ieee_arith.to_float (c - (state target).volume)) r ∧
      min (ieee_arith.to_float (c - (state target).volume)) r ≤ r ∧
      ∃ st', fill_fp ieee_arith state current target c r = some st' ∧
        (current ≠ target →
          (st' target).volume = ieee_arith.to_float ((state target).volume +
            min (ieee_arith.to_float (c - (state target).volume)) r) ∧
          (st' current).volume = ieee_arith.to_float ((state current).volume -
            min (ieee_arith.to_float (c - (state target).volume)) r))) ∧
    (0 ≤ min (c - (state target).volume) r ∧ min (c - (state target).volume) r ≤ r ∧
      ∃ st', fill state current target c r = some st' ∧ (st' target).volume ≤ c ∧
        (current ≠ target →
          (st' target).volume = (state target).volume + min (c - (state target).volume) r ∧
          (st' current).volume = (state current).volume - min (c - (state target).volume) r)) := by
  refine ⟨?_, fill_transfer_bounds_exact state current target c r hc ht htc hr⟩
  have hb := fill_amount_fp_bounds htc hr
  rw [fill_amount_fp_eq_min] at hb
  refine ⟨hb.1, hb.2, _, fill_fp_eq ieee_arith hc ht c r, ?_⟩
  intro hne
  rw [fill_amount_fp_eq_min, move_fp_target ieee_arith _ hne, move_fp_current ieee_arith _ hne]
  exact ⟨rfl, rfl⟩

theorem C15_transfer_never_negative_witness :
    (0 ≤ min (ieee_arith.to_float (1 - ((stacked_game 5 3 1 (1 / 4)).state 325).volume)) (1 / 2) ∧
      min (ieee_arith.to_float (1 - ((stacked_game 5 3 1 (1 / 4)).state 325).volume)) (1 / 2) ≤
        1 / 2 ∧
      ∃ st', fill_fp ieee_arith (stacked_game 5 3 1 (1 / 4)).state 245 325 1 (1 / 2) = some st' ∧
        ((245 : Int) ≠ 325 →
          (st' 325).volume = ieee_arith.to_float (((stacked_game 5 3 1 (1 / 4)).state 325).volume +
            min (ieee_arith.to_float (1 - ((stacked_game 5 3 1 (1 / 4)).state 325).volume))
              (1 / 2)) ∧
          (st' 245).volume = ieee_arith.to_float (((stacked_game 5 3 1 (1 / 4)).state 245).volume -
            min (ieee_arith.to_float (1 - ((stacked_game 5 3 1 (1 / 4)).state 325).volume))
              (1 / 2)))) ∧
    (0 ≤ min (1 - ((stacked_game 5 3 1 (1 / 4)).state 325).volume) (1 / 2) ∧
      min (1 - ((stacked_game 5 3 1 (1 / 4)).state 325).volume) (1 / 2) ≤ 1 / 2 ∧
      ∃ st', fill (stacked_game 5 3 1 (1 / 4)).state 245 325 1 (1 / 2) = some st' ∧
        (st' 325).volume ≤ 1 ∧
        ((245 : Int) ≠ 325 →
          (st' 325).volume = ((stacked_game 5 3 1 (1 / 4)).state 325).volume +
            min (1 - ((stacked_game 5 3 1 (1 / 4)).state 325).volume) (1 / 2) ∧
          (st' 245).volume = ((stacked_game 5 3 1 (1 / 4)).state 245).volume -
            min (1 - ((stacked_game 5 3 1 (1 / 4)).state 325).volume) (1 / 2))) :=
  C15_transfer_never_negative (stacked_game 5 3 1 (1 / 4)).state 245 325 1 (1 / 2)
    ((inArray_iff 245).mpr (by decide)) ((inArray_iff 325).mpr (by decide))
    (by simp [stacked_game, cell_index_eq]; norm_num) (by norm_num)

/-- C17 (lateral-spread trigger), as the code has it: for a cell `(x, y)` of the
grid above the bottom row,
* with every rounding of the arithmetic, `process_water_cell x y` gets to the
  cascade loops of `try_horizontal_flow` exactly when, after the downward
  transfer, the cell below holds at least `1` and the current cell is not
  exactly `0`; the guard `has_water_below` is true whenever
  `try_horizontal_flow` is called from `process_water_cell`; and the result of
  the call is that of the two cascade loops in the first case and the array
  after the downward transfer otherwise;
* over exact arithmetic the same holds with the first condition replaced by:
  the cell below held at least `1/2` before the downward transfer. -/
theorem C17_lateral_spread_trigger (state : Cells) (x y : Int) (hg : InGrid x y)
    (hy : y + 1 < TILE_HEIGHT) :
    (∀ A : Arith,
      ∃ s1, fill_fp A state (cell_index x y) (cell_index x (y + 1)) 1 (1 / 2) = some s1 ∧
        reaches_cascade_fp A x y state =
          some (decide ((s1 (cell_index x (y + 1))).volume ≥ 1 ∧
            (s1 (cell_index x y)).volume ≠ 0)) ∧
        ((s1 (cell_index x y)).volume ≠ 0 → can_flow_down x y s1 = some false →
          has_water_below x y s1 = some true) ∧
        process_water_cell_fp A x y state =
          (if (s1 (cell_index x (y + 1))).volume ≥ 1 ∧ (s1 (cell_index x y)).volume ≠ 0
            then (cascade_right_fp A x y [1, 2, 3] s1).bind (cascade_left_fp A x y [1, 2, 3])
            else some s1)) ∧
    (∃ s1, fill state (cell_index x y) (cell_index x (y + 1)) 1 (1 / 2) = some s1 ∧
      reaches_cascade x y state =
        some (decide ((state (cell_index x (y + 1))).volume ≥ 1 / 2 ∧
          (s1 (cell_index x y)).volume ≠ 0)) ∧
      ((s1 (cell_index x y)).volume ≠ 0 → can_flow_down x y s1 = some false →
        has_water_below x y s1 = some true) ∧
      process_water_cell x y state =
        (if (state (cell_index x (y + 1))).volume ≥ 1 / 2 ∧ (s1 (cell_index x y)).volume ≠ 0
          then (cascade_right x y [1, 2, 3] s1).bind (cascade_left x y [1, 2, 3])
          else some s1)) :=
  ⟨fun A => lateral_spread_trigger_fp A state hg hy, lateral_spread_trigger_exact state x y hg hy⟩

theorem C17_lateral_spread_trigger_witness :
    (∀ A : Arith,
      ∃ s1, fill_fp A (stacked_game 5 3 1 1).state (cell_index 5 3) (cell_index 5 (3 + 1)) 1
          (1 / 2) = some s1 ∧
        reaches_cascade_fp A 5 3 (stacked_game 5 3 1 1).state =
          some (decide ((s1 (cell_index 5 (3 + 1))).volume ≥ 1 ∧
            (s1 (cell_index 5 3)).volume ≠ 0)) ∧
        ((s1 (cell_index 5 3)).volume ≠ 0 → can_flow_down 5 3 s1 = some false →
          has_water_below 5 3 s1 = some true) ∧
        process_water_cell_fp A 5 3 (stacked_game 5 3 1 1).state =
          (if (s1 (cell_index 5 (3 + 1))).volume ≥ 1 ∧ (s1 (cell_index 5 3)).volume ≠ 0
            then (cascade_right_fp A 5 3 [1, 2, 3] s1).bind (cascade_left_fp A 5 3 [1, 2, 3])
            else some s1)) ∧
    (∃ s1, fill (stacked_game 5 3 1 1).state (cell_index 5 3) (cell_index 5 (3 + 1)) 1 (1 / 2) =
        some s1 ∧
      reaches_cascade 5 3 (stacked_game 5 3 1 1).state =
        some (decide (((stacked_game 5 3 1 1).state (cell_index 5 (3 + 1))).volume ≥ 1 / 2 ∧
          (s1 (cell_index 5 3)).volume ≠ 0)) ∧
      ((s1 (cell_index 5 3)).volume ≠ 0 → can_flow_down 5 3 s1 = some false →
        has_water_below 5 3 s1 = some true) ∧
      process_water_cell 5 3 (stacked_game 5 3 1 1).state =
        (if ((stacked_game 5 3 1 1).state (cell_index 5 (3 + 1))).volume ≥ 1 / 2 ∧
            (s1 (cell_index 5 3)).volume ≠ 0
          then (cascade_right 5 3 [1, 2, 3] s1).bind (cascade_left 5 3 [1, 2, 3])
          else some s1)) :=
  C17_lateral_spread_trigger (stacked_game 5 3 1 1).state 5 3 ((inGrid_iff 5 3).mpr (by decide))
    (by decide)

/-- C18 (water never moves upward), as the code has it:
* over exact arithmetic, if every cell volume is at most `1`, then for every
  row `y` the volume held in rows `0, ..., y` after one `game_update` is at
  most the volume held there before, and if rows `0, ..., y` are all empty
  before the step, they are all empty after it;
* with every rounding of the arithmetic, `game_update` succeeds, and if rows
  `0, ..., y` are all empty before the step, they are all empty after it. -/
theorem C18_water_never_moves_upward (g : Game) (h : ∀ i, InArray i → (g.state i).volume ≤ 1)
    (y : Int) (hy0 : 0 ≤ y) (hy1 : y < TILE_HEIGHT) :
    (∃ g', game_update g = some g' ∧
      rows_volume y g'.state ≤ rows_volume y g.state ∧
      ((∀ x' y', InGrid x' y' → y' ≤ y → (g.state (cell_index x' y')).volume = 0) →
        ∀ x' y', InGrid x' y' → y' ≤ y → (g'.state (cell_index x' y')).volume = 0)) ∧
    (∀ A : Arith, ∃ g', game_update_fp A g = some g' ∧
      ((∀ x' y', InGrid x' y' → y' ≤ y → (g.state (cell_index x' y')).volume = 0) →
        ∀ x' y', InGrid x' y' → y' ≤ y → (g'.state (cell_index x' y')).volume = 0)) := by
  refine ⟨upper_rows_volume_exact g h y hy0 hy1, ?_⟩
  intro A
  obtain ⟨g', e, -⟩ := game_update_fp_upper_rows A g (-1) (by
    intro x' y' h' hle
    rw [inGrid_iff] at h'
    omega)
  refine ⟨g', e, ?_⟩
  intro hz x' y' h' hle
  obtain ⟨g'', e', hkeep⟩ := game_update_fp_upper_rows A g y hz
  rw [e] at e'
  rw [Option.some.inj e', hkeep x' y' h' hle]
  exact hz x' y' h' hle

theorem C18_water_never_moves_upward_witness :
    (∃ g', game_update (single_cell_game 5 3 1) = some g' ∧
      rows_volume 3 g'.state ≤ rows_volume 3 (single_cell_game 5 3 1).state ∧
      ((∀ x' y', InGrid x' y' → y' ≤ 3 →
          ((single_cell_game 5 3 1).state (cell_index x' y')).volume = 0) →
        ∀ x' y', InGrid x' y' → y' ≤ 3 → (g'.state (cell_index x' y')).volume = 0)) ∧
    (∀ A : Arith, ∃ g', game_update_fp A (single_cell_game 5 3 1) = some g' ∧
      ((∀ x' y', InGrid x' y' → y' ≤ 3 →
          ((single_cell_game 5 3 1).state (cell_index x' y')).volume = 0) →
        ∀ x' y', InGrid x' y' → y' ≤ 3 → (g'.state (cell_index x' y')).volume = 0)) :=
  C18_water_never_moves_upward (single_cell_game 5 3 1)
    (fun i _ => by
      unfold single_cell_game
      by_cases hi : i = cell_index 5 3
      · simp only [if_pos hi]; norm_num
      · simp only [if_neg hi]; norm_num)
    3 (by decide) (by decide)

/-! ## Claim C10 -/

/-- C10 (boundary safety): `game_update` succeeds on every game, over exact
arithmetic and with every rounding of the arithmetic, that is, no array access
of the two copy loops and of the simulation loop leaves `[0, 3200)` (an access
outside makes `load` and `store` fail); the array has
`3200` cells and every cell of the grid has its index in it; the simulation
loop invokes `process_water_cell` only for a wet cell with a row below it, whose
downward target is in the array; each cascade loop of `try_horizontal_flow`
passes to its body exactly the offsets before the first failure of its column
test, every such lateral target has its column in `[0, TILE_WIDTH)` and its
index in the array; and the lateral spread changes no cell outside row `y`. -/
theorem C10_boundary_safety :
    (∀ g : Game, ∃ g', game_update g = some g') ∧
    (∀ (A : Arith) (g : Game), ∃ g', game_update_fp A g = some g') ∧
    (∀ (state : Cells) (i : Int) (d : Droplet), ¬ (0 ≤ i ∧ i < 3200) →
      load state i = none ∧ store state i d = none) ∧
    STATE_LEN = 3200 ∧
    (∀ x y : Int, InGrid x y → 0 ≤ cell_index x y ∧ cell_index x y < 3200) ∧
    (∀ (g : Game) (x y : Int) (st : Cells), InGrid x y →
      update_cell g x y st =
        if (g.state (cell_index x y)).volume > 0 ∧ y + 1 < TILE_HEIGHT then
          process_water_cell x y st
        else some st) ∧
    (∀ x y : Int, InGrid x y → y + 1 < TILE_HEIGHT →
      0 ≤ cell_index x (y + 1) ∧ cell_index x (y + 1) < 3200) ∧
    (∀ (x y : Int) (state : Cells),
      cascade_right x y [1, 2, 3] state =
        (([1, 2, 3] : List Int).takeWhile (fun o => decide (x + o < TILE_WIDTH))).foldlM
          (fun s o => cascade_cell (cell_index x y) (cell_index (x + o) y) o s) state) ∧
    (∀ x y offset : Int, InGrid x y →
      offset ∈ ([1, 2, 3] : List Int).takeWhile (fun o => decide (x + o < TILE_WIDTH)) →
      0 ≤ x + offset ∧ x + offset < TILE_WIDTH ∧
        0 ≤ cell_index (x + offset) y ∧ cell_index (x + offset) y < 3200) ∧
    (∀ (x y : Int) (state : Cells),
      cascade_left x y [1, 2, 3] state =
        (([1, 2, 3] : List Int).takeWhile (fun o => decide (x - o ≥ 0))).foldlM
          (fun s o => cascade_cell (cell_index x y) (cell_index (x - o) y) o s) state) ∧
    (∀ x y offset : Int, InGrid x y →
      offset ∈ ([1, 2, 3] : List Int).takeWhile (fun o => decide (x - o ≥ 0)) →
      0 ≤ x - offset ∧ x - offset < TILE_WIDTH ∧
        0 ≤ cell_index (x - offset) y ∧ cell_index (x - offset) y < 3200) ∧
    (∀ (x y : Int) (state : Cells), InGrid x y →
      ∃ st', try_horizontal_flow x y state = some st' ∧
        ∀ i, (∀ x', InGrid x' y → i ≠ cell_index x' y) → st' i = state i) := by
  have hW := TILE_WIDTH_eq
  have hH := TILE_HEIGHT_eq
  refine ⟨?_, ?_, ?_, STATE_LEN_eq, ?_, ?_, ?_, ?_, ?_, ?_, ?_, ?_⟩
  · intro g
    obtain ⟨g', h, -⟩ := game_update_inv (I := fun _ => True)
      (fun _ _ _ _ _ _ _ _ _ => trivial) (fun _ _ _ _ => trivial) g trivial
    exact ⟨g', h⟩
  · intro A g
    obtain ⟨g', h, -⟩ := game_update_fp_upper_rows A g (-1) (by
      intro x' y' h' hle
      rw [inGrid_iff] at h'
      omega)
    exact ⟨g', h⟩
  · intro state i d h
    have h' : ¬ InArray i := by rw [inArray_iff]; exact h
    exact ⟨load_eq_none h', store_eq_none h' d⟩
  · intro x y h
    exact (inArray_iff _).mp (inArray_cell_index h)
  · intro g x y st h
    exact update_cell_eq g h st
  · intro x y h hy
    exact (inArray_iff _).mp (inArray_cell_index (inGrid_below h hy))
  · intro x y state
    exact cascade_right_eq_foldlM x y [1, 2, 3] state
  · intro x y o h hmem
    obtain ⟨hp, o1, o3⟩ := mem_takeWhile_123 hmem
    have hlt : x + o < TILE_WIDTH := by simpa using hp
    have h' := h
    rw [inGrid_iff] at h'
    have hg : InGrid (x + o) y := by rw [inGrid_iff]; omega
    have := (inArray_iff _).mp (inArray_cell_index hg)
    exact ⟨by omega, hlt, this.1, this.2⟩
  · intro x y state
    exact cascade_left_eq_foldlM x y [1, 2, 3] state
  · intro x y o h hmem
    obtain ⟨hp, o1, o3⟩ := mem_takeWhile_123 hmem
    have hge : x - o ≥ 0 := by simpa using hp
    have h' := h
    rw [inGrid_iff] at h'
    have hg : InGrid (x - o) y := by rw [inGrid_iff]; omega
    have := (inArray_iff _).mp (inArray_cell_index hg)
    exact ⟨by omega, by omega, this.1, this.2⟩
  · intro x y state h
    exact try_horizontal_flow_row_frame h state

end WaterSim
